import Mathlib

/-!
# HPACK encoder core

A shallow embedding of `src/core/ext/transport/chttp2/transport/hpack_encoder.cc`
and the properties its specification states about it.

Conventions of the embedding.

* A byte is a `Nat` below 256; a `static_cast<uint8_t>` is `u8`.
* A `grpc_slice` is the list of its bytes; the output `grpc_slice_buffer` is the
  list of the bytes it holds, and a position in it is a byte offset.
* `GPR_DEBUG_ASSERT` is compiled out of release builds: the functions follow the
  release behaviour. `GPR_ASSERT(false)` aborts: the function returns `none`.
* `Framer::Add` recurses on the remainder of the slice; the embedding gives it
  fuel and returns `none` when the fuel runs out.
* Statistics macros (`GRPC_STATS_INC_*`) and trace logging write to global
  telemetry only and are left out.
-/

namespace grpc_core

/-! ## Constants -/

/-- The constant `kMaxDecoderSpaceUsage`: nothing this big or bigger is
considered for the hpack table. -/
def kMaxDecoderSpaceUsage : Nat := 512

/-- The constant `kDataFrameHeaderSize`. -/
def kDataFrameHeaderSize : Nat := 9

/-- Modelled from the spec: the frame type HEADERS (`frame.h` is not among the
sources), "type = 0x01 (HEADERS)". -/
def GRPC_CHTTP2_FRAME_HEADER : Nat := 0x01

/-- Modelled from the spec: the frame type CONTINUATION, "0x09 (CONTINUATION)". -/
def GRPC_CHTTP2_FRAME_CONTINUATION : Nat := 0x09

/-- Modelled from the spec: the flag END_STREAM, "END_STREAM=0x01". -/
def GRPC_CHTTP2_DATA_FLAG_END_STREAM : Nat := 0x01

/-- Modelled from the spec: the flag END_HEADERS, "END_HEADERS=0x04". -/
def GRPC_CHTTP2_DATA_FLAG_END_HEADERS : Nat := 0x04

/-- Modelled from the spec: `hpack_constants::kLastStaticEntry`, "fixed 61-entry
table shared by all HPACK peers, indices 1..61". -/
def kLastStaticEntry : Nat := 61

/-- Modelled from the spec: `hpack_constants::kEntryOverhead`, "Entry size follows
RFC 7541 §4.1: key_len + value_len + 32". -/
def kEntryOverhead : Nat := 32

/-- Modelled from the spec: `hpack_constants::kInitialTableSize`, "default 4096". -/
def kInitialTableSize : Nat := 4096

/-! ## Machine arithmetic -/

/-- The cast `static_cast<uint8_t>(n)`. -/
def u8 (n : Nat) : Nat := n % 256

/-- Subtraction of two `size_t` values (64 bits): the difference when it is not
negative, and the value wrapped around `2 ^ 64` when it is. -/
def size_sub (a b : Nat) : Nat := if b ≤ a then a - b else a + 2 ^ 64 - b

/-! ## Slices and the output buffer -/

/-- Writing `bs` through a pointer to offset `pos` of the buffer `out`. -/
def store (out : List Nat) (pos : Nat) (bs : List Nat) : List Nat :=
  out.take pos ++ bs ++ out.drop (pos + bs.length)

/-- Modelled from the spec: `grpc_slice_buffer_add_indexed` (the slice buffer
library is not among the sources). The buffer is "a growable slice-buffer (byte
stream being built)"; the slice is appended and the handle returned locates it,
here by the byte offset at which it starts. -/
def grpc_slice_buffer_add_indexed (out : List Nat) (slice : List Nat) : Nat × List Nat :=
  (out.length, out ++ slice)

/-- Modelled from the spec: `grpc_slice_buffer_add`, "appends to output". -/
def grpc_slice_buffer_add (out : List Nat) (slice : List Nat) : List Nat :=
  out ++ slice

/-- Modelled from the spec: `grpc_slice_buffer_tiny_add`, "reserves exactly n
bytes, returns a mutable cursor": the bytes are appended (zero until written)
and the cursor is the offset of the first of them. -/
def grpc_slice_buffer_tiny_add (out : List Nat) (len : Nat) : Nat × List Nat :=
  (out.length, out ++ List.replicate len 0)

/-- Modelled from the spec: `grpc_slice_split_head`, "splits at the boundary":
the first `split` bytes are returned and the slice keeps the rest. -/
def grpc_slice_split_head (slice : List Nat) (split : Nat) : List Nat × List Nat :=
  (slice.take split, slice.drop split)

/-! ## The dynamic table -/

/-- Modelled from the spec: the class `HPackEncoderTable` (hpack_encoder_table.h
is not among the sources). The spec's DynamicTable holds the maximum byte
budget, "current_size: sum of entry sizes currently live", "next_index: next
insertion index", "first_live_index: lowest insertion index still considered
present" and "a FIFO queue of (index, size) pairs". The cap `max_usable_size`
is a member of the compressor in the source, which passes the smaller of the
two to `SetMaxSize`; `max_size` is therefore the effective maximum. -/
structure HPackEncoderTable where
  max_size : Nat
  current_size : Nat
  next_index : Nat
  first_live_index : Nat
  queue : List (Nat × Nat)
deriving DecidableEq, Repr

/-- Modelled from the spec: the table at construction, "table at default max
4096"; `next_index` "starts at a known base above the static table size of 61". -/
def HPackEncoderTable.init : HPackEncoderTable :=
  { max_size := kInitialTableSize, current_size := 0, next_index := kLastStaticEntry + 1,
    first_live_index := kLastStaticEntry + 1, queue := [] }

/-- Modelled from the spec: one eviction, "eviction always removes the oldest
(smallest-index) entries". -/
def HPackEncoderTable.EvictOne (t : HPackEncoderTable) : HPackEncoderTable :=
  match t.queue with
  | [] => t
  | (i, sz) :: q =>
    { t with queue := q, current_size := t.current_size - sz, first_live_index := i + 1 }

/-- Modelled from the spec: "evicts oldest entries until it fits": entries are
evicted for as long as `current_size + need` exceeds the maximum. The loop runs
at most once per queued entry. -/
def HPackEncoderTable.EvictUntilFits (need : Nat) : Nat → HPackEncoderTable → HPackEncoderTable
  | 0, t => t
  | n + 1, t =>
    if t.current_size + need ≤ t.max_size then t
    else EvictUntilFits need n (EvictOne t)

/-- Modelled from the spec: "set_max_size(new_max) → changed: bool: updates
max_size, evicts until current_size ≤ effective_max, returns whether the peer
must be advertised a change". -/
def HPackEncoderTable.SetMaxSize (t : HPackEncoderTable) (max_table_size : Nat) : Bool × HPackEncoderTable :=
  let changed := max_table_size != t.max_size
  let t := { t with max_size := max_table_size }
  (changed, EvictUntilFits 0 t.queue.length t)

/-- Modelled from the spec: "allocate_index(entry_size) → index | 0: if
entry_size > effective_max, returns 0 (RFC 7541 §4.4: clears whole table). If
entry_size fits, evicts oldest entries until it fits, pushes new entry, returns
next_index++. Returning 0 also clears all live entries." -/
def HPackEncoderTable.AllocateIndex (t : HPackEncoderTable) (element_size : Nat) : Nat × HPackEncoderTable :=
  if element_size > t.max_size then
    (0, { t with queue := [], current_size := 0, first_live_index := t.next_index })
  else
    let t := EvictUntilFits element_size t.queue.length t
    (t.next_index,
      { t with queue := t.queue ++ [(t.next_index, element_size)],
               current_size := t.current_size + element_size,
               next_index := t.next_index + 1 })

/-- Modelled from the spec: "convertible_to_dynamic_index(insertion_index) →
bool: true iff insertion_index ∈ [first_live_index, next_index)". -/
def HPackEncoderTable.ConvertableToDynamicIndex (t : HPackEncoderTable) (index : Nat) : Bool :=
  decide (t.first_live_index ≤ index) && decide (index < t.next_index)

/-- Modelled from the spec: "dynamic_index(insertion_index) → wire_index: HPACK
wire index = static_table_size + (next_index - insertion_index)". -/
def HPackEncoderTable.DynamicIndex (t : HPackEncoderTable) (index : Nat) : Nat :=
  kLastStaticEntry + (t.next_index - index)

/-! ## Index caches and the filter -/

/-- Modelled from the spec: the class `HPackEncoderIndex` (hpack_encoder_index.h
is not among the sources): "map from entry hash to insertion index (latest
winner on collision)", "only hashes are compared". The newest binding is at
the head. -/
structure HPackEncoderIndex where
  entries : List (Nat × Nat)
deriving DecidableEq, Repr

/-- Modelled from the spec: "Lookup: cache.get(hash) → Option<insertion_index>". -/
def HPackEncoderIndex.Lookup (c : HPackEncoderIndex) (hash : Nat) : Option Nat :=
  c.entries.lookup hash

/-- Modelled from the spec: "Insert: cache.put(hash, index) (may overwrite)". -/
def HPackEncoderIndex.Insert (c : HPackEncoderIndex) (hash index : Nat) : HPackEncoderIndex :=
  { entries := (hash, index) :: c.entries }

/-- Modelled from the spec: `kNumFilterValues`, the number of filter buckets,
"implementation-chosen, e.g. 256". -/
def kNumFilterValues : Nat := 256

/-- Modelled from the spec: the class `PopularityCount` (popularity_count.h is
not among the sources), a "fixed-width counting filter over entry hashes": one
counter per bucket. -/
structure PopularityCount where
  elems : List Nat
deriving DecidableEq, Repr

/-- Modelled from the spec: "add(hash_mod_size) → already_seen: bool increments
the bucket and returns true iff the bucket was previously nonzero". -/
def PopularityCount.AddElement (p : PopularityCount) (idx : Nat) : Bool × PopularityCount :=
  (p.elems.getD idx 0 != 0, { elems := p.elems.set idx (p.elems.getD idx 0 + 1) })

/-! ## The compressor -/

/-- A `Slice` as the `user-agent` path sees it: `is_equivalent` compares the
identity of the storage, so the identity is carried next to the bytes. -/
structure Slice where
  ident : Nat
  bytes : List Nat
deriving DecidableEq, Repr

/-- Modelled from the spec: `Slice::is_equivalent`, "identity of the value
(pointer/ref equality)". -/
def Slice.is_equivalent (a b : Slice) : Bool := a.ident == b.ident

/-- The struct `SliceIndex::ValueIndex`: a value and its insertion index. -/
structure ValueIndex where
  value : List Nat
  index : Nat
deriving DecidableEq, Repr

/-- The class `HPackCompressor::SliceIndex`: the list `values_`. -/
structure SliceIndex where
  values : List ValueIndex
deriving DecidableEq, Repr

/-- The members of `HPackCompressor` that the source file reads and writes.
The declared size of `cached_grpc_status_` is `kNumCachedGrpcStatusValues`. -/
structure HPackCompressor where
  max_usable_size : Nat
  advertise_table_size_change : Bool
  table : HPackEncoderTable
  filter_elems : PopularityCount
  elem_index : HPackEncoderIndex
  key_index : HPackEncoderIndex
  path_index : SliceIndex
  authority_index : SliceIndex
  te_index : Nat
  content_type_index : Nat
  user_agent_index : Nat
  cached_grpc_status : List Nat
  grpc_trace_bin_index : Nat
  grpc_tags_bin_index : Nat
  user_agent : Slice
deriving DecidableEq, Repr

/-- The constant `kNumCachedGrpcStatusValues`, the declared size of the array
`cached_grpc_status_`. -/
def kNumCachedGrpcStatusValues (c : HPackCompressor) : Nat := c.cached_grpc_status.length

/-! ## The framer -/

/-- The two counters of `grpc_transport_one_way_stats` that the framer updates. -/
structure Stats where
  framing_bytes : Nat
  header_bytes : Nat
deriving DecidableEq, Repr

/-- The struct `Framer::FramePrefix`. -/
structure FramePrefix where
  header_idx : Nat
  output_length_at_start_of_frame : Nat
deriving DecidableEq, Repr

/-- The struct `EncodeHeaderOptions`. -/
structure EncodeHeaderOptions where
  stream_id : Nat
  is_end_of_stream : Bool
  use_true_binary_metadata : Bool
  max_frame_size : Nat
  stats : Stats
deriving DecidableEq, Repr

/-- The class `HPackCompressor::Framer`. The pointers `output_`, `stats_` and
`compressor_` are held by value: the framer is the only writer while it lives. -/
structure Framer where
  max_frame_size : Nat
  use_true_binary_metadata : Bool
  is_end_of_stream : Bool
  stream_id : Nat
  output : List Nat
  stats : Stats
  compressor : HPackCompressor
  prefix_ : FramePrefix
  is_first_frame : Bool
deriving DecidableEq, Repr

/-- The nine bytes `FillHeader` writes to `p`. -/
def FillHeader (type id len flags : Nat) : List Nat :=
  [u8 (len >>> 16), u8 (len >>> 8), u8 len, type, flags,
   u8 (id >>> 24), u8 (id >>> 16), u8 (id >>> 8), u8 id]

/-- The condition of the debug assertion at the head of `FillHeader`. -/
def FillHeader_assertion (len : Nat) : Bool := decide (len < 16777316)

/-- The function `Framer::CurrentFrameSize`. -/
def Framer.CurrentFrameSize (f : Framer) : Nat :=
  size_sub f.output.length f.prefix_.output_length_at_start_of_frame

/-- The function `Framer::FinishFrame`: fill in the previously reserved header. -/
def Framer.FinishFrame (f : Framer) (is_header_boundary : Bool) : Framer :=
  let type := if f.is_first_frame then GRPC_CHTTP2_FRAME_HEADER
              else GRPC_CHTTP2_FRAME_CONTINUATION
  let flags := 0
  let flags := if f.is_first_frame && f.is_end_of_stream
               then flags ||| GRPC_CHTTP2_DATA_FLAG_END_STREAM else flags
  let flags := if is_header_boundary
               then flags ||| GRPC_CHTTP2_DATA_FLAG_END_HEADERS else flags
  { f with
    output := store f.output f.prefix_.header_idx
                (FillHeader type f.stream_id f.CurrentFrameSize flags)
    stats := { f.stats with framing_bytes := f.stats.framing_bytes + kDataFrameHeaderSize }
    is_first_frame := false }

/-- The function `Framer::BeginFrame`: reserve the header space and remember how
many bytes had been output. -/
def Framer.BeginFrame (f : Framer) : FramePrefix × Framer :=
  let reserved := List.replicate kDataFrameHeaderSize 0
  let r := grpc_slice_buffer_add_indexed f.output reserved
  let f := { f with output := r.2 }
  ({ header_idx := r.1, output_length_at_start_of_frame := f.output.length }, f)

/-- The function `Framer::EnsureSpace`. -/
def Framer.EnsureSpace (f : Framer) (need_bytes : Nat) : Framer :=
  if f.CurrentFrameSize + need_bytes ≤ f.max_frame_size then f
  else
    let f := f.FinishFrame false
    let r := f.BeginFrame
    { r.2 with prefix_ := r.1 }

/-- The function `Framer::Add`, with fuel for the recursive call. -/
def Framer.AddFuel : Nat → Framer → List Nat → Option Framer
  | 0, _, _ => none
  | fuel + 1, f, slice =>
    let len := slice.length
    if len = 0 then some f
    else
      let remaining := size_sub f.max_frame_size f.CurrentFrameSize
      if len ≤ remaining then
        some { f with
          stats := { f.stats with header_bytes := f.stats.header_bytes + len }
          output := grpc_slice_buffer_add f.output slice }
      else
        let f := { f with stats := { f.stats with header_bytes := f.stats.header_bytes + remaining } }
        let s := grpc_slice_split_head slice remaining
        let f := { f with output := grpc_slice_buffer_add f.output s.1 }
        let f := f.FinishFrame false
        let r := f.BeginFrame
        AddFuel fuel { r.2 with prefix_ := r.1 } s.2

/-- The function `Framer::Add`. A frame size of at least one byte makes every
recursive call but the first strictly shorter, so `len + 2` calls are enough;
`none` is the call that does not return. -/
def Framer.Add (f : Framer) (slice : List Nat) : Option Framer :=
  AddFuel (slice.length + 2) f slice

/-- The function `Framer::AddTiny`: the offset of the reserved bytes and the
framer after the call. -/
def Framer.AddTiny (f : Framer) (len : Nat) : Nat × Framer :=
  let f := f.EnsureSpace len
  let f := { f with stats := { f.stats with header_bytes := f.stats.header_bytes + len } }
  let r := grpc_slice_buffer_tiny_add f.output len
  (r.1, { f with output := r.2 })

/-- Writing `bs` through the pointer `AddTiny` returned. -/
def Framer.Write (f : Framer) (pos : Nat) (bs : List Nat) : Framer :=
  { f with output := store f.output pos bs }

/-! ## Varint writer -/

/-- Modelled from the spec: the continuation bytes of an RFC 7541 §5.1 integer:
seven bits a byte, least significant group first, the top bit set on every byte
but the last. The first argument bounds the number of bytes. -/
def VarintWriteTail : Nat → Nat → List Nat
  | 0, v => [v]
  | n + 1, v => if v < 128 then [v] else (v % 128 + 128) :: VarintWriteTail n (v / 128)

/-- Modelled from the spec: the class `VarintWriter<kPrefixBits>` (varint.h is
not among the sources): "encodes non-negative integers under an HPACK N-bit
prefix"; the template arguments 1, 2, 3, 4 are "the 7-, 6-, 5-, 4-bit prefix
forms". -/
structure VarintWriter where
  kPrefixBits : Nat
  value : Nat
deriving DecidableEq, Repr

/-- The largest value the prefix alone can hold, plus one: all prefix bits set. -/
def VarintWriter.kMaxInPrefix (w : VarintWriter) : Nat := 2 ^ (8 - w.kPrefixBits) - 1

/-- Modelled from the spec: the bytes `Write(prefix, target)` stores at `target`
(RFC 7541 §5.1): the value in the prefix when it is below the all-ones prefix,
otherwise the all-ones prefix followed by the rest in 7-bit groups. -/
def VarintWriter.Write (w : VarintWriter) (high_bits : Nat) : List Nat :=
  if w.value < w.kMaxInPrefix then [high_bits ||| w.value]
  else (high_bits ||| w.kMaxInPrefix) :: VarintWriteTail w.value (w.value - w.kMaxInPrefix)

/-- Modelled from the spec: "the writer precomputes its length": the number of
bytes `Write` stores. -/
def VarintWriter.length (w : VarintWriter) : Nat := (w.Write 0).length

/-! ## Collaborators, keys and values -/

/-- The collaborators the encoder consumes, "treated as pure functions":
`huffman_compress(bytes) → bytes`, `base64url_encode(bytes) → bytes`, the clock
`now()` read by `ExecCtx::Get()->Now()`, the timeout grammar
`grpc_http2_encode_timeout`, and the hash of the static key `grpc-timeout`. -/
structure Collaborators where
  huffman_compress : List Nat → List Nat
  base64url_encode : List Nat → List Nat
  Now : Int
  grpc_http2_encode_timeout : Int → List Nat
  grpc_timeout_key_hash : Nat

/-- The function `grpc_chttp2_base64_encode_and_huffman_compress`. -/
def Collaborators.grpc_chttp2_base64_encode_and_huffman_compress (env : Collaborators)
    (value : List Nat) : List Nat :=
  env.huffman_compress (env.base64url_encode value)

/-- Modelled from the spec: `grpc_is_binary_header_internal`, "true when key ends
in -bin". -/
def grpc_is_binary_header_internal (key : List Nat) : Bool :=
  [45, 98, 105, 110].isSuffixOf key

/-- Modelled from the spec: `gpr_ltoa`, "the decimal ASCII" of a number that is
not negative; the first argument bounds the number of digits. -/
def gpr_ltoa_digits : Nat → Nat → List Nat → List Nat
  | 0, n, acc => (48 + n % 10) :: acc
  | k + 1, n, acc =>
    if n < 10 then (48 + n) :: acc else gpr_ltoa_digits k (n / 10) ((48 + n % 10) :: acc)

/-- Modelled from the spec: `gpr_ltoa` on a value that is not negative. -/
def gpr_ltoa (n : Nat) : List Nat := gpr_ltoa_digits n n []

/-- The static string `:path`. -/
def GRPC_MDSTR_PATH : List Nat := [58, 112, 97, 116, 104]
/-- The static string `:authority`. -/
def GRPC_MDSTR_AUTHORITY : List Nat := [58, 97, 117, 116, 104, 111, 114, 105, 116, 121]
/-- The static string `te`. -/
def GRPC_MDSTR_TE : List Nat := [116, 101]
/-- The static string `trailers`. -/
def GRPC_MDSTR_TRAILERS : List Nat := [116, 114, 97, 105, 108, 101, 114, 115]
/-- The static string `content-type`. -/
def GRPC_MDSTR_CONTENT_TYPE : List Nat := [99, 111, 110, 116, 101, 110, 116, 45, 116, 121, 112, 101]
/-- The static string `application/grpc`. -/
def STR_APPLICATION_GRPC : List Nat :=
  [97, 112, 112, 108, 105, 99, 97, 116, 105, 111, 110, 47, 103, 114, 112, 99]
/-- The static string `:status`. -/
def GRPC_MDSTR_STATUS : List Nat := [58, 115, 116, 97, 116, 117, 115]
/-- The static string `:method`. -/
def STR_METHOD : List Nat := [58, 109, 101, 116, 104, 111, 100]
/-- The static string `PUT`. -/
def STR_PUT : List Nat := [80, 85, 84]
/-- The static string `user-agent`. -/
def GRPC_MDSTR_USER_AGENT : List Nat := [117, 115, 101, 114, 45, 97, 103, 101, 110, 116]
/-- The string `grpc-trace-bin`. -/
def STR_GRPC_TRACE_BIN : List Nat := [103, 114, 112, 99, 45, 116, 114, 97, 99, 101, 45, 98, 105, 110]
/-- The string `grpc-tags-bin`. -/
def STR_GRPC_TAGS_BIN : List Nat := [103, 114, 112, 99, 45, 116, 97, 103, 115, 45, 98, 105, 110]
/-- The string `GrpcStatusMetadata::key()`, `grpc-status`. -/
def GrpcStatusMetadata_key : List Nat := [103, 114, 112, 99, 45, 115, 116, 97, 116, 117, 115]

/-- The struct `WireValue`. -/
structure WireValue where
  data : List Nat
  huffman_prefix : Nat
  insert_null_before_wire_value : Bool
  length : Nat
deriving DecidableEq, Repr

/-- The constructor of `WireValue`. -/
def WireValue.new ( huffman_prefix : Nat) (insert_null_before_wire_value : Bool)
    (slice : List Nat) : WireValue :=
  { data := slice, huffman_prefix := huffman_prefix,
    insert_null_before_wire_value := insert_null_before_wire_value,
    length := slice.length + (if insert_null_before_wire_value then 1 else 0) }

/-- The function `GetWireValue`. -/
def GetWireValue (env : Collaborators) (value : List Nat) (true_binary_enabled : Bool)
    (is_bin_hdr : Bool) : WireValue :=
  if is_bin_hdr then
    if true_binary_enabled then WireValue.new 0x00 true value
    else WireValue.new 0x80 false (env.grpc_chttp2_base64_encode_and_huffman_compress value)
  else WireValue.new 0x00 false value

/-- The classes `StringValue` and `BinaryStringValue`: a wire value and the
writer of its length. -/
structure StringValue where
  wire_value : WireValue
  len_val : VarintWriter
deriving DecidableEq, Repr

/-- The constructor of `StringValue`; `is_binary` is `MetadataKeyType::IsBinary`
of the key. -/
def StringValue.new (env : Collaborators) (is_binary : Bool) (value : List Nat)
    (use_true_binary_metadata : Bool) : StringValue :=
  let wv := GetWireValue env value use_true_binary_metadata is_binary
  { wire_value := wv, len_val := { kPrefixBits := 1, value := wv.length } }

/-- The constructor of `BinaryStringValue`. -/
def StringValue.newBinary (env : Collaborators) (value : List Nat) (use_true_binary_metadata : Bool) :
    StringValue :=
  let wv := GetWireValue env value use_true_binary_metadata true
  { wire_value := wv, len_val := { kPrefixBits := 1, value := wv.length } }

/-- The function `prefix_length`. -/
def StringValue.prefix_length (s : StringValue) : Nat :=
  s.len_val.length + (if s.wire_value.insert_null_before_wire_value then 1 else 0)

/-- The bytes `WritePrefix` stores at `prefix_data`. -/
def StringValue.WritePrefix (s : StringValue) : List Nat :=
  s.len_val.Write ( WireValue.huffman_prefix s.wire_value) ++
    (if s.wire_value.insert_null_before_wire_value then [0] else [])

/-- The function `data`. -/
def StringValue.data (s : StringValue) : List Nat := s.wire_value.data

/-- The class `NonBinaryStringValue`. -/
structure NonBinaryStringValue where
  value : List Nat
  len_val : VarintWriter
deriving DecidableEq, Repr

/-- The constructor of `NonBinaryStringValue`. -/
def NonBinaryStringValue.new (value : List Nat) : NonBinaryStringValue :=
  { value := value, len_val := { kPrefixBits := 1, value := value.length } }

/-- The function `prefix_length`. -/
def NonBinaryStringValue.prefix_length (s : NonBinaryStringValue) : Nat := s.len_val.length

/-- The bytes `WritePrefix` stores at `prefix_data`. -/
def NonBinaryStringValue.WritePrefix (s : NonBinaryStringValue) : List Nat := s.len_val.Write 0x00

/-- The function `data`. -/
def NonBinaryStringValue.data (s : NonBinaryStringValue) : List Nat := s.value

/-- The class `StringKey`. -/
structure StringKey where
  key : List Nat
  len_key : VarintWriter
deriving DecidableEq, Repr

/-- The constructor of `StringKey`. -/
def StringKey.new (key : List Nat) : StringKey :=
  { key := key, len_key := { kPrefixBits := 1, value := key.length } }

/-- The function `prefix_length`. -/
def StringKey.prefix_length (k : StringKey) : Nat := 1 + k.len_key.length

/-- The bytes `WritePrefix(type, data)` stores at `data`. -/
def StringKey.WritePrefix (k : StringKey) (type : Nat) : List Nat :=
  type :: k.len_key.Write 0x00

/-! ## Emission of the HPACK representations -/

/-- The function `Framer::EmitIndexed`. -/
def Framer.EmitIndexed (f : Framer) (elem_index : Nat) : Framer :=
  let w : VarintWriter := { kPrefixBits := 1, value := elem_index }
  let r := f.AddTiny w.length
  r.2.Write r.1 (w.Write 0x80)

/-- The function `Framer::EmitLitHdrWithNonBinaryStringKeyIncIdx`. -/
def Framer.EmitLitHdrWithNonBinaryStringKeyIncIdx (f : Framer) (key_slice value_slice : List Nat) :
    Option Framer := do
  let key := StringKey.new key_slice
  let r := f.AddTiny key.prefix_length
  let f := r.2.Write r.1 (key.WritePrefix 0x40)
  let f ← f.Add key.key
  let emit := NonBinaryStringValue.new value_slice
  let r := f.AddTiny emit.prefix_length
  let f := r.2.Write r.1 emit.WritePrefix
  f.Add emit.data

/-- The function `Framer::EmitLitHdrWithNonBinaryStringKeyNotIdx`. -/
def Framer.EmitLitHdrWithNonBinaryStringKeyNotIdx (f : Framer) (key_slice value_slice : List Nat) :
    Option Framer := do
  let key := StringKey.new key_slice
  let r := f.AddTiny key.prefix_length
  let f := r.2.Write r.1 (key.WritePrefix 0x00)
  let f ← f.Add key.key
  let emit := NonBinaryStringValue.new value_slice
  let r := f.AddTiny emit.prefix_length
  let f := r.2.Write r.1 emit.WritePrefix
  f.Add emit.data

/-- The function `Framer::EmitLitHdrWithBinaryStringKeyNotIdx` that takes the key
as a slice. -/
def Framer.EmitLitHdrWithBinaryStringKeyNotIdx (env : Collaborators) (f : Framer)
    (key_slice value_slice : List Nat) : Option Framer := do
  let key := StringKey.new key_slice
  let r := f.AddTiny key.prefix_length
  let f := r.2.Write r.1 (key.WritePrefix 0x00)
  let f ← f.Add key.key
  let emit := StringValue.newBinary env value_slice f.use_true_binary_metadata
  let r := f.AddTiny emit.prefix_length
  let f := r.2.Write r.1 emit.WritePrefix
  f.Add emit.data

/-- The function `Framer::EmitLitHdrWithBinaryStringKeyIncIdx`. -/
def Framer.EmitLitHdrWithBinaryStringKeyIncIdx (env : Collaborators) (f : Framer)
    (key_slice value_slice : List Nat) : Option Framer := do
  let key := StringKey.new key_slice
  let r := f.AddTiny key.prefix_length
  let f := r.2.Write r.1 (key.WritePrefix 0x40)
  let f ← f.Add key.key
  let emit := StringValue.newBinary env value_slice f.use_true_binary_metadata
  let r := f.AddTiny emit.prefix_length
  let f := r.2.Write r.1 emit.WritePrefix
  f.Add emit.data

/-- The function `Framer::EmitLitHdrWithBinaryStringKeyNotIdx` that takes the
index of the key. -/
def Framer.EmitLitHdrWithBinaryStringKeyNotIdx_indexed (env : Collaborators) (f : Framer)
    (key_index : Nat) (value_slice : List Nat) : Option Framer :=
  let emit := StringValue.newBinary env value_slice f.use_true_binary_metadata
  let key : VarintWriter := { kPrefixBits := 4, value := key_index }
  let r := f.AddTiny (key.length + emit.prefix_length)
  let f := r.2.Write r.1 (key.Write 0x00)
  let f := f.Write (r.1 + key.length) emit.WritePrefix
  f.Add emit.data

/-- The function `Framer::AdvertiseTableSizeChange`. -/
def Framer.AdvertiseTableSizeChange (f : Framer) : Framer :=
  let w : VarintWriter := { kPrefixBits := 3, value := f.compressor.table.max_size }
  let r := f.AddTiny w.length
  r.2.Write r.1 (w.Write 0x20)

/-! ## The well-known keys -/

/-- The loop at the end of a hit in `SliceIndex::EmitTo`: entries are removed
from the back for as long as the back entry is no longer in the table. -/
def SliceIndex.popStale (table : HPackEncoderTable) (values : List ValueIndex) :
    List ValueIndex :=
  (values.reverse.dropWhile (fun v => !table.ConvertableToDynamicIndex v.index)).reverse

/-- The statement `if (prev != values_.end()) std::swap(*prev, *it)` for the
entry at position `i`. -/
def SliceIndex.bubble (values : List ValueIndex) (i : Nat) : List ValueIndex :=
  if i = 0 then values
  else
    match values.get? (i - 1), values.get? i with
    | some p, some c => (values.set (i - 1) c).set i p
    | _, _ => values

/-- The function `SliceIndex::EmitTo`: the list `values_` and the framer after
the call. -/
def SliceIndex.EmitTo (si : SliceIndex) (key value : List Nat) (f : Framer) :
    Option (SliceIndex × Framer) :=
  let transport_length := key.length + value.length + kEntryOverhead
  match si.values.findIdx? (fun v => value == v.value) with
  | some i =>
    let index := (si.values.getD i { value := value, index := 0 }).index
    let emitted : Option (List ValueIndex × Framer) :=
      if f.compressor.table.ConvertableToDynamicIndex index then
        some (si.values, f.EmitIndexed (f.compressor.table.DynamicIndex index))
      else
        let r := f.compressor.table.AllocateIndex transport_length
        let f := { f with compressor := { f.compressor with table := r.2 } }
        let values := si.values.set i { value := value, index := r.1 }
        (f.EmitLitHdrWithNonBinaryStringKeyIncIdx key value).map (fun f => (values, f))
    emitted.map (fun vf =>
      let values := SliceIndex.bubble vf.1 i
      let values := SliceIndex.popStale vf.2.compressor.table values
      ({ values := values }, vf.2))
  | none =>
    let r := f.compressor.table.AllocateIndex transport_length
    let f := { f with compressor := { f.compressor with table := r.2 } }
    (f.EmitLitHdrWithNonBinaryStringKeyIncIdx key value).map (fun f =>
      ({ values := si.values ++ [{ value := value, index := r.1 }] }, f))

/-- The overload `Framer::Encode(HttpPathMetadata, const Slice&)`. -/
def Framer.Encode_HttpPathMetadata (f : Framer) (value : List Nat) : Option Framer :=
  (f.compressor.path_index.EmitTo GRPC_MDSTR_PATH value f).map (fun r =>
    { r.2 with compressor := { r.2.compressor with path_index := r.1 } })

/-- The overload `Framer::Encode(HttpAuthorityMetadata, const Slice&)`. -/
def Framer.Encode_HttpAuthorityMetadata (f : Framer) (value : List Nat) : Option Framer :=
  (f.compressor.authority_index.EmitTo GRPC_MDSTR_AUTHORITY value f).map (fun r =>
    { r.2 with compressor := { r.2.compressor with authority_index := r.1 } })

/-- The function `Framer::EncodeAlwaysIndexed`. The pointer `index` to a member
of the compressor is the pair of its reader `get` and its writer `set`. -/
def Framer.EncodeAlwaysIndexed (f : Framer) (get : HPackCompressor → Nat)
    (set : HPackCompressor → Nat → HPackCompressor) (key value : List Nat)
    (transport_length : Nat) : Option Framer :=
  if f.compressor.table.ConvertableToDynamicIndex (get f.compressor) then
    some (f.EmitIndexed (f.compressor.table.DynamicIndex (get f.compressor)))
  else
    let r := f.compressor.table.AllocateIndex transport_length
    let c := { f.compressor with table := r.2 }
    let f := { f with compressor := set c r.1 }
    f.EmitLitHdrWithNonBinaryStringKeyIncIdx key value

/-- The function `Framer::EncodeIndexedKeyWithBinaryValue`. -/
def Framer.EncodeIndexedKeyWithBinaryValue (env : Collaborators) (f : Framer)
    (get : HPackCompressor → Nat) (set : HPackCompressor → Nat → HPackCompressor)
    (key value : List Nat) : Option Framer :=
  if f.compressor.table.ConvertableToDynamicIndex (get f.compressor) then
    f.EmitLitHdrWithBinaryStringKeyNotIdx_indexed env
      (f.compressor.table.DynamicIndex (get f.compressor)) value
  else
    let r := f.compressor.table.AllocateIndex (key.length + value.length + kEntryOverhead)
    let c := { f.compressor with table := r.2 }
    let f := { f with compressor := set c r.1 }
    f.EmitLitHdrWithBinaryStringKeyIncIdx env key value

/-- The value type of `TeMetadata`. -/
inductive Framer.TeValueType
  | kTrailers
  | kInvalid
deriving DecidableEq, Repr

/-- The overload `Framer::Encode(TeMetadata, TeMetadata::ValueType)`. -/
def Framer.Encode_TeMetadata (f : Framer) (value : TeValueType) : Option Framer :=
  if value = TeValueType.kTrailers then
    f.EncodeAlwaysIndexed (fun c => c.te_index) (fun c i => { c with te_index := i })
      GRPC_MDSTR_TE GRPC_MDSTR_TRAILERS (2 + 8 + kEntryOverhead)
  else none

/-- The value type of `ContentTypeMetadata`. -/
inductive Framer.ContentTypeValueType
  | kApplicationGrpc
  | kEmpty
  | kInvalid
deriving DecidableEq, Repr

/-- The overload `Framer::Encode(ContentTypeMetadata, ContentTypeMetadata::ValueType)`. -/
def Framer.Encode_ContentTypeMetadata (f : Framer) (value : ContentTypeValueType) : Option Framer :=
  if value = ContentTypeValueType.kApplicationGrpc then
    f.EncodeAlwaysIndexed (fun c => c.content_type_index)
      (fun c i => { c with content_type_index := i })
      GRPC_MDSTR_CONTENT_TYPE STR_APPLICATION_GRPC (12 + 16 + kEntryOverhead)
  else none

/-- The value type of `HttpSchemeMetadata`. -/
inductive Framer.HttpSchemeValueType
  | kHttp
  | kHttps
  | kInvalid
deriving DecidableEq, Repr

/-- The overload `Framer::Encode(HttpSchemeMetadata, HttpSchemeMetadata::ValueType)`. -/
def Framer.Encode_HttpSchemeMetadata (f : Framer) (value : HttpSchemeValueType) : Option Framer :=
  match value with
  | HttpSchemeValueType.kHttp => some (f.EmitIndexed 6)
  | HttpSchemeValueType.kHttps => some (f.EmitIndexed 7)
  | HttpSchemeValueType.kInvalid => none

/-- The overload `Framer::Encode(GrpcTraceBinMetadata, const Slice&)`. -/
def Framer.Encode_GrpcTraceBinMetadata (env : Collaborators) (f : Framer) (slice : List Nat) :
    Option Framer :=
  f.EncodeIndexedKeyWithBinaryValue env (fun c => c.grpc_trace_bin_index)
    (fun c i => { c with grpc_trace_bin_index := i }) STR_GRPC_TRACE_BIN slice

/-- The overload `Framer::Encode(GrpcTagsBinMetadata, const Slice&)`. -/
def Framer.Encode_GrpcTagsBinMetadata (env : Collaborators) (f : Framer) (slice : List Nat) :
    Option Framer :=
  f.EncodeIndexedKeyWithBinaryValue env (fun c => c.grpc_tags_bin_index)
    (fun c i => { c with grpc_tags_bin_index := i }) STR_GRPC_TAGS_BIN slice

/-- The `switch` of `Framer::Encode(HttpStatusMetadata, uint32_t)`: the static
index of a status, 0 when it has none. -/
def Framer.HttpStatus_index (status : Nat) : Nat :=
  if status = 204 then 9
  else if status = 206 then 10
  else if status = 304 then 11
  else if status = 400 then 12
  else if status = 404 then 13
  else if status = 500 then 14
  else 0

/-- The overload `Framer::Encode(HttpStatusMetadata, uint32_t)`. -/
def Framer.Encode_HttpStatusMetadata (f : Framer) (status : Nat) : Option Framer :=
  if status = 200 then some (f.EmitIndexed 8)
  else
    let index := HttpStatus_index status
    if index ≠ 0 then some (f.EmitIndexed index)
    else f.EmitLitHdrWithNonBinaryStringKeyIncIdx GRPC_MDSTR_STATUS (gpr_ltoa status)

/-- The value type of `HttpMethodMetadata`. -/
inductive Framer.HttpMethodValueType
  | kPost
  | kGet
  | kPut
  | kInvalid
deriving DecidableEq, Repr

/-- The overload `Framer::Encode(HttpMethodMetadata, HttpMethodMetadata::ValueType)`. -/
def Framer.Encode_HttpMethodMetadata (f : Framer) (method : HttpMethodValueType) : Option Framer :=
  match method with
  | HttpMethodValueType.kGet => some (f.EmitIndexed 2)
  | HttpMethodValueType.kPost => some (f.EmitIndexed 3)
  | HttpMethodValueType.kPut => f.EmitLitHdrWithNonBinaryStringKeyNotIdx STR_METHOD STR_PUT
  | HttpMethodValueType.kInvalid => none

/-- The overload `Framer::Encode(UserAgentMetadata, const Slice&)`. -/
def Framer.Encode_UserAgentMetadata (f : Framer) (slice : Slice) : Option Framer :=
  let f :=
    if !slice.is_equivalent f.compressor.user_agent then
      { f with compressor := { f.compressor with user_agent := slice, user_agent_index := 0 } }
    else f
  f.EncodeAlwaysIndexed (fun c => c.user_agent_index)
    (fun c i => { c with user_agent_index := i })
    GRPC_MDSTR_USER_AGENT slice.bytes (10 + slice.bytes.length + kEntryOverhead)

/-- The overload `Framer::Encode(GrpcStatusMetadata, grpc_status_code)`; `code` is
the status after `static_cast<uint32_t>`. -/
def Framer.Encode_GrpcStatusMetadata (f : Framer) (code : Nat) : Option Framer :=
  let cached := decide (code < kNumCachedGrpcStatusValues f.compressor)
  if cached && f.compressor.table.ConvertableToDynamicIndex
      (f.compressor.cached_grpc_status.getD code 0) then
    some (f.EmitIndexed (f.compressor.table.DynamicIndex
      (f.compressor.cached_grpc_status.getD code 0)))
  else
    let key := GrpcStatusMetadata_key
    let value := gpr_ltoa code
    let transport_length := key.length + value.length + kEntryOverhead
    if cached then
      let r := f.compressor.table.AllocateIndex transport_length
      let f := { f with compressor := { f.compressor with
        table := r.2, cached_grpc_status := f.compressor.cached_grpc_status.set code r.1 } }
      f.EmitLitHdrWithNonBinaryStringKeyIncIdx key value
    else f.EmitLitHdrWithNonBinaryStringKeyNotIdx key value

/-! ## The generic entry path -/

/-- Modelled from the spec: the storage class of a `grpc_mdelem` (metadata.h is
not among the sources): an entry is "interned", "static" or transient (external
or allocated). -/
inductive grpc_mdelem_data_storage
  | GRPC_MDELEM_STORAGE_EXTERNAL
  | GRPC_MDELEM_STORAGE_INTERNED
  | GRPC_MDELEM_STORAGE_ALLOCATED
  | GRPC_MDELEM_STORAGE_STATIC
deriving DecidableEq, Repr

/-- A `grpc_mdelem` as the encoder reads it: key and value (`GRPC_MDKEY`,
`GRPC_MDVALUE`), the storage class (`GRPC_MDELEM_STORAGE`), whether the key
slice is interned (`grpc_slice_is_interned`), the hash of the entry
(`InternedMetadata::hash`, `StaticMetadata::hash`), the hash of the key
(`refcount->Hash`) and the index of a static entry (`StaticIndex`). -/
structure grpc_mdelem where
  key : List Nat
  value : List Nat
  storage : grpc_mdelem_data_storage
  key_is_interned : Bool
  hash : Nat
  key_hash : Nat
  static_index : Nat
deriving DecidableEq, Repr

/-- Modelled from the spec: `GRPC_MDELEM_IS_INTERNED`: the interned entries are
those of storage class interned or static (the two classes whose hash
`EncodeDynamic` reads). -/
def GRPC_MDELEM_IS_INTERNED (elem : grpc_mdelem) : Bool :=
  elem.storage == grpc_mdelem_data_storage.GRPC_MDELEM_STORAGE_INTERNED ||
    elem.storage == grpc_mdelem_data_storage.GRPC_MDELEM_STORAGE_STATIC

/-- Modelled from the spec: `MetadataSizeInHPackTable`, "entry_size = key_len +
value_len + 32". -/
def MetadataSizeInHPackTable (elem : grpc_mdelem) (_use_true_binary_metadata : Bool) : Nat :=
  elem.key.length + elem.value.length + kEntryOverhead

/-- The function `HPackCompressor::AddKeyWithIndex`. -/
def HPackCompressor.AddKeyWithIndex (c : HPackCompressor) (new_index key_hash : Nat) :
    HPackCompressor :=
  { c with key_index := c.key_index.Insert key_hash new_index }

/-- The function `HPackCompressor::AddElemWithIndex`. -/
def HPackCompressor.AddElemWithIndex (c : HPackCompressor) (new_index elem_hash key_hash : Nat) :
    HPackCompressor :=
  let c := { c with elem_index := c.elem_index.Insert elem_hash new_index }
  c.AddKeyWithIndex new_index key_hash

/-- The function `HPackCompressor::AddElem`. -/
def HPackCompressor.AddElem (c : HPackCompressor) (elem_size elem_hash key_hash : Nat) :
    HPackCompressor :=
  let r := c.table.AllocateIndex elem_size
  let c := { c with table := r.2 }
  if r.1 ≠ 0 then c.AddElemWithIndex r.1 elem_hash key_hash else c

/-- The function `HPackCompressor::AddKey`. -/
def HPackCompressor.AddKey (c : HPackCompressor) (elem_size key_hash : Nat) : HPackCompressor :=
  let r := c.table.AllocateIndex elem_size
  let c := { c with table := r.2 }
  if r.1 ≠ 0 then c.AddKeyWithIndex r.1 key_hash else c

/-- The function `Framer::EmitLitHdrIncIdx`. -/
def Framer.EmitLitHdrIncIdx (env : Collaborators) (f : Framer) (key_index : Nat)
    (elem : grpc_mdelem) : Option Framer :=
  let emit := StringValue.new env (grpc_is_binary_header_internal elem.key) elem.value
    f.use_true_binary_metadata
  let key : VarintWriter := { kPrefixBits := 2, value := key_index }
  let r := f.AddTiny (key.length + emit.prefix_length)
  let f := r.2.Write r.1 (key.Write 0x40)
  let f := f.Write (r.1 + key.length) emit.WritePrefix
  f.Add emit.data

/-- The function `Framer::EmitLitHdrNotIdx`. -/
def Framer.EmitLitHdrNotIdx (env : Collaborators) (f : Framer) (key_index : Nat)
    (elem : grpc_mdelem) : Option Framer :=
  let emit := StringValue.new env (grpc_is_binary_header_internal elem.key) elem.value
    f.use_true_binary_metadata
  let key : VarintWriter := { kPrefixBits := 4, value := key_index }
  let r := f.AddTiny (key.length + emit.prefix_length)
  let f := r.2.Write r.1 (key.Write 0x00)
  let f := f.Write (r.1 + key.length) emit.WritePrefix
  f.Add emit.data

/-- The function `Framer::EmitLitHdrWithStringKeyIncIdx`. -/
def Framer.EmitLitHdrWithStringKeyIncIdx (env : Collaborators) (f : Framer)
    (elem : grpc_mdelem) : Option Framer := do
  let key := StringKey.new elem.key
  let r := f.AddTiny key.prefix_length
  let f := r.2.Write r.1 (key.WritePrefix 0x40)
  let f ← f.Add key.key
  let emit := StringValue.new env (grpc_is_binary_header_internal elem.key) elem.value
    f.use_true_binary_metadata
  let r := f.AddTiny emit.prefix_length
  let f := r.2.Write r.1 emit.WritePrefix
  f.Add emit.data

/-- The function `Framer::EmitLitHdrWithStringKeyNotIdx`. -/
def Framer.EmitLitHdrWithStringKeyNotIdx (env : Collaborators) (f : Framer)
    (elem : grpc_mdelem) : Option Framer := do
  let key := StringKey.new elem.key
  let r := f.AddTiny key.prefix_length
  let f := r.2.Write r.1 (key.WritePrefix 0x00)
  let f ← f.Add key.key
  let emit := StringValue.new env (grpc_is_binary_header_internal elem.key) elem.value
    f.use_true_binary_metadata
  let r := f.AddTiny emit.prefix_length
  let f := r.2.Write r.1 emit.WritePrefix
  f.Add emit.data

/-- The part of `Framer::EncodeDynamic` after the lookup of the entry: the
lookup of the key and the literal emission. `elem_hash` is 0 when the entry may
not be added. -/
def Framer.EncodeDynamic_literal (env : Collaborators) (f : Framer) (elem : grpc_mdelem)
    (elem_interned : Bool) (elem_hash : Nat) : Option Framer :=
  let decoder_space_usage := MetadataSizeInHPackTable elem f.use_true_binary_metadata
  let decoder_space_available := decide (decoder_space_usage < kMaxDecoderSpaceUsage)
  let should_add_elem := elem_interned && decoder_space_available && decide (elem_hash ≠ 0)
  let key_hash := elem.key_hash
  let indices_key := f.compressor.key_index.Lookup key_hash
  let key_hit :=
    match indices_key with
    | some i => f.compressor.table.ConvertableToDynamicIndex i
    | none => false
  if key_hit then
    let wire_index := f.compressor.table.DynamicIndex (indices_key.getD 0)
    if should_add_elem then
      (f.EmitLitHdrIncIdx env wire_index elem).map (fun f =>
        { f with compressor :=
            f.compressor.AddElem decoder_space_usage elem_hash key_hash })
    else f.EmitLitHdrNotIdx env wire_index elem
  else
    let should_add_key := !elem_interned && decoder_space_available
    let emitted :=
      if should_add_elem || should_add_key then f.EmitLitHdrWithStringKeyIncIdx env elem
      else f.EmitLitHdrWithStringKeyNotIdx env elem
    emitted.map (fun f =>
      if should_add_elem then
        { f with compressor := f.compressor.AddElem decoder_space_usage elem_hash key_hash }
      else if should_add_key then
        { f with compressor := f.compressor.AddKey decoder_space_usage key_hash }
      else f)

/-- The function `Framer::EncodeDynamic`. -/
def Framer.EncodeDynamic (env : Collaborators) (f : Framer) (elem : grpc_mdelem) :
    Option Framer :=
  let elem_interned := GRPC_MDELEM_IS_INTERNED elem
  let key_interned := elem_interned || elem.key_is_interned
  if !key_interned then f.EmitLitHdrWithStringKeyNotIdx env elem
  else if elem_interned then
    let elem_hash := elem.hash
    let r := f.compressor.filter_elems.AddElement (elem_hash % kNumFilterValues)
    let can_add_to_hashtable := r.1
    let f := { f with compressor := { f.compressor with filter_elems := r.2 } }
    let indices_key := f.compressor.elem_index.Lookup elem_hash
    let elem_hit :=
      match indices_key with
      | some i => f.compressor.table.ConvertableToDynamicIndex i
      | none => false
    if elem_hit then
      some (f.EmitIndexed (f.compressor.table.DynamicIndex (indices_key.getD 0)))
    else
      let elem_hash := if !can_add_to_hashtable then 0 else elem_hash
      f.EncodeDynamic_literal env elem elem_interned elem_hash
  else f.EncodeDynamic_literal env elem elem_interned 0

/-- The static string `grpc-timeout`. -/
def GRPC_MDSTR_GRPC_TIMEOUT : List Nat := [103, 114, 112, 99, 45, 116, 105, 109, 101, 111, 117, 116]

/-- The overload `Framer::Encode(GrpcTimeoutMetadata, grpc_millis)`. The entry
`grpc_mdelem_from_slices` builds has a static key and an unmanaged value: its
key is interned and the entry itself is not. -/
def Framer.Encode_GrpcTimeoutMetadata (env : Collaborators) (f : Framer) (deadline : Int) :
    Option Framer :=
  let timeout_str := env.grpc_http2_encode_timeout (deadline - env.Now)
  let mdelem : grpc_mdelem :=
    { key := GRPC_MDSTR_GRPC_TIMEOUT, value := timeout_str,
      storage := grpc_mdelem_data_storage.GRPC_MDELEM_STORAGE_ALLOCATED,
      key_is_interned := true, hash := 0, key_hash := env.grpc_timeout_key_hash,
      static_index := 0 }
  f.EncodeDynamic env mdelem

/-- The overload `Framer::Encode(grpc_mdelem)`. -/
def Framer.Encode (env : Collaborators) (f : Framer) (md : grpc_mdelem) : Option Framer :=
  if md.storage = grpc_mdelem_data_storage.GRPC_MDELEM_STORAGE_STATIC ∧
      md.static_index < kLastStaticEntry then
    some (f.EmitIndexed (md.static_index + 1))
  else f.EncodeDynamic env md

/-! ## Table size -/

/-- The function `HPackCompressor::SetMaxTableSize`. -/
def HPackCompressor.SetMaxTableSize (c : HPackCompressor) (max_table_size : Nat) : HPackCompressor :=
  let r := c.table.SetMaxSize (min c.max_usable_size max_table_size)
  let c := { c with table := r.2 }
  if r.1 then { c with advertise_table_size_change := true } else c

/-- The function `HPackCompressor::SetMaxUsableSize`. -/
def HPackCompressor.SetMaxUsableSize (c : HPackCompressor) (max_table_size : Nat) : HPackCompressor :=
  let c := { c with max_usable_size := max_table_size }
  c.SetMaxTableSize (min c.table.max_size max_table_size)

/-- The constructor `Framer::Framer`. The frame is begun by the member
initialiser `prefix_(BeginFrame())`; `is_first_frame_` starts true ("true until
the first frame is finished"). -/
def Framer.new (options : EncodeHeaderOptions) (compressor : HPackCompressor)
    (output : List Nat) : Framer :=
  let f : Framer :=
    { max_frame_size := options.max_frame_size
      use_true_binary_metadata := options.use_true_binary_metadata
      is_end_of_stream := options.is_end_of_stream
      stream_id := options.stream_id
      output := output
      stats := options.stats
      compressor := compressor
      prefix_ := { header_idx := 0, output_length_at_start_of_frame := 0 }
      is_first_frame := true }
  let r := f.BeginFrame
  let f := { r.2 with prefix_ := r.1 }
  let advertise := f.compressor.advertise_table_size_change
  let f := { f with compressor := { f.compressor with advertise_table_size_change := false } }
  if advertise then f.AdvertiseTableSizeChange else f

/-! ## Frames on the wire

The vocabulary in which the properties of the framer are stated: a frame is its
header fields and its payload, and its bytes on the wire are the nine bytes
`FillHeader` writes followed by the payload. -/

/-- A frame: the fields of its header and its payload. -/
structure Frame where
  type : Nat
  flags : Nat
  stream_id : Nat
  payload : List Nat
deriving DecidableEq, Repr

/-- The bytes of a frame on the wire. -/
def Frame.wire (fr : Frame) : List Nat :=
  FillHeader fr.type fr.stream_id fr.payload.length fr.flags ++ fr.payload

/-- The bytes of a sequence of frames on the wire. -/
def wireFrames : List Frame → List Nat
  | [] => []
  | fr :: frs => fr.wire ++ wireFrames frs

/-- The concatenation of the payloads of a sequence of frames. -/
def payloads : List Frame → List Nat
  | [] => []
  | fr :: frs => fr.payload ++ payloads frs

/-- The frame `FinishFrame(is_header_boundary)` completes for a framer whose
members `is_first_frame_`, `is_end_of_stream_` and `stream_id_` are `first`,
`eos` and `sid`, when the payload of the current frame is `payload`. -/
def mkFrame (first eos : Bool) (sid : Nat) (is_header_boundary : Bool) (payload : List Nat) :
    Frame :=
  { type := if first then GRPC_CHTTP2_FRAME_HEADER else GRPC_CHTTP2_FRAME_CONTINUATION
    flags :=
      let flags := 0
      let flags := if first && eos then flags ||| GRPC_CHTTP2_DATA_FLAG_END_STREAM else flags
      if is_header_boundary then flags ||| GRPC_CHTTP2_DATA_FLAG_END_HEADERS else flags
    stream_id := sid
    payload := payload }

/-- The frame `FinishFrame(is_header_boundary)` completes when the payload of the
current frame is `payload`. -/
def Framer.frameOf (f : Framer) (is_header_boundary : Bool) (payload : List Nat) : Frame :=
  mkFrame f.is_first_frame f.is_end_of_stream f.stream_id is_header_boundary payload

/-- The frames that successive `FinishFrame(false)` calls complete for the
payloads `chunks`: `is_first_frame_` is false from the second on. -/
def framesOf (first eos : Bool) (sid : Nat) : List (List Nat) → List Frame
  | [] => []
  | p :: ps => mkFrame first eos sid false p :: framesOf false eos sid ps

/-- The frames a framer completes for the payloads `chunks`. -/
def Framer.framesOf (f : Framer) (chunks : List (List Nat)) : List Frame :=
  grpc_core.framesOf f.is_first_frame f.is_end_of_stream f.stream_id chunks

/-- The members of a framer that no emission changes. -/
structure Framer.SameConfig (f g : Framer) : Prop where
  max_frame_size : g.max_frame_size = f.max_frame_size
  use_true_binary_metadata : g.use_true_binary_metadata = f.use_true_binary_metadata
  is_end_of_stream : g.is_end_of_stream = f.is_end_of_stream
  stream_id : g.stream_id = f.stream_id
  compressor : g.compressor = f.compressor

/-- The layout of the output of a framer: the bytes `base` that were in the
buffer before the framer was constructed, the finished frames `fs`, the nine
reserved bytes of the header of the current frame, and the payload `cur` of the
current frame; `prefix_` locates the reserved header and the start of the
payload. -/
structure Framer.Layout (f : Framer) (base : List Nat) (fs : List Frame) (cur : List Nat) :
    Prop where
  out : f.output = (base ++ wireFrames fs) ++ (List.replicate kDataFrameHeaderSize 0 ++ cur)
  idx : f.prefix_.header_idx = (base ++ wireFrames fs).length
  start : f.prefix_.output_length_at_start_of_frame =
    (base ++ wireFrames fs).length + kDataFrameHeaderSize

/-- The statements `FinishFrame(false); prefix_ = BeginFrame();` of `EnsureSpace`
and `Add`. -/
def Framer.restart (f : Framer) : Framer :=
  { (f.FinishFrame false).BeginFrame.2 with prefix_ := (f.FinishFrame false).BeginFrame.1 }

/-- The framer after `AddTiny(bs.length)` and the write of `bs` through the
pointer it returned. -/
def Framer.AddTinyBytes (f : Framer) (bs : List Nat) : Framer :=
  (f.AddTiny bs.length).2.Write (f.AddTiny bs.length).1 bs

/-- What a sequence of `Add` and `AddTiny` calls that appends the bytes `bs` does
to a framer `f`, giving `g`: the payloads `chunks` of the frames it finishes and
the payload `cur'` of the frame it leaves open, for every layout of `f`. -/
structure Framer.Appends (f g : Framer) (bs : List Nat) : Prop where
  same : f.SameConfig g
  header_bytes : g.stats.header_bytes = f.stats.header_bytes + bs.length
  layout : ∀ base fs cur, f.Layout base fs cur →
    ∃ chunks cur', g.Layout base (fs ++ f.framesOf chunks) cur' ∧
      chunks.flatten ++ cur' = cur ++ bs ∧
      g.is_first_frame = (f.is_first_frame && chunks.isEmpty) ∧
      g.stats.framing_bytes = f.stats.framing_bytes + kDataFrameHeaderSize * chunks.length

/-! ## Reading a frame header back, and worked examples -/

/-- A big-endian integer read from its bytes. -/
def read_be (bs : List Nat) : Nat := bs.foldl (fun acc b => acc * 256 + b) 0

/-- Modelled from the spec: the compressor at construction, "caches empty, table
at default max 4096, advertise_table_size_change = false". The cap
`max_usable_size_` starts at the default table size, so that the effective
maximum at construction is the default; the array of cached `grpc-status`
indices has 16 slots ("≈16"). -/
def HPackCompressor.init : HPackCompressor :=
  { max_usable_size := kInitialTableSize
    advertise_table_size_change := false
    table := HPackEncoderTable.init
    filter_elems := { elems := List.replicate kNumFilterValues 0 }
    elem_index := { entries := [] }
    key_index := { entries := [] }
    path_index := { values := [] }
    authority_index := { values := [] }
    te_index := 0
    content_type_index := 0
    user_agent_index := 0
    cached_grpc_status := List.replicate 16 0
    grpc_trace_bin_index := 0
    grpc_tags_bin_index := 0
    user_agent := { ident := 0, bytes := [] } }

/-- Options for worked examples: stream 3, end of stream, frame size `M`. -/
def demoOptions (M : Nat) : EncodeHeaderOptions :=
  { stream_id := 3, is_end_of_stream := true, use_true_binary_metadata := false,
    max_frame_size := M, stats := { framing_bytes := 0, header_bytes := 0 } }

/-- A framer for worked examples: constructed on a new compressor and an empty
output buffer. -/
def demoFramer (M : Nat) : Framer := Framer.new (demoOptions M) HPackCompressor.init []

/-! ## Runs of the framer -/

/-- One call on the framer by an `Encode` overload: `Add(slice)`, or
`AddTiny(bytes.length)` followed by the write of `bytes` through its result. -/
inductive FramerOp
  | Add (slice : List Nat)
  | AddTiny (bytes : List Nat)
deriving DecidableEq, Repr

/-- The HPACK bytes a call adds. -/
def FramerOp.bytes : FramerOp → List Nat
  | FramerOp.Add slice => slice
  | FramerOp.AddTiny bytes => bytes

/-- The precondition of `AddTiny`: the bytes asked for fit one frame. -/
def FramerOp.fits (M : Nat) : FramerOp → Prop
  | FramerOp.Add _ => True
  | FramerOp.AddTiny bytes => bytes.length ≤ M

/-- The precondition of `AddTiny` can be checked. -/
instance FramerOp.fits_decidable (M : Nat) : (op : FramerOp) → Decidable (op.fits M)
  | FramerOp.Add _ => isTrue trivial
  | FramerOp.AddTiny bytes => Nat.decLe bytes.length M

/-- The HPACK bytes a sequence of calls adds. -/
def opsBytes : List FramerOp → List Nat
  | [] => []
  | op :: ops => op.bytes ++ opsBytes ops

/-- The framer after one call; `none` when the call does not return. -/
def Framer.apply (f : Framer) : FramerOp → Option Framer
  | FramerOp.Add slice => f.Add slice
  | FramerOp.AddTiny bytes => some (f.AddTinyBytes bytes)

/-- The framer after a sequence of calls. -/
def Framer.runOps : Framer → List FramerOp → Option Framer
  | f, [] => some f
  | f, op :: ops => (f.apply op).bind (fun g => g.runOps ops)

/-- The bytes of the table size update a new framer starts with: those of
`AdvertiseTableSizeChange` when the compressor has an advertisement pending. -/
def advertisedBytes (c : HPackCompressor) : List Nat :=
  if c.advertise_table_size_change then
    VarintWriter.Write { kPrefixBits := 3, value := c.table.max_size } 0x20
  else []

/-- The counterpart of `Appends` for frames that stay within `max_frame_size`:
when the current frame holds at most `max_frame_size` bytes, so does every
frame finished and the frame left open. -/
structure Framer.BoundedAppends (f g : Framer) (bs : List Nat) : Prop where
  same : f.SameConfig g
  layout : ∀ base fs cur, f.Layout base fs cur → cur.length ≤ f.max_frame_size →
    ∃ chunks cur', g.Layout base (fs ++ f.framesOf chunks) cur' ∧
      chunks.flatten ++ cur' = cur ++ bs ∧
      g.is_first_frame = (f.is_first_frame && chunks.isEmpty) ∧
      (∀ p ∈ chunks, p.length ≤ f.max_frame_size) ∧
      cur'.length ≤ f.max_frame_size

/-- The framer as the member initialisers of the constructor leave it, with the
pending advertisement taken: the frame is begun and nothing is emitted yet. -/
def Framer.begun (options : EncodeHeaderOptions) (compressor : HPackCompressor)
    (output : List Nat) : Framer :=
  { max_frame_size := options.max_frame_size
    use_true_binary_metadata := options.use_true_binary_metadata
    is_end_of_stream := options.is_end_of_stream
    stream_id := options.stream_id
    output := output ++ List.replicate kDataFrameHeaderSize 0
    stats := options.stats
    compressor := { compressor with advertise_table_size_change := false }
    prefix_ := { header_idx := output.length,
                 output_length_at_start_of_frame :=
                   (output ++ List.replicate kDataFrameHeaderSize 0).length }
    is_first_frame := true }

/-- The frames of a header block: those finished by `FinishFrame(false)` for the
payloads `chunks`, then the one finished by the final `FinishFrame(true)`. -/
def headerBlock (eos : Bool) (sid : Nat) (chunks : List (List Nat)) (cur : List Nat) :
    List Frame :=
  framesOf true eos sid chunks ++ [mkFrame (true && chunks.isEmpty) eos sid true cur]

/-- A sequence of calls for worked examples: one byte through `AddTiny`, then a
slice of six bytes. -/
def demoOps : List FramerOp :=
  [FramerOp.AddTiny [0x82], FramerOp.Add [1, 2, 3, 4, 5, 6]]

/-! ## The representations on the wire -/

/-- The HPACK bytes a call appends to the header block: for every layout of the
framer before the call, the payloads of the frames after the call, in order, are
those before it followed by `bs`. -/
def Framer.EmitsHpack (f g : Framer) (bs : List Nat) : Prop :=
  ∀ base fs cur, f.Layout base fs cur →
    ∃ gs cur', g.Layout base (fs ++ gs) cur' ∧ payloads gs ++ cur' = cur ++ bs

/-- The bytes of an Indexed representation (RFC 7541 §6.1). -/
def indexedBytes (index : Nat) : List Nat :=
  VarintWriter.Write { kPrefixBits := 1, value := index } 0x80

/-- The bytes of a literal representation with a new name (RFC 7541 §6.2): the
type byte (0x40 with incremental indexing, 0x00 without), the length of the name
and the name, then the prefix of the value (its length, and for a true-binary
value the byte 0x00) and the bytes of the value. -/
def literalNewNameBytes (type : Nat) (key value_pfx value_data : List Nat) : List Nat :=
  ((type :: VarintWriter.Write { kPrefixBits := 1, value := key.length } 0x00) ++ key) ++
    (value_pfx ++ value_data)

/-- The calls every `EmitLitHdrWith…StringKey…` function makes, for the type byte
`type`: the key prefix through `AddTiny`, the key through `Add`, the value prefix
through `AddTiny`, the value through `Add`. -/
def Framer.emitNewName (f : Framer) (type : Nat) (key value_pfx value_data : List Nat) :
    Option Framer :=
  ((f.AddTinyBytes (type :: VarintWriter.Write { kPrefixBits := 1, value := key.length } 0x00)).Add
    key).bind (fun f1 => (f1.AddTinyBytes value_pfx).Add value_data)

/-! ## The fast paths that take a new insertion index -/

/-- The outcome of a call on the framer `f`: whenever `max_frame_size ≥ 1` the
call returns, and when it returns the compressor is `expected` and the HPACK
bytes appended to the header block are `rep`. -/
def CallOutcome (f : Framer) (result : Option Framer) (expected : HPackCompressor)
    (rep : List Nat) : Prop :=
  (1 ≤ f.max_frame_size → ∃ g, result = some g) ∧
  ∀ g, result = some g → g.compressor = expected ∧ f.EmitsHpack g rep

/-- The prefix of a value that is not binary: its length, Huffman bit clear. -/
def plainValuePrefix (value : List Nat) : List Nat :=
  VarintWriter.Write { kPrefixBits := 1, value := value.length } 0x00

/-- The compressor as `Encode(UserAgentMetadata)` leaves it before the call of
`EncodeAlwaysIndexed`: a slice that is not the cached one replaces it and
resets the index. -/
def HPackCompressor.withUserAgent (c : HPackCompressor) (slice : Slice) : HPackCompressor :=
  if !slice.is_equivalent c.user_agent then
    { c with user_agent := slice, user_agent_index := 0 }
  else c

/-- The index `AllocateIndex(size)` returns on the table of the framer. -/
def Framer.allocated (f : Framer) (size : Nat) : Nat :=
  (f.compressor.table.AllocateIndex size).1

/-- The compressor of the framer after `AllocateIndex(size)` on its table. -/
def Framer.afterAllocate (f : Framer) (size : Nat) : HPackCompressor :=
  { f.compressor with table := (f.compressor.table.AllocateIndex size).2 }

/-- Collaborators for worked examples that do not reach them. -/
def demoCollaborators : Collaborators :=
  { huffman_compress := fun bs => bs, base64url_encode := fun bs => bs, Now := 0,
    grpc_http2_encode_timeout := fun _ => [49, 83], grpc_timeout_key_hash := 1 }

/-! ## Sequences of calls of the setters -/

/-- A call of one of the two setters of the table size. -/
inductive TableCall
  | SetMaxTableSize (max_table_size : Nat)
  | SetMaxUsableSize (max_table_size : Nat)
deriving DecidableEq, Repr

/-- The compressor after one call of a setter. -/
def HPackCompressor.call (c : HPackCompressor) : TableCall → HPackCompressor
  | TableCall.SetMaxTableSize n => c.SetMaxTableSize n
  | TableCall.SetMaxUsableSize n => c.SetMaxUsableSize n

/-- The compressor after a sequence of calls of the setters. -/
def HPackCompressor.calls (c : HPackCompressor) : List TableCall → HPackCompressor
  | [] => c
  | x :: xs => (c.call x).calls xs

/-- The value passed to the most recent `SetMaxTableSize` call, `max_size` when
there is none. -/
def lastMaxTableSize (max_size : Nat) : List TableCall → Nat
  | [] => max_size
  | TableCall.SetMaxTableSize n :: xs => lastMaxTableSize n xs
  | TableCall.SetMaxUsableSize _ :: xs => lastMaxTableSize max_size xs

/-- The value passed to the most recent `SetMaxUsableSize` call,
`max_usable_size` when there is none. -/
def lastMaxUsableSize (max_usable_size : Nat) : List TableCall → Nat
  | [] => max_usable_size
  | TableCall.SetMaxTableSize _ :: xs => lastMaxUsableSize max_usable_size xs
  | TableCall.SetMaxUsableSize n :: xs => lastMaxUsableSize n xs

/-- No `SetMaxUsableSize` call of the sequence passes a value above the
`max_usable_size` in force when it is made. -/
def usableNeverRaised (max_usable_size : Nat) : List TableCall → Prop
  | [] => True
  | TableCall.SetMaxTableSize _ :: xs => usableNeverRaised max_usable_size xs
  | TableCall.SetMaxUsableSize n :: xs => n ≤ max_usable_size ∧ usableNeverRaised n xs

/-- Whether a sequence never raises `max_usable_size_` can be checked. -/
instance usableNeverRaised_decidable :
    (max_usable_size : Nat) → (xs : List TableCall) →
      Decidable (usableNeverRaised max_usable_size xs)
  | _, [] => isTrue trivial
  | u, TableCall.SetMaxTableSize _ :: xs => usableNeverRaised_decidable u xs
  | u, TableCall.SetMaxUsableSize n :: xs =>
    match Nat.decLe n u, usableNeverRaised_decidable n xs with
    | isTrue h1, isTrue h2 => isTrue ⟨h1, h2⟩
    | isFalse h1, _ => isFalse (fun h => h1 h.1)
    | _, isFalse h2 => isFalse (fun h => h2 h.2)

/-- The bytes of a Dynamic Table Size Update (RFC 7541 §6.3) for the maximum
size `max_size`: the pattern 001 and the 5-bit-prefix integer. -/
def tableSizeUpdateBytes (max_size : Nat) : List Nat :=
  VarintWriter.Write { kPrefixBits := 3, value := max_size } 0x20

/-! ## Literals with an indexed name -/

/-- The bytes of a literal representation whose name is an index (RFC 7541
§6.2): the index under the prefix of `kPrefixBits` with the type bits `type`
(0x40 with incremental indexing, 0x00 without), then the prefix of the value and
the bytes of the value. -/
def literalIndexedNameBytes (kPrefixBits type key_index : Nat)
    (value_pfx value_data : List Nat) : List Nat :=
  VarintWriter.Write { kPrefixBits := kPrefixBits, value := key_index } type ++
    (value_pfx ++ value_data)

/-- The calls `EmitLitHdrIncIdx`, `EmitLitHdrNotIdx` and the indexed
`EmitLitHdrWithBinaryStringKeyNotIdx` make: the index of the name and the prefix
of the value through one `AddTiny`, the value through `Add`. -/
def Framer.emitIndexedName (f : Framer) (name_field value_pfx value_data : List Nat) :
    Option Framer :=
  (f.AddTinyBytes (name_field ++ value_pfx)).Add value_data

/-! ## Calls that cannot fail, and decimal strings -/

/-- The outcome of a call on the framer `f` that returns whatever the frame
size: the compressor is `expected`, the HPACK bytes appended to the header block
are `rep`, and `header_bytes` grew by their number. -/
def CallReturns (f : Framer) (result : Option Framer) (expected : HPackCompressor)
    (rep : List Nat) : Prop :=
  ∃ g, result = some g ∧ g.compressor = expected ∧ f.EmitsHpack g rep ∧
    g.stats.header_bytes = f.stats.header_bytes + rep.length

/-- The number a string of decimal ASCII digits denotes. -/
def read_decimal (digits : List Nat) : Nat :=
  digits.foldl (fun acc d => acc * 10 + (d - 48)) 0

/-! ## The value of a literal -/

/-- A string of the wire (RFC 7541 §5.2): the number of bytes of `body` under
the 7-bit prefix, with the Huffman bit `huffman_bit` (0x80 when set, 0x00 when
clear), then the bytes of `body`. -/
def lengthPrefixed (huffman_bit : Nat) (body : List Nat) : List Nat :=
  VarintWriter.Write { kPrefixBits := 1, value := body.length } huffman_bit ++ body

/-- The value `v` of a literal on the wire, by the class of its key: under a key
that is not binary the bytes of `v`; under a binary key with true-binary
metadata a byte 0x00 and the bytes of `v`; under a binary key without it the
Huffman compression of the base64 of `v`, the Huffman bit set. -/
def valueField (env : Collaborators) (is_binary true_binary : Bool) (v : List Nat) : List Nat :=
  if !is_binary then lengthPrefixed 0x00 v
  else if true_binary then lengthPrefixed 0x00 (0x00 :: v)
  else lengthPrefixed 0x80 (env.huffman_compress (env.base64url_encode v))

/-- The value of the continuation bytes of an RFC 7541 §5.1 integer: seven bits
a byte, least significant group first, up to the first byte whose top bit is
clear. -/
def varint_read_tail : List Nat → Nat
  | [] => 0
  | b :: bs => if b < 128 then b else (b - 128) + 128 * varint_read_tail bs

/-- The integer a decoder reads under the prefix of `VarintWriter<kPrefixBits>`
at the head of `bytes` (RFC 7541 §5.1). -/
def varint_read (kPrefixBits : Nat) (bytes : List Nat) : Nat :=
  match bytes with
  | [] => 0
  | b :: bs =>
    if b % 2 ^ (8 - kPrefixBits) < 2 ^ (8 - kPrefixBits) - 1 then b % 2 ^ (8 - kPrefixBits)
    else 2 ^ (8 - kPrefixBits) - 1 + varint_read_tail bs

/-! ## The decision table of the generic path -/

/-- Whether the lookup of a cache gave an index that is live in the table. -/
def liveIndex (t : HPackEncoderTable) (found : Option Nat) : Bool :=
  match found with
  | some i => t.ConvertableToDynamicIndex i
  | none => false

/-- The compressor `EncodeDynamic` leaves after the lookup of the entry missed:
the entry is added when it should be, otherwise the key when the lookup of the
key missed and the key should be added. -/
def HPackCompressor.afterLiteral (c : HPackCompressor) (elem : grpc_mdelem)
    (elem_interned : Bool) (elem_hash : Nat) : HPackCompressor :=
  let size := elem.key.length + elem.value.length + kEntryOverhead
  let should_add_elem :=
    elem_interned && decide (size < kMaxDecoderSpaceUsage) && decide (elem_hash ≠ 0)
  let should_add_key := !elem_interned && decide (size < kMaxDecoderSpaceUsage)
  if should_add_elem then c.AddElem size elem_hash elem.key_hash
  else if liveIndex c.table (c.key_index.Lookup elem.key_hash) then c
  else if should_add_key then c.AddKey size elem.key_hash
  else c

/-- The compressor `EncodeDynamic` leaves: the filter counts an interned entry;
nothing else changes when the key is not interned or the entry is found live in
the table. -/
def HPackCompressor.afterEncodeDynamic (c : HPackCompressor) (elem : grpc_mdelem) :
    HPackCompressor :=
  if !(GRPC_MDELEM_IS_INTERNED elem || elem.key_is_interned) then c
  else if GRPC_MDELEM_IS_INTERNED elem then
    let r := c.filter_elems.AddElement (elem.hash % kNumFilterValues)
    let c1 := { c with filter_elems := r.2 }
    if liveIndex c.table (c.elem_index.Lookup elem.hash) then c1
    else c1.afterLiteral elem true (if !r.1 then 0 else elem.hash)
  else c.afterLiteral elem false 0

/-- The decision table of `EncodeDynamic` as the specification words it, on the
compressor `c` before the call. With `can_add` the answer of the filter, `size`
the table size of the entry, `should_add_elem` = interned, `size < 512`,
`can_add` and hash not 0, and `should_add_key` = not interned and `size < 512`:
(1) key not interned: literal without indexing, new name;
(2) entry interned and live in the entry cache: Indexed, 0x80 with the 7-bit
prefix of its wire index;
(3) otherwise, key live in the key cache: literal with incremental indexing and
indexed name (0x40, 6-bit prefix) if `should_add_elem`, else literal without
indexing and indexed name (0x00, 4-bit prefix), the wire index of the key taken
on the table before the call;
(4) otherwise: literal with incremental indexing and new name if
`should_add_elem` or `should_add_key`, else literal without indexing and new
name. -/
def EncodeDynamic_decision (env : Collaborators) (c : HPackCompressor) (true_binary : Bool)
    (elem : grpc_mdelem) : List Nat :=
  let interned := GRPC_MDELEM_IS_INTERNED elem
  let can_add := (c.filter_elems.AddElement (elem.hash % kNumFilterValues)).1
  let size := elem.key.length + elem.value.length + 32
  let should_add_elem := interned && decide (size < 512) && can_add && decide (elem.hash ≠ 0)
  let should_add_key := !interned && decide (size < 512)
  let value := valueField env (grpc_is_binary_header_internal elem.key) true_binary elem.value
  let entry := c.elem_index.Lookup elem.hash
  let key := c.key_index.Lookup elem.key_hash
  if !(interned || elem.key_is_interned) then
    0x00 :: (lengthPrefixed 0x00 elem.key ++ value)
  else if interned && liveIndex c.table entry then
    VarintWriter.Write { kPrefixBits := 1, value := c.table.DynamicIndex (entry.getD 0) } 0x80
  else if liveIndex c.table key then
    if should_add_elem then
      VarintWriter.Write { kPrefixBits := 2, value := c.table.DynamicIndex (key.getD 0) } 0x40 ++
        value
    else
      VarintWriter.Write { kPrefixBits := 4, value := c.table.DynamicIndex (key.getD 0) } 0x00 ++
        value
  else if should_add_elem || should_add_key then
    0x40 :: (lengthPrefixed 0x00 elem.key ++ value)
  else 0x00 :: (lengthPrefixed 0x00 elem.key ++ value)

/-! ## Invariants of the table and the filter -/

/-- The invariant of the table every operation keeps: insertion indices start
above 0, the live range `[first_live_index, next_index)` is well formed, and
every queued entry was inserted before `next_index`. -/
def HPackEncoderTable.WF (t : HPackEncoderTable) : Prop :=
  1 ≤ t.first_live_index ∧ t.first_live_index ≤ t.next_index ∧
    ∀ p ∈ t.queue, p.1 < t.next_index

instance HPackEncoderTable.WF_decidable (t : HPackEncoderTable) : Decidable t.WF := by
  unfold HPackEncoderTable.WF; infer_instance

/-! ## Two calls of `SliceIndex::EmitTo` -/

/-- The list of `si` holds the value with the insertion index `index`, live in
the table `t`, before any other entry of the same value. -/
def SliceIndex.Holds (si : SliceIndex) (t : HPackEncoderTable) (value : List Nat)
    (index : Nat) : Prop :=
  ∃ X Z, si.values = X ++ ValueIndex.mk value index :: Z ∧
    (∀ a ∈ X, (value == a.value) = false) ∧ t.ConvertableToDynamicIndex index = true

/-- Whether `SliceIndex::EmitTo` finds the value with an index that is live in
the table `t`, the case in which it emits no literal. -/
def SliceIndex.hitsLive (si : SliceIndex) (t : HPackEncoderTable) (value : List Nat) : Bool :=
  match si.values.findIdx? (fun v => value == v.value) with
  | some i => t.ConvertableToDynamicIndex (si.values.getD i { value := value, index := 0 }).index
  | none => false

/-- The body the overloads for `:path` and `:authority` share: `EmitTo` on the
list `get` reads from the compressor, which `put` writes back. -/
def Framer.EncodeWithSliceIndex (f : Framer) (get : HPackCompressor → SliceIndex)
    (put : HPackCompressor → SliceIndex → HPackCompressor) (key value : List Nat) :
    Option Framer :=
  ((get f.compressor).EmitTo key value f).map (fun r =>
    { r.2 with compressor := put r.2.compressor r.1 })

/-! ## Worked entries -/

/-- An interned entry for worked examples: `ab: c`, entry hash 261 (filter
bucket 5), key hash 5. -/
def demoEntryA : grpc_mdelem :=
  { key := [97, 98], value := [99],
    storage := grpc_mdelem_data_storage.GRPC_MDELEM_STORAGE_INTERNED,
    key_is_interned := true, hash := 261, key_hash := 5, static_index := 0 }

/-- A second interned entry for worked examples: `xy: z`, entry hash 5 (filter
bucket 5 as well), key hash 6. -/
def demoEntryB : grpc_mdelem :=
  { key := [120, 121], value := [122],
    storage := grpc_mdelem_data_storage.GRPC_MDELEM_STORAGE_INTERNED,
    key_is_interned := true, hash := 5, key_hash := 6, static_index := 0 }

/-- A framer for worked examples on a compressor whose filter has counted
bucket 5 once, as after one `Encode` of `demoEntryA`. -/
def demoSeenFramer : Framer :=
  Framer.new (demoOptions 16384)
    { HPackCompressor.init with
      filter_elems := (HPackCompressor.init.filter_elems.AddElement 5).2 } []

/-! ## Counting the calls of `AllocateIndex` on the generic path -/

/-- The function `HPackCompressor::AddElem` with a ghost counter of the calls of
`table_.AllocateIndex`: `calls` is the number of calls made so far. -/
def HPackCompressor.AddElem_counted (c : HPackCompressor) (calls : Nat)
    (elem_size elem_hash key_hash : Nat) : HPackCompressor × Nat :=
  let r := c.table.AllocateIndex elem_size
  let calls := calls + 1
  let c := { c with table := r.2 }
  if r.1 ≠ 0 then (c.AddElemWithIndex r.1 elem_hash key_hash, calls) else (c, calls)

/-- The function `HPackCompressor::AddKey` with the ghost counter. -/
def HPackCompressor.AddKey_counted (c : HPackCompressor) (calls : Nat)
    (elem_size key_hash : Nat) : HPackCompressor × Nat :=
  let r := c.table.AllocateIndex elem_size
  let calls := calls + 1
  let c := { c with table := r.2 }
  if r.1 ≠ 0 then (c.AddKeyWithIndex r.1 key_hash, calls) else (c, calls)

/-- The part of `Framer::EncodeDynamic` after the lookup of the entry, with the
ghost counter: the framer and the number of calls of `AllocateIndex`. -/
def Framer.EncodeDynamic_literal_counted (env : Collaborators) (f : Framer) (elem : grpc_mdelem)
    (elem_interned : Bool) (elem_hash : Nat) : Option (Framer × Nat) :=
  let decoder_space_usage := MetadataSizeInHPackTable elem f.use_true_binary_metadata
  let decoder_space_available := decide (decoder_space_usage < kMaxDecoderSpaceUsage)
  let should_add_elem := elem_interned && decoder_space_available && decide (elem_hash ≠ 0)
  let key_hash := elem.key_hash
  let indices_key := f.compressor.key_index.Lookup key_hash
  let key_hit :=
    match indices_key with
    | some i => f.compressor.table.ConvertableToDynamicIndex i
    | none => false
  if key_hit then
    let wire_index := f.compressor.table.DynamicIndex (indices_key.getD 0)
    if should_add_elem then
      (f.EmitLitHdrIncIdx env wire_index elem).map (fun f =>
        let r := f.compressor.AddElem_counted 0 decoder_space_usage elem_hash key_hash
        ({ f with compressor := r.1 }, r.2))
    else (f.EmitLitHdrNotIdx env wire_index elem).map (fun f => (f, 0))
  else
    let should_add_key := !elem_interned && decoder_space_available
    let emitted :=
      if should_add_elem || should_add_key then f.EmitLitHdrWithStringKeyIncIdx env elem
      else f.EmitLitHdrWithStringKeyNotIdx env elem
    emitted.map (fun f =>
      if should_add_elem then
        let r := f.compressor.AddElem_counted 0 decoder_space_usage elem_hash key_hash
        ({ f with compressor := r.1 }, r.2)
      else if should_add_key then
        let r := f.compressor.AddKey_counted 0 decoder_space_usage key_hash
        ({ f with compressor := r.1 }, r.2)
      else (f, 0))

/-- The function `Framer::EncodeDynamic` with the ghost counter: the framer and
the number of calls of `AllocateIndex` the call made. -/
def Framer.EncodeDynamic_counted (env : Collaborators) (f : Framer) (elem : grpc_mdelem) :
    Option (Framer × Nat) :=
  let elem_interned := GRPC_MDELEM_IS_INTERNED elem
  let key_interned := elem_interned || elem.key_is_interned
  if !key_interned then (f.EmitLitHdrWithStringKeyNotIdx env elem).map (fun f => (f, 0))
  else if elem_interned then
    let elem_hash := elem.hash
    let r := f.compressor.filter_elems.AddElement (elem_hash % kNumFilterValues)
    let can_add_to_hashtable := r.1
    let f := { f with compressor := { f.compressor with filter_elems := r.2 } }
    let indices_key := f.compressor.elem_index.Lookup elem_hash
    let elem_hit :=
      match indices_key with
      | some i => f.compressor.table.ConvertableToDynamicIndex i
      | none => false
    if elem_hit then
      some (f.EmitIndexed (f.compressor.table.DynamicIndex (indices_key.getD 0)), 0)
    else
      let elem_hash := if !can_add_to_hashtable then 0 else elem_hash
      f.EncodeDynamic_literal_counted env elem elem_interned elem_hash
  else f.EncodeDynamic_literal_counted env elem elem_interned 0

/-- Whether `EncodeDynamic` calls `AllocateIndex`, as the specification words
it, on the compressor `c` before the call: no early return happened (the key is
interned, the entry cache has no live hit) and either `should_add_elem` holds,
or the key cache has no live hit and `should_add_key` holds. -/
def EncodeDynamic_allocates (c : HPackCompressor) (elem : grpc_mdelem) : Bool :=
  let interned := GRPC_MDELEM_IS_INTERNED elem
  let can_add := (c.filter_elems.AddElement (elem.hash % kNumFilterValues)).1
  let size := elem.key.length + elem.value.length + 32
  let should_add_elem := interned && decide (size < 512) && can_add && decide (elem.hash ≠ 0)
  let should_add_key := !interned && decide (size < 512)
  (interned || elem.key_is_interned) &&
    !(interned && liveIndex c.table (c.elem_index.Lookup elem.hash)) &&
    (should_add_elem ||
      (!liveIndex c.table (c.key_index.Lookup elem.key_hash) && should_add_key))

/-- A framer for worked examples on a compressor whose table holds at most 10
bytes, after `SetMaxTableSize(10)`: no entry fits. -/
def demoSmallFramer : Framer :=
  Framer.new (demoOptions 16384) (HPackCompressor.init.SetMaxTableSize 10) []

/-- The framer `demoSmallFramer` on a compressor whose filter has counted bucket
5 once, as after one `Encode` of `demoEntryA`. -/
def demoSmallSeenFramer : Framer :=
  Framer.new (demoOptions 16384)
    { HPackCompressor.init.SetMaxTableSize 10 with
      filter_elems := (HPackCompressor.init.filter_elems.AddElement 5).2 } []

/-! # Theorems -/

/-! ## Lemmas on the output buffer -/

theorem store_mid (A Z C H : List Nat) (h : H.length = Z.length) :
    store (A ++ (Z ++ C)) A.length H = A ++ (H ++ C) := by
  unfold store
  rw [List.take_left, List.drop_append, h, List.drop_left]
  simp

theorem store_end (A H : List Nat) :
    store (A ++ List.replicate H.length 0) A.length H = A ++ H := by
  have := store_mid A (List.replicate H.length 0) [] H (by simp)
  simpa using this

theorem wireFrames_append (fs gs : List Frame) :
    wireFrames (fs ++ gs) = wireFrames fs ++ wireFrames gs := by
  induction fs with
  | nil => rfl
  | cons fr frs ih => simp [wireFrames, ih]

theorem payloads_append (fs gs : List Frame) :
    payloads (fs ++ gs) = payloads fs ++ payloads gs := by
  induction fs with
  | nil => rfl
  | cons fr frs ih => simp [payloads, ih]

theorem FillHeader_length (type id len flags : Nat) :
    (FillHeader type id len flags).length = 9 := rfl

theorem size_sub_of_le {a b : Nat} (h : b ≤ a) : size_sub a b = a - b := by
  simp [size_sub, h]

theorem Framer.Layout.currentFrameSize {f : Framer} {base : List Nat} {fs : List Frame}
    {cur : List Nat} (h : f.Layout base fs cur) : f.CurrentFrameSize = cur.length := by
  unfold CurrentFrameSize
  rw [h.out, h.start, size_sub_of_le] <;> simp <;> omega

theorem Framer.Layout.finishFrame_output {f : Framer} {base : List Nat} {fs : List Frame}
    {cur : List Nat} (h : f.Layout base fs cur) (b : Bool) :
    (f.FinishFrame b).output = base ++ wireFrames (fs ++ [f.frameOf b cur]) := by
  have hc := h.currentFrameSize
  show store f.output f.prefix_.header_idx _ = _
  rw [h.idx, hc, h.out, store_mid _ _ _ _ (by simp [FillHeader_length, kDataFrameHeaderSize])]
  simp [wireFrames_append, wireFrames, Frame.wire, frameOf, mkFrame]

theorem Framer.Layout.restart {f : Framer} {base : List Nat} {fs : List Frame}
    {cur : List Nat} (h : f.Layout base fs cur) :
    f.restart.Layout base (fs ++ [f.frameOf false cur]) [] := by
  have ho := h.finishFrame_output false
  constructor
  · show (f.FinishFrame false).output ++ _ = _
    rw [ho]; simp
  · show (f.FinishFrame false).output.length = _
    rw [ho]
  · show ((f.FinishFrame false).output ++ _).length = _
    rw [ho]; simp; omega

theorem Framer.restart_sameConfig (f : Framer) : f.SameConfig f.restart :=
  ⟨rfl, rfl, rfl, rfl, rfl⟩

theorem Framer.restart_currentFrameSize (f : Framer) : f.restart.CurrentFrameSize = 0 := by
  show size_sub _ _ = 0
  simp [restart, BeginFrame, grpc_slice_buffer_add_indexed, size_sub]

theorem Framer.sameConfig_refl (f : Framer) : f.SameConfig f := ⟨rfl, rfl, rfl, rfl, rfl⟩

theorem Framer.sameConfig_trans {f g h : Framer} (a : f.SameConfig g) (b : g.SameConfig h) :
    f.SameConfig h :=
  ⟨b.1.trans a.1, b.2.trans a.2, b.3.trans a.3, b.4.trans a.4, b.5.trans a.5⟩

theorem Framer.ensureSpace_eq (f : Framer) (need_bytes : Nat) :
    f.EnsureSpace need_bytes =
      if f.CurrentFrameSize + need_bytes ≤ f.max_frame_size then f else f.restart := rfl

theorem Framer.addTinyBytes_eq (f : Framer) (bs : List Nat) :
    f.AddTinyBytes bs =
      { f.EnsureSpace bs.length with
        stats := { (f.EnsureSpace bs.length).stats with
          header_bytes := (f.EnsureSpace bs.length).stats.header_bytes + bs.length }
        output := (f.EnsureSpace bs.length).output ++ bs } := by
  simp [AddTinyBytes, AddTiny, Write, grpc_slice_buffer_tiny_add, store_end]

theorem Framer.Layout.append {f : Framer} {base : List Nat} {fs : List Frame} {cur : List Nat}
    (h : f.Layout base fs cur) (bs : List Nat) (st : Stats) :
    Layout { f with stats := st, output := f.output ++ bs } base fs (cur ++ bs) :=
  ⟨by show f.output ++ bs = _; rw [h.out]; simp, h.idx, h.start⟩

theorem framesOf_append (first eos : Bool) (sid : Nat) (a b : List (List Nat)) :
    framesOf first eos sid (a ++ b) =
      framesOf first eos sid a ++ framesOf (first && a.isEmpty) eos sid b := by
  induction a generalizing first with
  | nil => simp [framesOf]
  | cons p ps ih => simp [framesOf, ih]

theorem framesOf_length (first eos : Bool) (sid : Nat) (a : List (List Nat)) :
    (framesOf first eos sid a).length = a.length := by
  induction a generalizing first with
  | nil => rfl
  | cons p ps ih => simp [framesOf, ih]

theorem payloads_framesOf (first eos : Bool) (sid : Nat) (a : List (List Nat)) :
    payloads (framesOf first eos sid a) = a.flatten := by
  induction a generalizing first with
  | nil => rfl
  | cons p ps ih => simp [framesOf, payloads, ih, mkFrame]

theorem Framer.appends_refl (f : Framer) : f.Appends f [] :=
  ⟨sameConfig_refl f, by simp, fun base fs cur h =>
    ⟨[], cur, by simpa [framesOf, grpc_core.framesOf] using h, by simp, by simp, by simp⟩⟩

theorem Framer.appends_trans {f g h : Framer} {a b : List Nat} (x : f.Appends g a)
    (y : g.Appends h b) : f.Appends h (a ++ b) := by
  refine ⟨sameConfig_trans x.same y.same, by rw [y.header_bytes, x.header_bytes]; simp; omega, ?_⟩
  intro base fs cur hl
  obtain ⟨c1, cur1, l1, e1, f1, s1⟩ := x.layout base fs cur hl
  obtain ⟨c2, cur2, l2, e2, f2, s2⟩ := y.layout base _ cur1 l1
  refine ⟨c1 ++ c2, cur2, ?_, ?_, ?_, ?_⟩
  · have : g.framesOf c2 = grpc_core.framesOf (f.is_first_frame && c1.isEmpty)
        f.is_end_of_stream f.stream_id c2 := by
      simp [framesOf, f1, x.same.is_end_of_stream, x.same.stream_id]
    rw [this] at l2
    simpa [framesOf, framesOf_append] using l2
  · rw [List.flatten_append, List.append_assoc, e2, ← List.append_assoc, e1, List.append_assoc]
  · rw [f2, f1]; cases c1 <;> simp
  · rw [s2, s1]; simp; ring

theorem Framer.addFuel_succ (fuel : Nat) (f : Framer) (slice : List Nat) :
    AddFuel (fuel + 1) f slice =
      if slice.length = 0 then some f
      else if slice.length ≤ size_sub f.max_frame_size f.CurrentFrameSize then
        some { f with
          stats := { f.stats with header_bytes := f.stats.header_bytes + slice.length }
          output := f.output ++ slice }
      else
        AddFuel fuel
          (restart { f with
            stats := { f.stats with
              header_bytes := f.stats.header_bytes + size_sub f.max_frame_size f.CurrentFrameSize }
            output := f.output ++ slice.take (size_sub f.max_frame_size f.CurrentFrameSize) })
          (slice.drop (size_sub f.max_frame_size f.CurrentFrameSize)) := rfl

theorem Framer.appends_append (f : Framer) (bs : List Nat) :
    f.Appends { f with
      stats := { f.stats with header_bytes := f.stats.header_bytes + bs.length }
      output := f.output ++ bs } bs :=
  ⟨⟨rfl, rfl, rfl, rfl, rfl⟩, rfl, fun base fs cur h =>
    ⟨[], cur ++ bs, by simpa [framesOf, grpc_core.framesOf] using h.append bs _,
      by simp, by simp, by simp⟩⟩

theorem Framer.appends_restart (f : Framer) : f.Appends f.restart [] :=
  ⟨restart_sameConfig f, rfl, fun base fs cur h =>
    ⟨[cur], [], by simpa [framesOf, grpc_core.framesOf, frameOf] using h.restart,
      by simp, by simp [restart, BeginFrame, FinishFrame],
      by simp [restart, BeginFrame, FinishFrame]⟩⟩

theorem Framer.appends_ensureSpace (f : Framer) (n : Nat) : f.Appends (f.EnsureSpace n) [] := by
  rw [ensureSpace_eq]
  split_ifs
  · exact appends_refl f
  · exact appends_restart f

theorem Framer.appends_addTinyBytes (f : Framer) (bs : List Nat) : f.Appends (f.AddTinyBytes bs) bs := by
  rw [addTinyBytes_eq]
  simpa using appends_trans (appends_ensureSpace f bs.length) (appends_append _ bs)

theorem Framer.appends_addFuel (fuel : Nat) : ∀ (f g : Framer) (slice : List Nat),
    AddFuel fuel f slice = some g → f.Appends g slice := by
  induction fuel with
  | zero => intro f g slice h; simp [AddFuel] at h
  | succ fuel ih =>
    intro f g slice h
    rw [addFuel_succ] at h
    split_ifs at h with h0 h1
    · have : slice = [] := List.length_eq_zero.mp h0
      cases h; subst this; exact appends_refl f
    · cases h; exact appends_append f slice
    · have hlen : (slice.take (size_sub f.max_frame_size f.CurrentFrameSize)).length =
          size_sub f.max_frame_size f.CurrentFrameSize := by
        rw [List.length_take]; omega
      have a1 := appends_append f (slice.take (size_sub f.max_frame_size f.CurrentFrameSize))
      rw [hlen] at a1
      have a2 := appends_trans (appends_trans a1 (appends_restart _)) (ih _ _ _ h)
      simpa using a2

theorem Framer.appends_add {f g : Framer} {slice : List Nat} (h : f.Add slice = some g) :
    f.Appends g slice :=
  appends_addFuel _ f g slice h

/-- With a frame size of at least one byte, `Add` returns: after the first call
the current frame is empty, so each further call shortens the slice. -/
theorem Framer.addFuel_isSome_of_empty (fuel : Nat) : ∀ (f : Framer) (slice : List Nat),
    1 ≤ f.max_frame_size → f.CurrentFrameSize = 0 → slice.length < fuel →
    (AddFuel fuel f slice).isSome := by
  induction fuel with
  | zero => intro f slice _ _ h; omega
  | succ fuel ih =>
    intro f slice hM hc hlt
    rw [addFuel_succ]
    split_ifs with h0 h1
    · rfl
    · rfl
    · have hr : size_sub f.max_frame_size f.CurrentFrameSize = f.max_frame_size := by
        rw [hc]; simp [size_sub]
      apply ih
      · exact hM
      · exact restart_currentFrameSize _
      · rw [List.length_drop, hr]; omega

theorem Framer.add_isSome (f : Framer) (slice : List Nat) (hM : 1 ≤ f.max_frame_size) :
    (f.Add slice).isSome := by
  unfold Add
  rw [addFuel_succ]
  split_ifs with h0 h1
  · rfl
  · rfl
  · apply addFuel_isSome_of_empty
    · exact hM
    · exact restart_currentFrameSize _
    · rw [List.length_drop]; omega

/-- The frames `Add` finishes when the current frame holds at most
`max_frame_size` bytes: each is filled to exactly `max_frame_size` bytes, and
the frame left open is not empty when any frame was finished. -/
theorem Framer.addFuel_chunks (fuel : Nat) : ∀ (f g : Framer) (slice base : List Nat)
    (fs : List Frame) (cur : List Nat),
    AddFuel fuel f slice = some g → f.Layout base fs cur → cur.length ≤ f.max_frame_size →
    ∃ chunks cur', g.Layout base (fs ++ f.framesOf chunks) cur' ∧
      chunks.flatten ++ cur' = cur ++ slice ∧
      (∀ p ∈ chunks, p.length = f.max_frame_size) ∧
      cur'.length ≤ f.max_frame_size ∧
      (chunks = [] → slice.length ≤ f.max_frame_size - cur.length) ∧
      (chunks ≠ [] → cur' ≠ [] ∧ f.max_frame_size - cur.length < slice.length) ∧
      g.is_first_frame = (f.is_first_frame && chunks.isEmpty) ∧
      g.stats.framing_bytes = f.stats.framing_bytes + 9 * chunks.length := by
  induction fuel with
  | zero => intro f g slice base fs cur h; simp [AddFuel] at h
  | succ fuel ih =>
    intro f g slice base fs cur h hl hc
    have hr : size_sub f.max_frame_size f.CurrentFrameSize = f.max_frame_size - cur.length := by
      rw [hl.currentFrameSize, size_sub_of_le hc]
    rw [addFuel_succ, hr] at h
    split_ifs at h with h0 h1
    · have : slice = [] := List.length_eq_zero.mp h0
      cases h; subst this
      exact ⟨[], cur, by simpa [framesOf, grpc_core.framesOf] using hl, by simp, by simp, hc,
        by simp, by simp, by simp, by simp⟩
    · cases h
      exact ⟨[], cur ++ slice, by simpa [framesOf, grpc_core.framesOf] using hl.append slice _,
        by simp, by simp, by simp; omega, fun _ => h1, by simp, by simp, by simp⟩
    · have hlen : (slice.take (f.max_frame_size - cur.length)).length =
          f.max_frame_size - cur.length := by
        rw [List.length_take]; omega
      have l1 := (hl.append (slice.take (f.max_frame_size - cur.length))
        { f.stats with header_bytes := f.stats.header_bytes + (f.max_frame_size - cur.length) }).restart
      obtain ⟨chunks, cur', l2, e2, b2, c2, -, n2, f2, s2⟩ := ih _ _ _ _ _ _ h l1 (by simp)
      refine ⟨(cur ++ slice.take (f.max_frame_size - cur.length)) :: chunks, cur', ?_, ?_, ?_,
        c2, by simp, fun _ => ⟨?_, by omega⟩, ?_, ?_⟩
      · simpa [framesOf, grpc_core.framesOf, frameOf, restart, BeginFrame, FinishFrame] using l2
      · simp only [List.flatten_cons, List.append_assoc, e2, List.nil_append,
          List.take_append_drop]
      · intro p hp
        rcases List.mem_cons.mp hp with rfl | hp
        · rw [List.length_append, hlen]; omega
        · exact b2 p hp
      · by_cases hch : chunks = []
        · subst hch
          simp only [List.flatten_nil, List.nil_append] at e2
          intro hcur
          rw [hcur] at e2
          have := congrArg List.length e2
          simp at this
          omega
        · exact (n2 hch).1
      · simpa [restart, BeginFrame, FinishFrame] using f2
      · rw [s2]
        simp [restart, BeginFrame, FinishFrame, kDataFrameHeaderSize]
        omega

/-! ## The frame header -/

theorem three_parts (A B D : List Nat) (pos : Nat) (hp : A.length = pos) :
    (A ++ B ++ D).take pos = A ∧ ((A ++ B ++ D).drop pos).take B.length = B ∧
    (A ++ B ++ D).drop (pos + B.length) = D := by
  subst hp
  refine ⟨?_, ?_, ?_⟩
  · rw [List.append_assoc, List.take_left]
  · rw [List.append_assoc, List.drop_left, List.take_left]
  · rw [← List.length_append, List.drop_left]

theorem store_spec (out : List Nat) (pos : Nat) (bs : List Nat)
    (h : pos + bs.length ≤ out.length) :
    (store out pos bs).take pos = out.take pos ∧
    ((store out pos bs).drop pos).take bs.length = bs ∧
    (store out pos bs).drop (pos + bs.length) = out.drop (pos + bs.length) ∧
    (store out pos bs).length = out.length := by
  have hp : (out.take pos).length = pos := by rw [List.length_take]; omega
  obtain ⟨a, b, c⟩ := three_parts (out.take pos) bs (out.drop (pos + bs.length)) pos hp
  exact ⟨a, b, c, by simp [store]; omega⟩

theorem finishFrame_flags (first eos b : Bool) :
    (if b = true then
        (if (first && eos) = true then 0 ||| GRPC_CHTTP2_DATA_FLAG_END_STREAM else 0) |||
          GRPC_CHTTP2_DATA_FLAG_END_HEADERS
      else if (first && eos) = true then 0 ||| GRPC_CHTTP2_DATA_FLAG_END_STREAM else 0) =
      (if (first && eos) = true then 0x01 else 0) + (if b = true then 0x04 else 0) := by
  cases first <;> cases eos <;> cases b <;> decide

/-- C5. For a length below 2^24 and a 32-bit stream id, `FillHeader` writes the
nine bytes length (three bytes, big-endian), type, flags, stream id (four bytes,
big-endian), and reading the length bytes and the id bytes back as big-endian
integers returns the length and the id. -/
theorem FillHeader_bytes_roundtrip (type flags id len : Nat) (hid : id < 2 ^ 32)
    (hlen : len < 2 ^ 24) :
    FillHeader type id len flags =
        [len >>> 16, (len >>> 8) % 256, len % 256, type, flags,
         id >>> 24, (id >>> 16) % 256, (id >>> 8) % 256, id % 256] ∧
      read_be ((FillHeader type id len flags).take 3) = len ∧
      read_be (((FillHeader type id len flags).drop 5).take 4) = id := by
  simp only [FillHeader, u8, Nat.shiftRight_eq_div_pow, read_be, List.take, List.drop,
    List.foldl]
  refine ⟨?_, ?_, ?_⟩
  · have h1 : len / 2 ^ 16 % 256 = len / 2 ^ 16 := by omega
    have h2 : id / 2 ^ 24 % 256 = id / 2 ^ 24 := by omega
    rw [h1, h2]
  · omega
  · omega

/-- A length below 2^24 and a 32-bit stream id satisfy the hypotheses of C5, and
the header of a 300-byte CONTINUATION frame of stream 5 reads back. -/
theorem FillHeader_bytes_roundtrip_witness :
    (5 < 2 ^ 32 ∧ 300 < 2 ^ 24) ∧
      FillHeader 9 5 300 4 = [0, 1, 44, 9, 4, 0, 0, 0, 5] ∧
      read_be ((FillHeader 9 5 300 4).take 3) = 300 ∧
      read_be (((FillHeader 9 5 300 4).drop 5).take 4) = 5 :=
  ⟨by decide, by
    have h := FillHeader_bytes_roundtrip 9 4 5 300 (by decide) (by decide)
    exact ⟨by rw [h.1]; decide, h.2.1, h.2.2⟩⟩

/-- C4. `FinishFrame(is_header_boundary)` writes into the reserved header slot of
the current frame the type (0x01 on the first frame, else 0x09), the current
payload size (output length minus the offset recorded when the frame began), the
flags (0x01 when first frame and end of stream, plus 0x04 when header boundary,
no other bit) and the stream id; the rest of the output is untouched.
Afterwards `is_first_frame_` is false, `framing_bytes` has grown by 9, and the
output length and the frame prefix are unchanged. -/
theorem FinishFrame_writes_header (f : Framer) (is_header_boundary : Bool)
    (hslot : f.prefix_.header_idx + kDataFrameHeaderSize ≤ f.output.length)
    (hstart : f.prefix_.output_length_at_start_of_frame ≤ f.output.length) :
    (((f.FinishFrame is_header_boundary).output.drop f.prefix_.header_idx).take
        kDataFrameHeaderSize =
      FillHeader (if f.is_first_frame then 0x01 else 0x09) f.stream_id
        (f.output.length - f.prefix_.output_length_at_start_of_frame)
        ((if f.is_first_frame && f.is_end_of_stream then 0x01 else 0) +
          (if is_header_boundary then 0x04 else 0))) ∧
    (f.FinishFrame is_header_boundary).output.take f.prefix_.header_idx =
      f.output.take f.prefix_.header_idx ∧
    (f.FinishFrame is_header_boundary).output.drop
        (f.prefix_.header_idx + kDataFrameHeaderSize) =
      f.output.drop (f.prefix_.header_idx + kDataFrameHeaderSize) ∧
    (f.FinishFrame is_header_boundary).is_first_frame = false ∧
    (f.FinishFrame is_header_boundary).stats.framing_bytes = f.stats.framing_bytes + 9 ∧
    (f.FinishFrame is_header_boundary).stats.header_bytes = f.stats.header_bytes ∧
    (f.FinishFrame is_header_boundary).output.length = f.output.length ∧
    (f.FinishFrame is_header_boundary).prefix_ = f.prefix_ ∧
    (f.FinishFrame is_header_boundary).compressor = f.compressor := by
  have ho : (f.FinishFrame is_header_boundary).output =
      store f.output f.prefix_.header_idx
        (FillHeader (if f.is_first_frame then 0x01 else 0x09) f.stream_id
          (f.output.length - f.prefix_.output_length_at_start_of_frame)
          ((if f.is_first_frame && f.is_end_of_stream then 0x01 else 0) +
            (if is_header_boundary then 0x04 else 0))) := by
    show store _ _ (FillHeader _ _ f.CurrentFrameSize _) = _
    rw [finishFrame_flags, show f.CurrentFrameSize = _ from size_sub_of_le hstart]
    rfl
  have hs := store_spec f.output f.prefix_.header_idx
    (FillHeader (if f.is_first_frame then 0x01 else 0x09) f.stream_id
      (f.output.length - f.prefix_.output_length_at_start_of_frame)
      ((if f.is_first_frame && f.is_end_of_stream then 0x01 else 0) +
        (if is_header_boundary then 0x04 else 0)))
    (by simpa [FillHeader_length, kDataFrameHeaderSize] using hslot)
  rw [← ho, FillHeader_length] at hs
  exact ⟨hs.2.1, hs.1, hs.2.2.1, rfl, rfl, rfl, hs.2.2.2, rfl, rfl⟩

/-- The header slot of a new framer lies in the output, and finishing its empty
first frame as the header boundary writes a HEADERS header with both flags. -/
theorem FinishFrame_writes_header_witness :
    ((demoFramer 16384).prefix_.header_idx + kDataFrameHeaderSize ≤
        (demoFramer 16384).output.length ∧
      (demoFramer 16384).prefix_.output_length_at_start_of_frame ≤
        (demoFramer 16384).output.length) ∧
    ((demoFramer 16384).FinishFrame true).output = [0, 0, 0, 1, 5, 0, 0, 0, 3] ∧
    ((demoFramer 16384).FinishFrame true).is_first_frame = false :=
  ⟨⟨by decide, by decide⟩, by decide,
    (FinishFrame_writes_header (demoFramer 16384) true (by decide) (by decide)).2.2.2.1⟩

/-! ## `AddTiny` and `Add` -/

theorem mkFrame_flags (first eos b : Bool) (sid : Nat) (p : List Nat) :
    (mkFrame first eos sid b p).flags =
      (if first && eos then 0x01 else 0) + (if b then 0x04 else 0) := by
  cases first <;> cases eos <;> cases b <;> rfl

theorem mkFrame_flags_nonfinal (first eos : Bool) (sid : Nat) (p : List Nat) :
    (mkFrame first eos sid false p).flags &&& GRPC_CHTTP2_DATA_FLAG_END_HEADERS = 0 := by
  rw [mkFrame_flags]
  cases first <;> cases eos <;> decide

theorem mem_framesOf {first eos : Bool} {sid : Nat} {chunks : List (List Nat)} {fr : Frame}
    (h : fr ∈ framesOf first eos sid chunks) :
    fr.payload ∈ chunks ∧ fr.flags &&& GRPC_CHTTP2_DATA_FLAG_END_HEADERS = 0 ∧
      fr.stream_id = sid := by
  induction chunks generalizing first with
  | nil => simp [framesOf] at h
  | cons p ps ih =>
    simp only [framesOf, List.mem_cons] at h
    rcases h with rfl | h
    · exact ⟨by simp [mkFrame], mkFrame_flags_nonfinal _ _ _ _, rfl⟩
    · obtain ⟨a, b, c⟩ := ih h
      exact ⟨List.mem_cons_of_mem _ a, b, c⟩

theorem flatten_length_of_forall (M : Nat) (chunks : List (List Nat))
    (h : ∀ p ∈ chunks, p.length = M) : chunks.flatten.length = chunks.length * M := by
  induction chunks with
  | nil => simp
  | cons p ps ih =>
    have hp := h p (List.mem_cons_self _ _)
    have := ih (fun q hq => h q (List.mem_cons_of_mem _ hq))
    simp [this, hp]; ring

/-- C7. For `n ≤ max_frame_size` and a current frame payload of `c ≤
max_frame_size` bytes, `AddTiny(n)` finishes the current frame (without
END_HEADERS) and begins a new one exactly when `c + n > max_frame_size`; it
reserves `n` bytes at the end of the output, all of them in the payload of the
current frame; afterwards the current frame payload is at most `max_frame_size`
and `header_bytes` has grown by `n`. -/
theorem AddTiny_reserves_in_one_frame (f : Framer) (n : Nat) (base : List Nat)
    (fs : List Frame) (cur : List Nat) (hl : f.Layout base fs cur)
    (hn : n ≤ f.max_frame_size) :
    (cur.length + n ≤ f.max_frame_size →
      (f.AddTiny n).2.Layout base fs (cur ++ List.replicate n 0) ∧
      (f.AddTiny n).2.prefix_ = f.prefix_ ∧
      (f.AddTiny n).2.is_first_frame = f.is_first_frame ∧
      (f.AddTiny n).2.stats.framing_bytes = f.stats.framing_bytes) ∧
    (f.max_frame_size < cur.length + n →
      (f.AddTiny n).2.Layout base (fs ++ [f.frameOf false cur]) (List.replicate n 0) ∧
      (f.frameOf false cur).flags &&& GRPC_CHTTP2_DATA_FLAG_END_HEADERS = 0 ∧
      (f.AddTiny n).2.is_first_frame = false ∧
      (f.AddTiny n).2.stats.framing_bytes = f.stats.framing_bytes + 9) ∧
    (f.AddTiny n).2.prefix_.output_length_at_start_of_frame ≤ (f.AddTiny n).1 ∧
    (f.AddTiny n).1 + n = (f.AddTiny n).2.output.length ∧
    (f.AddTiny n).2.output.drop (f.AddTiny n).1 = List.replicate n 0 ∧
    (f.AddTiny n).2.CurrentFrameSize ≤ f.max_frame_size ∧
    (f.AddTiny n).2.stats.header_bytes = f.stats.header_bytes + n ∧
    (f.AddTiny n).2.compressor = f.compressor := by
  have hcs := hl.currentFrameSize
  have he : (f.AddTiny n).2 =
      { f.EnsureSpace n with
        stats := { (f.EnsureSpace n).stats with
          header_bytes := (f.EnsureSpace n).stats.header_bytes + n }
        output := (f.EnsureSpace n).output ++ List.replicate n 0 } := rfl
  have hp : (f.AddTiny n).1 = (f.EnsureSpace n).output.length := rfl
  rw [he, hp, Framer.ensureSpace_eq, hcs]
  by_cases hfit : cur.length + n ≤ f.max_frame_size
  · rw [if_pos hfit]
    have l1 := hl.append (List.replicate n 0)
      { f.stats with header_bytes := f.stats.header_bytes + n }
    refine ⟨fun _ => ⟨l1, rfl, rfl, rfl⟩, fun h => absurd hfit (by omega), ?_, by simp, ?_, ?_,
      rfl, rfl⟩
    · show f.prefix_.output_length_at_start_of_frame ≤ f.output.length
      rw [hl.start, hl.out]; simp; omega
    · show List.drop f.output.length (f.output ++ List.replicate n 0) = _
      rw [List.drop_left]
    · rw [l1.currentFrameSize]; simp; omega
  · rw [if_neg hfit]
    have l1 := hl.restart.append (List.replicate n 0)
      { f.restart.stats with header_bytes := f.restart.stats.header_bytes + n }
    simp only [List.nil_append] at l1
    refine ⟨fun h => absurd h hfit, fun _ => ⟨l1, ?_, rfl, rfl⟩, ?_, by simp, ?_, ?_, rfl, rfl⟩
    · exact mkFrame_flags_nonfinal _ _ _ _
    · show f.restart.prefix_.output_length_at_start_of_frame ≤ f.restart.output.length
      rw [hl.restart.start, hl.restart.out]; simp; omega
    · show List.drop f.restart.output.length (f.restart.output ++ List.replicate n 0) = _
      rw [List.drop_left]
    · rw [l1.currentFrameSize]; simpa using hn

/-- C6. With `max_frame_size ≥ 1` and a current frame payload of `c ≤
max_frame_size` bytes, `Add(s)` returns; the payloads of all frames, in order,
are the previous ones followed by the bytes of `s`; no frame is finished when
`|s| ≤ max_frame_size - c`, otherwise `ceil((|s| - (max_frame_size - c)) /
max_frame_size)` frames are finished, each with exactly `max_frame_size` payload
bytes and without END_HEADERS, each followed by a reserved header slot; the
current frame payload is at most `max_frame_size` and `header_bytes` has grown by
`|s|`. -/
theorem Add_splits_at_frame_boundary (f : Framer) (slice base : List Nat) (fs : List Frame)
    (cur : List Nat) (hM : 1 ≤ f.max_frame_size) (hl : f.Layout base fs cur)
    (hc : cur.length ≤ f.max_frame_size) :
    ∃ g chunks cur', f.Add slice = some g ∧
      g.Layout base (fs ++ f.framesOf chunks) cur' ∧
      payloads (fs ++ f.framesOf chunks) ++ cur' = (payloads fs ++ cur) ++ slice ∧
      (slice.length ≤ f.max_frame_size - cur.length → chunks = []) ∧
      (f.max_frame_size - cur.length < slice.length →
        chunks.length =
          (slice.length - (f.max_frame_size - cur.length) + f.max_frame_size - 1) /
            f.max_frame_size) ∧
      (∀ fr ∈ f.framesOf chunks, fr.payload.length = f.max_frame_size ∧
        fr.flags &&& GRPC_CHTTP2_DATA_FLAG_END_HEADERS = 0) ∧
      cur'.length ≤ f.max_frame_size ∧
      g.stats.header_bytes = f.stats.header_bytes + slice.length ∧
      g.stats.framing_bytes = f.stats.framing_bytes + 9 * chunks.length ∧
      g.compressor = f.compressor := by
  obtain ⟨g, hg⟩ := Option.isSome_iff_exists.mp (Framer.add_isSome f slice hM)
  obtain ⟨chunks, cur', l2, e2, b2, c2, z2, n2, -, s2⟩ :=
    Framer.addFuel_chunks _ f g slice base fs cur hg hl hc
  have ha := Framer.appends_add hg
  refine ⟨g, chunks, cur', hg, l2, ?_, ?_, ?_, ?_, c2, ha.header_bytes, s2, ha.same.compressor⟩
  · rw [payloads_append, Framer.framesOf, payloads_framesOf, List.append_assoc, e2,
      List.append_assoc]
  · intro hle
    by_contra hne
    have := (n2 hne).2
    omega
  · intro hlt
    have hne : chunks ≠ [] := fun h => by have := z2 h; omega
    have hcur : cur' ≠ [] := (n2 hne).1
    have hpos : 1 ≤ cur'.length := List.length_pos.mpr hcur
    have hsum := congrArg List.length e2
    rw [List.length_append, List.length_append, flatten_length_of_forall _ _ b2] at hsum
    symm
    apply Nat.div_eq_of_lt_le
    · omega
    · rw [Nat.add_mul]; omega
  · intro fr hfr
    obtain ⟨hp, hflag, -⟩ := mem_framesOf hfr
    exact ⟨b2 _ hp, hflag⟩

/-! ## Runs of the framer -/

theorem Framer.boundedAppends_refl (f : Framer) : f.BoundedAppends f [] :=
  ⟨sameConfig_refl f, fun base fs cur h hc =>
    ⟨[], cur, by simpa [framesOf, grpc_core.framesOf] using h, by simp, by simp, by simp, hc⟩⟩

theorem Framer.boundedAppends_trans {f g h : Framer} {a b : List Nat} (x : f.BoundedAppends g a)
    (y : g.BoundedAppends h b) : f.BoundedAppends h (a ++ b) := by
  refine ⟨sameConfig_trans x.same y.same, ?_⟩
  intro base fs cur hl hc
  obtain ⟨c1, cur1, l1, e1, f1, b1, k1⟩ := x.layout base fs cur hl hc
  rw [← x.same.max_frame_size] at k1
  obtain ⟨c2, cur2, l2, e2, f2, b2, k2⟩ := y.layout base _ cur1 l1 k1
  rw [x.same.max_frame_size] at b2 k2
  refine ⟨c1 ++ c2, cur2, ?_, ?_, ?_, ?_, k2⟩
  · have : g.framesOf c2 = grpc_core.framesOf (f.is_first_frame && c1.isEmpty)
        f.is_end_of_stream f.stream_id c2 := by
      simp [framesOf, f1, x.same.is_end_of_stream, x.same.stream_id]
    rw [this] at l2
    simpa [framesOf, framesOf_append] using l2
  · rw [List.flatten_append, List.append_assoc, e2, ← List.append_assoc, e1, List.append_assoc]
  · rw [f2, f1]; cases c1 <;> simp
  · intro p hp
    rcases List.mem_append.mp hp with hp | hp
    · exact b1 p hp
    · exact b2 p hp

theorem Framer.boundedAppends_add {f g : Framer} {slice : List Nat} (h : f.Add slice = some g) :
    f.BoundedAppends g slice :=
  ⟨(appends_add h).same, fun base fs cur hl hc => by
    obtain ⟨chunks, cur', l2, e2, b2, c2, -, -, f2, -⟩ :=
      addFuel_chunks _ f g slice base fs cur h hl hc
    exact ⟨chunks, cur', l2, e2, f2, fun p hp => le_of_eq (b2 p hp), c2⟩⟩

theorem Framer.boundedAppends_addTinyBytes (f : Framer) (bs : List Nat)
    (hn : bs.length ≤ f.max_frame_size) : f.BoundedAppends (f.AddTinyBytes bs) bs := by
  refine ⟨(appends_addTinyBytes f bs).same, fun base fs cur hl hc => ?_⟩
  rw [addTinyBytes_eq, ensureSpace_eq, hl.currentFrameSize]
  by_cases hfit : cur.length + bs.length ≤ f.max_frame_size
  · rw [if_pos hfit]
    exact ⟨[], cur ++ bs, by simpa [framesOf, grpc_core.framesOf] using hl.append bs _,
      by simp, by simp, by simp, by simpa using hfit⟩
  · rw [if_neg hfit]
    have l1 := hl.restart.append bs
      { f.restart.stats with header_bytes := f.restart.stats.header_bytes + bs.length }
    exact ⟨[cur], bs, by simpa [framesOf, grpc_core.framesOf, frameOf] using l1,
      by simp, by simp [restart, BeginFrame, FinishFrame], by simpa using hc, hn⟩

theorem Framer.appends_apply {f g : Framer} {op : FramerOp} (h : f.apply op = some g) :
    f.Appends g op.bytes := by
  cases op with
  | Add slice => exact appends_add h
  | AddTiny bytes =>
    simp only [Framer.apply, Option.some.injEq] at h
    subst h
    exact appends_addTinyBytes f bytes

theorem Framer.appends_runOps : ∀ (ops : List FramerOp) (f g : Framer),
    f.runOps ops = some g → f.Appends g (opsBytes ops)
  | [], f, g, h => by
    simp only [runOps, Option.some.injEq] at h
    subst h
    exact appends_refl f
  | op :: ops, f, g, h => by
    simp only [runOps, Option.bind_eq_some] at h
    obtain ⟨g1, h1, h2⟩ := h
    exact appends_trans (appends_apply h1) (appends_runOps ops g1 g h2)

theorem Framer.boundedAppends_runOps : ∀ (ops : List FramerOp) (f g : Framer),
    f.runOps ops = some g → (∀ op ∈ ops, op.fits f.max_frame_size) →
    f.BoundedAppends g (opsBytes ops)
  | [], f, g, h, _ => by
    simp only [runOps, Option.some.injEq] at h
    subst h
    exact boundedAppends_refl f
  | op :: ops, f, g, h, hfit => by
    simp only [runOps, Option.bind_eq_some] at h
    obtain ⟨g1, h1, h2⟩ := h
    have hop := hfit op (List.mem_cons_self _ _)
    have b1 : f.BoundedAppends g1 op.bytes := by
      cases op with
      | Add slice => exact boundedAppends_add h1
      | AddTiny bytes =>
        simp only [Framer.apply, Option.some.injEq] at h1
        subst h1
        exact boundedAppends_addTinyBytes f bytes hop
    have hrest : ∀ o ∈ ops, o.fits g1.max_frame_size := by
      intro o ho
      rw [b1.same.max_frame_size]
      exact hfit o (List.mem_cons_of_mem _ ho)
    exact boundedAppends_trans b1 (boundedAppends_runOps ops g1 g h2 hrest)

theorem Framer.runOps_isSome : ∀ (ops : List FramerOp) (f : Framer), 1 ≤ f.max_frame_size →
    (f.runOps ops).isSome
  | [], _, _ => rfl
  | op :: ops, f, hM => by
    have h1 : (f.apply op).isSome := by
      cases op with
      | Add slice => exact add_isSome f slice hM
      | AddTiny bytes => rfl
    obtain ⟨g1, hg1⟩ := Option.isSome_iff_exists.mp h1
    have hs := (appends_apply hg1).same.max_frame_size
    simp only [runOps, hg1, Option.some_bind]
    exact runOps_isSome ops g1 (by rw [hs]; exact hM)

theorem VarintWriter.length_write (w : VarintWriter) (high_bits : Nat) :
    (w.Write high_bits).length = w.length := by
  unfold VarintWriter.length VarintWriter.Write
  split_ifs <;> simp

theorem Framer.advertiseTableSizeChange_eq (f : Framer) :
    f.AdvertiseTableSizeChange =
      f.AddTinyBytes
        (VarintWriter.Write { kPrefixBits := 3, value := f.compressor.table.max_size } 0x20) := by
  unfold Framer.AdvertiseTableSizeChange Framer.AddTinyBytes
  simp only [VarintWriter.length_write]

theorem Framer.begun_layout (options : EncodeHeaderOptions) (compressor : HPackCompressor)
    (output : List Nat) : (Framer.begun options compressor output).Layout output [] [] :=
  ⟨by simp [Framer.begun, wireFrames], by simp [Framer.begun, wireFrames],
    by simp [Framer.begun, wireFrames]⟩

theorem Framer.new_unfold (options : EncodeHeaderOptions) (compressor : HPackCompressor)
    (output : List Nat) :
    Framer.new options compressor output =
      if compressor.advertise_table_size_change = true then
        (Framer.begun options compressor output).AdvertiseTableSizeChange
      else Framer.begun options compressor output := rfl

theorem Framer.new_eq (options : EncodeHeaderOptions) (compressor : HPackCompressor)
    (output : List Nat) :
    Framer.new options compressor output =
      (Framer.begun options compressor output).AddTinyBytes (advertisedBytes compressor) ∨
    (Framer.new options compressor output = Framer.begun options compressor output ∧
      advertisedBytes compressor = []) := by
  rw [Framer.new_unfold]
  unfold advertisedBytes
  by_cases h : compressor.advertise_table_size_change = true
  · left
    rw [if_pos h, if_pos h, Framer.advertiseTableSizeChange_eq]
    rfl
  · right
    rw [if_neg h, if_neg h]
    exact ⟨rfl, rfl⟩

theorem Framer.begun_appends_new (options : EncodeHeaderOptions) (compressor : HPackCompressor)
    (output : List Nat) :
    (Framer.begun options compressor output).Appends (Framer.new options compressor output)
      (advertisedBytes compressor) := by
  rcases Framer.new_eq options compressor output with h | ⟨h, h0⟩
  · rw [h]; exact Framer.appends_addTinyBytes _ _
  · rw [h, h0]; exact Framer.appends_refl _

theorem Framer.begun_boundedAppends_new (options : EncodeHeaderOptions)
    (compressor : HPackCompressor) (output : List Nat)
    (hadv : (advertisedBytes compressor).length ≤ options.max_frame_size) :
    (Framer.begun options compressor output).BoundedAppends
      (Framer.new options compressor output) (advertisedBytes compressor) := by
  rcases Framer.new_eq options compressor output with h | ⟨h, h0⟩
  · rw [h]; exact Framer.boundedAppends_addTinyBytes _ _ hadv
  · rw [h, h0]; exact Framer.boundedAppends_refl _

theorem mem_framesOf_false {eos : Bool} {sid : Nat} {chunks : List (List Nat)} {fr : Frame}
    (h : fr ∈ framesOf false eos sid chunks) :
    fr.type = GRPC_CHTTP2_FRAME_CONTINUATION ∧ fr.flags = 0 := by
  induction chunks with
  | nil => simp [framesOf] at h
  | cons p ps ih =>
    simp only [framesOf, List.mem_cons] at h
    rcases h with rfl | h
    · exact ⟨rfl, rfl⟩
    · exact ih h

theorem payload_lengths_sum (frames : List Frame) :
    (frames.map (fun fr => fr.payload.length)).sum = (payloads frames).length := by
  induction frames with
  | nil => rfl
  | cons fr frs ih => simp [payloads, ih]

theorem headerBlock_shape (eos : Bool) (sid : Nat) (chunks : List (List Nat))
    (cur : List Nat) :
    ∃ first rest body last,
      headerBlock eos sid chunks cur = first :: rest ∧
      first :: rest = body ++ [last] ∧
      first.type = 0x01 ∧
      (∀ fr ∈ rest, fr.type = 0x09) ∧
      (∀ fr ∈ body, fr.flags &&& 0x04 = 0) ∧
      last.flags &&& 0x04 = 0x04 ∧
      (∀ fr ∈ rest, fr.flags &&& 0x01 = 0) ∧
      (first.flags &&& 0x01 = 0x01 ↔ eos = true) := by
  cases chunks with
  | nil =>
    refine ⟨mkFrame true eos sid true cur, [], [], mkFrame true eos sid true cur, rfl, rfl, rfl,
      by simp, by simp, ?_, by simp, ?_⟩
    · rw [mkFrame_flags]; cases eos <;> decide
    · rw [mkFrame_flags]; cases eos <;> decide
  | cons p ps =>
    refine ⟨mkFrame true eos sid false p,
      framesOf false eos sid ps ++ [mkFrame false eos sid true cur],
      mkFrame true eos sid false p :: framesOf false eos sid ps,
      mkFrame false eos sid true cur, rfl, rfl, rfl, ?_, ?_, ?_, ?_, ?_⟩
    · intro fr hfr
      rcases List.mem_append.mp hfr with h | h
      · exact (mem_framesOf_false h).1
      · rw [List.mem_singleton.mp h]; rfl
    · intro fr hfr
      rcases List.mem_cons.mp hfr with h | h
      · rw [h]; exact mkFrame_flags_nonfinal _ _ _ _
      · rw [(mem_framesOf_false h).2]; rfl
    · rw [mkFrame_flags]; cases eos <;> decide
    · intro fr hfr
      rcases List.mem_append.mp hfr with h | h
      · rw [(mem_framesOf_false h).2]; rfl
      · rw [List.mem_singleton.mp h, mkFrame_flags]; cases eos <;> decide
    · rw [mkFrame_flags]; cases eos <;> decide

/-- The output of a run: a new framer, a sequence of calls, the final
`FinishFrame(true)`. -/
theorem Framer.run_output (options : EncodeHeaderOptions) (compressor : HPackCompressor)
    (output : List Nat) (ops : List FramerOp) (g : Framer)
    (h : (Framer.new options compressor output).runOps ops = some g) :
    ∃ chunks cur,
      (g.FinishFrame true).output =
        output ++ wireFrames (headerBlock options.is_end_of_stream options.stream_id chunks cur) ∧
      chunks.flatten ++ cur = advertisedBytes compressor ++ opsBytes ops := by
  have a := Framer.appends_trans (Framer.begun_appends_new options compressor output)
    (Framer.appends_runOps ops _ g h)
  obtain ⟨chunks, cur, l, e, f1, -⟩ := a.layout output [] [] (Framer.begun_layout _ _ _)
  refine ⟨chunks, cur, ?_, by simpa using e⟩
  rw [l.finishFrame_output true]
  have hf : g.frameOf true cur =
      mkFrame (true && chunks.isEmpty) options.is_end_of_stream options.stream_id true cur := by
    unfold Framer.frameOf
    rw [f1, a.same.is_end_of_stream, a.same.stream_id]
    rfl
  rw [hf]
  rfl

/-- C3. For every run of a framer (construction, any sequence of `Add` and
`AddTiny` calls, one final `FinishFrame(true)`) the output is the previous
content of the buffer followed by a non-empty sequence of frames: the first has
type HEADERS (0x01) and every later one type CONTINUATION (0x09); the last frame
has END_HEADERS (0x04) and no frame before it has; no frame after the first has
END_STREAM (0x01), and the first has it exactly when `is_end_of_stream`. The run
returns whenever `max_frame_size ≥ 1`. -/
theorem header_block_types_and_flags (options : EncodeHeaderOptions)
    (compressor : HPackCompressor) (output : List Nat) (ops : List FramerOp) :
    (1 ≤ options.max_frame_size →
      ∃ g, (Framer.new options compressor output).runOps ops = some g) ∧
    ∀ g, (Framer.new options compressor output).runOps ops = some g →
      ∃ first rest body last,
        (g.FinishFrame true).output = output ++ wireFrames (first :: rest) ∧
        payloads (first :: rest) = advertisedBytes compressor ++ opsBytes ops ∧
        first :: rest = body ++ [last] ∧
        first.type = 0x01 ∧
        (∀ fr ∈ rest, fr.type = 0x09) ∧
        (∀ fr ∈ body, fr.flags &&& 0x04 = 0) ∧
        last.flags &&& 0x04 = 0x04 ∧
        (∀ fr ∈ rest, fr.flags &&& 0x01 = 0) ∧
        (first.flags &&& 0x01 = 0x01 ↔ options.is_end_of_stream = true) := by
  constructor
  · intro hM
    apply Option.isSome_iff_exists.mp
    apply Framer.runOps_isSome
    rw [(Framer.begun_appends_new options compressor output).same.max_frame_size]
    exact hM
  · intro g h
    obtain ⟨chunks, cur, ho, he⟩ := Framer.run_output options compressor output ops g h
    obtain ⟨first, rest, body, last, e1, e2, p1, p2, p3, p4, p5, p6⟩ :=
      headerBlock_shape options.is_end_of_stream options.stream_id chunks cur
    refine ⟨first, rest, body, last, by rw [ho, e1], ?_, e2, p1, p2, p3, p4, p5, p6⟩
    rw [← e1, headerBlock, payloads_append, payloads_framesOf, ← he]
    simp [payloads, mkFrame]

/-- C2, as amended. For every `max_frame_size` M and every sequence of `Add` and
`AddTiny(n)` calls in which every `n` is at most M (the table size update of the
constructor included), every frame of the run has a payload of at most M bytes,
the payloads together are the HPACK bytes added, and the sum of their lengths is
the number of HPACK bytes added, which is the growth of `header_bytes`. The run
returns whenever M ≥ 1. -/
theorem frame_payloads_within_max_frame_size (options : EncodeHeaderOptions)
    (compressor : HPackCompressor) (output : List Nat) (ops : List FramerOp)
    (hadv : (advertisedBytes compressor).length ≤ options.max_frame_size)
    (hfit : ∀ op ∈ ops, op.fits options.max_frame_size) :
    (1 ≤ options.max_frame_size →
      ∃ g, (Framer.new options compressor output).runOps ops = some g) ∧
    ∀ g, (Framer.new options compressor output).runOps ops = some g →
      ∃ frames,
        (g.FinishFrame true).output = output ++ wireFrames frames ∧
        (∀ fr ∈ frames, fr.payload.length ≤ options.max_frame_size) ∧
        payloads frames = advertisedBytes compressor ++ opsBytes ops ∧
        (frames.map (fun fr => fr.payload.length)).sum =
          (advertisedBytes compressor).length + (opsBytes ops).length ∧
        (g.FinishFrame true).stats.header_bytes =
          options.stats.header_bytes + (frames.map (fun fr => fr.payload.length)).sum := by
  have hnew := Framer.begun_boundedAppends_new options compressor output hadv
  have hM : (Framer.new options compressor output).max_frame_size = options.max_frame_size :=
    hnew.same.max_frame_size
  constructor
  · intro h1
    apply Option.isSome_iff_exists.mp
    apply Framer.runOps_isSome
    rw [hM]; exact h1
  · intro g h
    have b := Framer.boundedAppends_trans hnew
      (Framer.boundedAppends_runOps ops _ g h (by rw [hM]; exact hfit))
    have a := Framer.appends_trans (Framer.begun_appends_new options compressor output)
      (Framer.appends_runOps ops _ g h)
    obtain ⟨chunks, cur, l, e, f1, bc, bcur⟩ :=
      b.layout output [] [] (Framer.begun_layout _ _ _) (Nat.zero_le _)
    have hpay : payloads (Framer.framesOf (Framer.begun options compressor output) chunks ++
        [g.frameOf true cur]) = advertisedBytes compressor ++ opsBytes ops := by
      rw [payloads_append, Framer.framesOf, payloads_framesOf]
      simpa [payloads, Framer.frameOf, mkFrame] using e
    have hsum := payload_lengths_sum
      (Framer.framesOf (Framer.begun options compressor output) chunks ++ [g.frameOf true cur])
    rw [hpay, List.length_append] at hsum
    refine ⟨_, by simpa using l.finishFrame_output true, ?_, hpay, hsum, ?_⟩
    · intro fr hfr
      rcases List.mem_append.mp hfr with h1 | h1
      · exact bc _ (mem_framesOf h1).1
      · rw [List.mem_singleton.mp h1]; exact bcur
    · rw [hsum]
      show g.stats.header_bytes = _
      rw [a.header_bytes, List.length_append]
      show options.stats.header_bytes + _ = _
      omega

theorem demoOps_fit (M : Nat) (hM : 1 ≤ M) : ∀ op ∈ demoOps, op.fits M := by
  intro op hop
  simp only [demoOps, List.mem_cons, List.mem_singleton, List.not_mem_nil, or_false] at hop
  rcases hop with rfl | rfl
  · exact hM
  · trivial

/-- C2 at a frame size of four bytes: the calls satisfy the hypotheses, the run
returns, and its frames have payloads of at most four bytes. -/
theorem frame_payloads_within_max_frame_size_witness :
    ((advertisedBytes HPackCompressor.init).length ≤ (demoOptions 4).max_frame_size ∧
      ∀ op ∈ demoOps, op.fits (demoOptions 4).max_frame_size) ∧
    ∃ g frames, (Framer.new (demoOptions 4) HPackCompressor.init []).runOps demoOps = some g ∧
      (g.FinishFrame true).output = [] ++ wireFrames frames ∧
      (∀ fr ∈ frames, fr.payload.length ≤ (demoOptions 4).max_frame_size) ∧
      payloads frames = advertisedBytes HPackCompressor.init ++ opsBytes demoOps := by
  have hadv : (advertisedBytes HPackCompressor.init).length ≤ (demoOptions 4).max_frame_size := by
    decide
  have hfit := demoOps_fit (demoOptions 4).max_frame_size (by decide)
  have t := frame_payloads_within_max_frame_size (demoOptions 4) HPackCompressor.init []
    demoOps hadv hfit
  obtain ⟨g, hg⟩ := t.1 (by decide)
  obtain ⟨frames, h1, h2, h3, -, -⟩ := t.2 g hg
  exact ⟨⟨hadv, hfit⟩, g, frames, hg, h1, h2, h3⟩

/-- C2 as stated fails: with `max_frame_size = 1`, `Encode(:method PUT)` asks
`AddTiny` for the two bytes of the key prefix, and the run emits a CONTINUATION
frame whose payload has nine bytes. -/
theorem frame_payload_exceeds_max_frame_size :
    (((demoFramer 1).Encode_HttpMethodMetadata Framer.HttpMethodValueType.kPut).map
        (fun g => (g.FinishFrame true).output) =
      some (wireFrames
        [{ type := 1, flags := 1, stream_id := 3, payload := [] },
         { type := 9, flags := 0, stream_id := 3,
           payload := [0, 7, 58, 109, 101, 116, 104, 111, 100] },
         { type := 9, flags := 0, stream_id := 3, payload := [3] },
         { type := 9, flags := 0, stream_id := 3, payload := [80] },
         { type := 9, flags := 0, stream_id := 3, payload := [85] },
         { type := 9, flags := 4, stream_id := 3, payload := [84] }])) ∧
    (demoFramer 1).max_frame_size = 1 ∧
    ¬ ([0, 7, 58, 109, 101, 116, 104, 111, 100].length ≤ (demoFramer 1).max_frame_size) := by
  refine ⟨by decide, by decide, by decide⟩

/-- C3 on a run with a frame size of four bytes: the run returns, and its output
is a HEADERS frame followed by CONTINUATION frames, the last one with END_HEADERS. -/
theorem header_block_types_and_flags_witness :
    1 ≤ (demoOptions 4).max_frame_size ∧
    ∃ g first rest body last,
      (Framer.new (demoOptions 4) HPackCompressor.init []).runOps demoOps = some g ∧
      (g.FinishFrame true).output = [] ++ wireFrames (first :: rest) ∧
      first :: rest = body ++ [last] ∧
      first.type = 0x01 ∧ (∀ fr ∈ rest, fr.type = 0x09) ∧
      (∀ fr ∈ body, fr.flags &&& 0x04 = 0) ∧ last.flags &&& 0x04 = 0x04 := by
  have t := header_block_types_and_flags (demoOptions 4) HPackCompressor.init [] demoOps
  obtain ⟨g, hg⟩ := t.1 (by decide)
  obtain ⟨first, rest, body, last, h1, -, h3, h4, h5, h6, h7, -, -⟩ := t.2 g hg
  exact ⟨by decide, g, first, rest, body, last, hg, h1, h3, h4, h5, h6, h7⟩

theorem demoFramer_layout (M : Nat) : (demoFramer M).Layout [] [] [] :=
  ⟨rfl, rfl, rfl⟩

/-- C6 on a new framer with a frame size of four bytes: a slice of ten bytes
finishes two frames of four bytes each. -/
theorem Add_splits_at_frame_boundary_witness :
    (1 ≤ (demoFramer 4).max_frame_size ∧ (demoFramer 4).Layout [] [] [] ∧
      ([] : List Nat).length ≤ (demoFramer 4).max_frame_size) ∧
    ∃ g chunks cur', (demoFramer 4).Add [1, 2, 3, 4, 5, 6, 7, 8, 9, 10] = some g ∧
      g.Layout [] ([] ++ (demoFramer 4).framesOf chunks) cur' ∧
      chunks.length = 2 ∧ cur'.length ≤ 4 := by
  obtain ⟨g, chunks, cur', h1, h2, -, -, h5, -, h7, -, -, -⟩ :=
    Add_splits_at_frame_boundary (demoFramer 4) [1, 2, 3, 4, 5, 6, 7, 8, 9, 10] [] [] []
      (by decide) (demoFramer_layout 4) (by decide)
  exact ⟨⟨by decide, demoFramer_layout 4, by decide⟩, g, chunks, cur', h1, h2,
    h5 (by decide), h7⟩

/-- C7 on a new framer with a frame size of four bytes: three bytes fit the
empty first frame, which stays open. -/
theorem AddTiny_reserves_in_one_frame_witness :
    ((demoFramer 4).Layout [] [] [] ∧ 3 ≤ (demoFramer 4).max_frame_size) ∧
    ((demoFramer 4).AddTiny 3).2.Layout [] [] ([] ++ List.replicate 3 0) ∧
    ((demoFramer 4).AddTiny 3).1 + 3 = ((demoFramer 4).AddTiny 3).2.output.length ∧
    ((demoFramer 4).AddTiny 3).2.stats.header_bytes = (demoFramer 4).stats.header_bytes + 3 := by
  have t := AddTiny_reserves_in_one_frame (demoFramer 4) 3 [] [] [] (demoFramer_layout 4)
    (by decide)
  exact ⟨⟨demoFramer_layout 4, by decide⟩, (t.1 (by decide)).1, t.2.2.2.1, t.2.2.2.2.2.2.1⟩

/-! ## Emission of the representations -/

theorem Framer.appends_emitsHpack {f g : Framer} {bs : List Nat} (h : f.Appends g bs) :
    f.EmitsHpack g bs := by
  intro base fs cur hl
  obtain ⟨chunks, cur', l, e, -, -⟩ := h.layout base fs cur hl
  exact ⟨f.framesOf chunks, cur', l, by rw [Framer.framesOf, payloads_framesOf, e]⟩

theorem Framer.emitsHpack_of_compressor {f g : Framer} {bs : List Nat} (c : HPackCompressor)
    (h : EmitsHpack { f with compressor := c } g bs) : f.EmitsHpack g bs := by
  intro base fs cur hl
  exact h base fs cur ⟨hl.out, hl.idx, hl.start⟩

theorem Framer.addTiny_write (f : Framer) (n : Nat) (bs : List Nat) (h : bs.length = n) :
    (f.AddTiny n).2.Write (f.AddTiny n).1 bs = f.AddTinyBytes bs := by
  subst h; rfl

theorem Framer.emitIndexed_eq (f : Framer) (index : Nat) :
    f.EmitIndexed index = f.AddTinyBytes (indexedBytes index) := by
  unfold EmitIndexed indexedBytes
  exact addTiny_write _ _ _ (VarintWriter.length_write _ _)

theorem Framer.appends_emitIndexed (f : Framer) (index : Nat) :
    f.Appends (f.EmitIndexed index) (indexedBytes index) := by
  rw [emitIndexed_eq]; exact appends_addTinyBytes _ _

theorem Framer.appends_emitNewName {f g : Framer} {type : Nat} {key value_pfx value_data : List Nat}
    (h : f.emitNewName type key value_pfx value_data = some g) :
    f.Appends g (literalNewNameBytes type key value_pfx value_data) := by
  simp only [emitNewName, Option.bind_eq_some] at h
  obtain ⟨f1, h1, h2⟩ := h
  exact appends_trans (appends_trans (appends_addTinyBytes _ _) (appends_add h1))
    (appends_trans (appends_addTinyBytes _ _) (appends_add h2))

theorem Framer.emitNewName_isSome (f : Framer) (type : Nat) (key value_pfx value_data : List Nat)
    (hM : 1 ≤ f.max_frame_size) :
    (f.emitNewName type key value_pfx value_data).isSome := by
  have h1 : ((f.AddTinyBytes (type ::
      VarintWriter.Write { kPrefixBits := 1, value := key.length } 0x00)).Add key).isSome :=
    add_isSome _ _ (by rw [(appends_addTinyBytes _ _).same.max_frame_size]; exact hM)
  obtain ⟨f1, hf1⟩ := Option.isSome_iff_exists.mp h1
  have hs := (appends_trans (appends_addTinyBytes f _) (appends_add hf1)).same.max_frame_size
  simp only [emitNewName, hf1, Option.some_bind]
  exact add_isSome _ _ (by
    rw [(appends_addTinyBytes _ _).same.max_frame_size, hs]; exact hM)

theorem Framer.stringKey_writePrefix_length (key : List Nat) (type : Nat) :
    ((StringKey.new key).WritePrefix type).length = (StringKey.new key).prefix_length := by
  simp [StringKey.WritePrefix, StringKey.prefix_length, VarintWriter.length_write, Nat.add_comm]

theorem Framer.emitLitHdrWithNonBinaryStringKeyIncIdx_eq (f : Framer) (key value : List Nat) :
    f.EmitLitHdrWithNonBinaryStringKeyIncIdx key value =
      f.emitNewName 0x40 key
        (VarintWriter.Write { kPrefixBits := 1, value := value.length } 0x00) value := by
  have e1 := addTiny_write f _ _ (stringKey_writePrefix_length key 0x40)
  have e2 : ∀ f1 : Framer,
      (f1.AddTiny (NonBinaryStringValue.new value).prefix_length).2.Write
        (f1.AddTiny (NonBinaryStringValue.new value).prefix_length).1
        (NonBinaryStringValue.new value).WritePrefix =
      f1.AddTinyBytes (VarintWriter.Write { kPrefixBits := 1, value := value.length } 0x00) :=
    fun f1 => addTiny_write f1 _ _ (VarintWriter.length_write _ _)
  show Option.bind
    (((f.AddTiny (StringKey.new key).prefix_length).2.Write
      (f.AddTiny (StringKey.new key).prefix_length).1
      ((StringKey.new key).WritePrefix 0x40)).Add key)
    (fun f1 => ((f1.AddTiny (NonBinaryStringValue.new value).prefix_length).2.Write
        (f1.AddTiny (NonBinaryStringValue.new value).prefix_length).1
        (NonBinaryStringValue.new value).WritePrefix).Add value) = _
  rw [e1]
  simp only [e2]
  rfl

theorem Framer.emitLitHdrWithNonBinaryStringKeyNotIdx_eq (f : Framer) (key value : List Nat) :
    f.EmitLitHdrWithNonBinaryStringKeyNotIdx key value =
      f.emitNewName 0x00 key
        (VarintWriter.Write { kPrefixBits := 1, value := value.length } 0x00) value := by
  have e1 := addTiny_write f _ _ (stringKey_writePrefix_length key 0x00)
  have e2 : ∀ f1 : Framer,
      (f1.AddTiny (NonBinaryStringValue.new value).prefix_length).2.Write
        (f1.AddTiny (NonBinaryStringValue.new value).prefix_length).1
        (NonBinaryStringValue.new value).WritePrefix =
      f1.AddTinyBytes (VarintWriter.Write { kPrefixBits := 1, value := value.length } 0x00) :=
    fun f1 => addTiny_write f1 _ _ (VarintWriter.length_write _ _)
  show Option.bind
    (((f.AddTiny (StringKey.new key).prefix_length).2.Write
      (f.AddTiny (StringKey.new key).prefix_length).1
      ((StringKey.new key).WritePrefix 0x00)).Add key)
    (fun f1 => ((f1.AddTiny (NonBinaryStringValue.new value).prefix_length).2.Write
        (f1.AddTiny (NonBinaryStringValue.new value).prefix_length).1
        (NonBinaryStringValue.new value).WritePrefix).Add value) = _
  rw [e1]
  simp only [e2]
  rfl

theorem Framer.stringValue_writePrefix_length (sv : StringValue) :
    sv.WritePrefix.length = sv.prefix_length := by
  unfold StringValue.WritePrefix StringValue.prefix_length
  rw [List.length_append, VarintWriter.length_write]
  split_ifs <;> rfl

theorem Framer.emitLitHdrWithBinaryStringKeyIncIdx_eq (env : Collaborators) (f : Framer)
    (key value : List Nat) :
    f.EmitLitHdrWithBinaryStringKeyIncIdx env key value =
      Option.bind
        ((f.AddTinyBytes (0x40 :: VarintWriter.Write { kPrefixBits := 1, value := key.length }
          0x00)).Add key)
        (fun f1 =>
          (f1.AddTinyBytes
            (StringValue.newBinary env value f1.use_true_binary_metadata).WritePrefix).Add
            (StringValue.newBinary env value f1.use_true_binary_metadata).data) := by
  have e1 := addTiny_write f _ _ (stringKey_writePrefix_length key 0x40)
  have e2 : ∀ f1 : Framer,
      (f1.AddTiny (StringValue.newBinary env value
          f1.use_true_binary_metadata).prefix_length).2.Write
        (f1.AddTiny (StringValue.newBinary env value
          f1.use_true_binary_metadata).prefix_length).1
        (StringValue.newBinary env value f1.use_true_binary_metadata).WritePrefix =
      f1.AddTinyBytes (StringValue.newBinary env value f1.use_true_binary_metadata).WritePrefix :=
    fun f1 => addTiny_write f1 _ _ (stringValue_writePrefix_length _)
  show Option.bind
    (((f.AddTiny (StringKey.new key).prefix_length).2.Write
      (f.AddTiny (StringKey.new key).prefix_length).1
      ((StringKey.new key).WritePrefix 0x40)).Add key)
    (fun f1 => ((f1.AddTiny (StringValue.newBinary env value
          f1.use_true_binary_metadata).prefix_length).2.Write
        (f1.AddTiny (StringValue.newBinary env value
          f1.use_true_binary_metadata).prefix_length).1
        (StringValue.newBinary env value f1.use_true_binary_metadata).WritePrefix).Add
        (StringValue.newBinary env value f1.use_true_binary_metadata).data) = _
  rw [e1]
  simp only [e2]
  rfl

theorem Framer.emitLitHdrWithBinaryStringKeyIncIdx_emitNewName (env : Collaborators) (f : Framer)
    (key value : List Nat) :
    f.EmitLitHdrWithBinaryStringKeyIncIdx env key value =
      f.emitNewName 0x40 key
        (StringValue.newBinary env value f.use_true_binary_metadata).WritePrefix
        (StringValue.newBinary env value f.use_true_binary_metadata).data := by
  rw [emitLitHdrWithBinaryStringKeyIncIdx_eq]
  unfold emitNewName
  cases h1 : (f.AddTinyBytes (0x40 :: VarintWriter.Write
      { kPrefixBits := 1, value := key.length } 0x00)).Add key with
  | none => rfl
  | some f1 =>
    have hs :=
      (appends_trans (appends_addTinyBytes f _) (appends_add h1)).same.use_true_binary_metadata
    simp only [Option.some_bind, hs]

/-- The literal with incremental indexing and a new name that the fast paths
with a value that is not binary emit. -/
theorem Framer.emitsHpack_incIdx {f g : Framer} {key value : List Nat}
    (h : f.EmitLitHdrWithNonBinaryStringKeyIncIdx key value = some g) :
    f.Appends g (literalNewNameBytes 0x40 key
      (VarintWriter.Write { kPrefixBits := 1, value := value.length } 0x00) value) := by
  rw [emitLitHdrWithNonBinaryStringKeyIncIdx_eq] at h
  exact appends_emitNewName h

theorem Framer.incIdx_isSome (f : Framer) (key value : List Nat) (hM : 1 ≤ f.max_frame_size) :
    (f.EmitLitHdrWithNonBinaryStringKeyIncIdx key value).isSome := by
  rw [emitLitHdrWithNonBinaryStringKeyIncIdx_eq]
  exact emitNewName_isSome _ _ _ _ _ hM

theorem Framer.emitsHpack_binaryIncIdx {env : Collaborators} {f g : Framer} {key value : List Nat}
    (h : f.EmitLitHdrWithBinaryStringKeyIncIdx env key value = some g) :
    f.Appends g (literalNewNameBytes 0x40 key
      (StringValue.newBinary env value f.use_true_binary_metadata).WritePrefix
      (StringValue.newBinary env value f.use_true_binary_metadata).data) := by
  rw [emitLitHdrWithBinaryStringKeyIncIdx_emitNewName] at h
  exact appends_emitNewName h

theorem Framer.binaryIncIdx_isSome (env : Collaborators) (f : Framer) (key value : List Nat)
    (hM : 1 ≤ f.max_frame_size) :
    (f.EmitLitHdrWithBinaryStringKeyIncIdx env key value).isSome := by
  rw [emitLitHdrWithBinaryStringKeyIncIdx_emitNewName]
  exact emitNewName_isSome _ _ _ _ _ hM

/-! ## The fast paths that take a new insertion index -/

theorem Framer.incIdx_outcome (f : Framer) (c : HPackCompressor) (key value : List Nat) :
    CallOutcome f (EmitLitHdrWithNonBinaryStringKeyIncIdx { f with compressor := c } key value)
      c (literalNewNameBytes 0x40 key (plainValuePrefix value) value) := by
  constructor
  · intro hM
    exact Option.isSome_iff_exists.mp (incIdx_isSome _ key value hM)
  · intro g hg
    have a := emitsHpack_incIdx hg
    exact ⟨a.same.compressor, emitsHpack_of_compressor c (appends_emitsHpack a)⟩

theorem Framer.binaryIncIdx_outcome (env : Collaborators) (f : Framer) (c : HPackCompressor)
    (key value : List Nat) :
    CallOutcome f (EmitLitHdrWithBinaryStringKeyIncIdx env { f with compressor := c } key value)
      c (literalNewNameBytes 0x40 key
        (StringValue.newBinary env value f.use_true_binary_metadata).WritePrefix
        (StringValue.newBinary env value f.use_true_binary_metadata).data) := by
  constructor
  · intro hM
    exact Option.isSome_iff_exists.mp (binaryIncIdx_isSome env _ key value hM)
  · intro g hg
    have a := emitsHpack_binaryIncIdx hg
    exact ⟨a.same.compressor, emitsHpack_of_compressor c (appends_emitsHpack a)⟩

theorem Framer.encodeAlwaysIndexed_stale (f : Framer) (get : HPackCompressor → Nat)
    (set : HPackCompressor → Nat → HPackCompressor) (key value : List Nat)
    (transport_length : Nat)
    (hs : f.compressor.table.ConvertableToDynamicIndex (get f.compressor) = false) :
    CallOutcome f (f.EncodeAlwaysIndexed get set key value transport_length)
      (set { f.compressor with
          table := (f.compressor.table.AllocateIndex transport_length).2 }
        (f.compressor.table.AllocateIndex transport_length).1)
      (literalNewNameBytes 0x40 key (plainValuePrefix value) value) := by
  unfold EncodeAlwaysIndexed
  rw [if_neg (by simp [hs])]
  exact incIdx_outcome f _ key value

theorem Framer.encodeIndexedKeyWithBinaryValue_stale (env : Collaborators) (f : Framer)
    (get : HPackCompressor → Nat) (set : HPackCompressor → Nat → HPackCompressor)
    (key value : List Nat)
    (hs : f.compressor.table.ConvertableToDynamicIndex (get f.compressor) = false) :
    CallOutcome f (f.EncodeIndexedKeyWithBinaryValue env get set key value)
      (set { f.compressor with
          table := (f.compressor.table.AllocateIndex
            (key.length + value.length + kEntryOverhead)).2 }
        (f.compressor.table.AllocateIndex (key.length + value.length + kEntryOverhead)).1)
      (literalNewNameBytes 0x40 key
        (StringValue.newBinary env value f.use_true_binary_metadata).WritePrefix
        (StringValue.newBinary env value f.use_true_binary_metadata).data) := by
  unfold EncodeIndexedKeyWithBinaryValue
  rw [if_neg (by simp [hs])]
  exact binaryIncIdx_outcome env f _ key value

theorem callOutcome_map {f : Framer} {result : Option Framer} {expected : HPackCompressor}
    {rep : List Nat} (post : Framer → Framer) (e2 : HPackCompressor)
    (h : CallOutcome f result expected rep)
    (hp : ∀ g, g.compressor = expected → (post g).compressor = e2)
    (hl : ∀ g base fs cur, g.Layout base fs cur → (post g).Layout base fs cur) :
    CallOutcome f (result.map post) e2 rep := by
  constructor
  · intro hM
    obtain ⟨g, hg⟩ := h.1 hM
    exact ⟨post g, by rw [hg]; rfl⟩
  · intro g hg
    cases result with
    | none => simp at hg
    | some a =>
      simp only [Option.map_some', Option.some.injEq] at hg
      subst hg
      obtain ⟨hc, he⟩ := h.2 a rfl
      refine ⟨hp a hc, ?_⟩
      intro base fs cur hlay
      obtain ⟨gs, cur', l, e⟩ := he base fs cur hlay
      exact ⟨gs, cur', hl a _ _ _ l, e⟩

theorem callOutcome_of_compressor {f : Framer} {c : HPackCompressor} {result : Option Framer}
    {expected : HPackCompressor} {rep : List Nat}
    (h : CallOutcome { f with compressor := c } result expected rep) :
    CallOutcome f result expected rep :=
  ⟨h.1, fun g hg => ⟨(h.2 g hg).1, Framer.emitsHpack_of_compressor c (h.2 g hg).2⟩⟩

/-- A miss in `SliceIndex::EmitTo`: the new index is appended to the list with
the value, and the literal with incremental indexing is emitted. -/
theorem SliceIndex.emitTo_miss (si : SliceIndex) (key value : List Nat) (f : Framer)
    (h : si.values.findIdx? (fun v => value == v.value) = none) :
    si.EmitTo key value f =
      (Framer.EmitLitHdrWithNonBinaryStringKeyIncIdx
        { f with compressor := { f.compressor with
            table := (f.compressor.table.AllocateIndex
              (key.length + value.length + kEntryOverhead)).2 } } key value).map
        (fun g => (SliceIndex.mk (si.values ++ [ValueIndex.mk value
            (f.compressor.table.AllocateIndex
              (key.length + value.length + kEntryOverhead)).1]), g)) := by
  unfold SliceIndex.EmitTo
  simp only [h]

/-- A hit on an entry that is no longer in the table, in `SliceIndex::EmitTo`: the
new index is stored in the entry, the literal with incremental indexing is
emitted, then the entry is bubbled up and the stale entries at the back are
removed. -/
theorem SliceIndex.emitTo_stale (si : SliceIndex) (key value : List Nat) (f : Framer) (i : Nat)
    (h : si.values.findIdx? (fun v => value == v.value) = some i)
    (hs : f.compressor.table.ConvertableToDynamicIndex
      (si.values.getD i { value := value, index := 0 }).index = false) :
    si.EmitTo key value f =
      (Framer.EmitLitHdrWithNonBinaryStringKeyIncIdx
        { f with compressor := { f.compressor with
            table := (f.compressor.table.AllocateIndex
              (key.length + value.length + kEntryOverhead)).2 } } key value).map
        (fun g => (SliceIndex.mk (SliceIndex.popStale g.compressor.table
            (SliceIndex.bubble (si.values.set i (ValueIndex.mk value
              (f.compressor.table.AllocateIndex
                (key.length + value.length + kEntryOverhead)).1)) i)), g)) := by
  unfold SliceIndex.EmitTo
  simp only [h, hs, Bool.false_eq_true, if_false, Option.map_map]
  rfl

theorem SliceIndex.emitTo_miss_outcome (si : SliceIndex) (key value : List Nat) (f : Framer)
    (put : HPackCompressor → SliceIndex → HPackCompressor)
    (h : si.values.findIdx? (fun v => value == v.value) = none) :
    CallOutcome f
      ((si.EmitTo key value f).map (fun r => { r.2 with compressor := put r.2.compressor r.1 }))
      (put (f.afterAllocate (key.length + value.length + kEntryOverhead))
        (SliceIndex.mk (si.values ++ [ValueIndex.mk value
          (f.allocated (key.length + value.length + kEntryOverhead))])))
      (literalNewNameBytes 0x40 key (plainValuePrefix value) value) := by
  rw [SliceIndex.emitTo_miss si key value f h, Option.map_map]
  refine callOutcome_map _ _ (Framer.incIdx_outcome f _ key value) ?_ ?_
  · intro g hg
    show put g.compressor _ = _
    rw [hg]; rfl
  · intro g base fs cur hl
    exact ⟨hl.out, hl.idx, hl.start⟩

theorem SliceIndex.emitTo_stale_outcome (si : SliceIndex) (key value : List Nat) (f : Framer)
    (put : HPackCompressor → SliceIndex → HPackCompressor) (i : Nat)
    (h : si.values.findIdx? (fun v => value == v.value) = some i)
    (hs : f.compressor.table.ConvertableToDynamicIndex
      (si.values.getD i { value := value, index := 0 }).index = false) :
    CallOutcome f
      ((si.EmitTo key value f).map (fun r => { r.2 with compressor := put r.2.compressor r.1 }))
      (put (f.afterAllocate (key.length + value.length + kEntryOverhead))
        (SliceIndex.mk (SliceIndex.popStale
          (f.afterAllocate (key.length + value.length + kEntryOverhead)).table
          (SliceIndex.bubble (si.values.set i (ValueIndex.mk value
            (f.allocated (key.length + value.length + kEntryOverhead)))) i))))
      (literalNewNameBytes 0x40 key (plainValuePrefix value) value) := by
  rw [SliceIndex.emitTo_stale si key value f i h hs, Option.map_map]
  refine callOutcome_map _ _ (Framer.incIdx_outcome f _ key value) ?_ ?_
  · intro g hg
    show put g.compressor (SliceIndex.mk (SliceIndex.popStale g.compressor.table _)) = _
    rw [hg]; rfl
  · intro g base fs cur hl
    exact ⟨hl.out, hl.idx, hl.start⟩

theorem SliceIndex.mem_popStale {t : HPackEncoderTable} {l : List ValueIndex} {e : ValueIndex}
    (h : e ∈ l) (hl : t.ConvertableToDynamicIndex e.index = true) :
    e ∈ SliceIndex.popStale t l := by
  unfold SliceIndex.popStale
  rw [List.mem_reverse]
  have hr : e ∈ l.reverse := List.mem_reverse.mpr h
  rw [← List.takeWhile_append_dropWhile
    (fun v : ValueIndex => !t.ConvertableToDynamicIndex v.index) l.reverse] at hr
  rcases List.mem_append.mp hr with h1 | h1
  · have := List.mem_takeWhile_imp h1
    simp [hl] at this
  · exact h1

theorem SliceIndex.mem_bubble_set (l : List ValueIndex) (i : Nat) (e : ValueIndex)
    (hi : i < l.length) : e ∈ SliceIndex.bubble (l.set i e) i := by
  unfold SliceIndex.bubble
  split_ifs with h0
  · exact List.mem_set l i hi e
  · have hlen : (l.set i e).length = l.length := List.length_set _ _ _
    obtain ⟨p, h1⟩ : ∃ p, (l.set i e).get? (i - 1) = some p := by
      rw [List.get?_eq_getElem?, List.getElem?_eq_getElem (by omega)]
      exact ⟨_, rfl⟩
    have h2 : (l.set i e).get? i = some e := by
      rw [List.get?_eq_getElem?, List.getElem?_eq_getElem (by omega), List.getElem_set_self]
    simp only [h1, h2]
    refine List.mem_iff_getElem.mpr ⟨i - 1, by simp; omega, ?_⟩
    rw [List.getElem_set_ne (by omega), List.getElem_set_self]

/-- The entry a stale hit refreshes is in the list after the call whenever its
new index is in the table: it is bubbled up, and the removal of stale entries
from the back stops at it at the latest. -/
theorem SliceIndex.refreshed_entry_kept (t : HPackEncoderTable) (l : List ValueIndex)
    (value : List Nat) (index i : Nat)
    (h : l.findIdx? (fun v => value == v.value) = some i)
    (hl : t.ConvertableToDynamicIndex index = true) :
    ValueIndex.mk value index ∈
      SliceIndex.popStale t (SliceIndex.bubble (l.set i (ValueIndex.mk value index)) i) :=
  SliceIndex.mem_popStale
    (SliceIndex.mem_bubble_set l i _ (List.findIdx?_eq_some_iff_findIdx_eq.mp h).1) hl

theorem Framer.encode_UserAgentMetadata_eq (f : Framer) (slice : Slice) :
    f.Encode_UserAgentMetadata slice =
      Framer.EncodeAlwaysIndexed { f with compressor := f.compressor.withUserAgent slice }
        (fun c => c.user_agent_index) (fun c i => { c with user_agent_index := i })
        GRPC_MDSTR_USER_AGENT slice.bytes (10 + slice.bytes.length + kEntryOverhead) := by
  unfold Framer.Encode_UserAgentMetadata HPackCompressor.withUserAgent
  cases (!slice.is_equivalent f.compressor.user_agent) <;> rfl

/-- C10. In every well-known-key fast path that takes a new insertion index
(`:path` and `:authority` on a miss and on a hit whose index is no longer in the
table, `te`, `content-type`, `user-agent`, `grpc-status` with a cached code,
`grpc-trace-bin`, `grpc-tags-bin`), the call returns (for `max_frame_size ≥ 1`),
the table is the one `AllocateIndex` leaves, the index it returned is stored in
the cache slot of the key (in the list entry of the value for `:path` and
`:authority`, before the entry is bubbled up and stale entries are removed from
the back: the entry stays in the list whenever the new index is in the table),
and the HPACK bytes emitted are a literal with incremental indexing and a new
name (first byte 0x40) for that key and value. -/
theorem fast_paths_store_index_and_emit_incidx (env : Collaborators) (f : Framer) :
    (∀ value, f.compressor.path_index.values.findIdx? (fun v => value == v.value) = none →
      CallOutcome f (f.Encode_HttpPathMetadata value)
        { f.afterAllocate (5 + value.length + 32) with
          path_index := SliceIndex.mk (f.compressor.path_index.values ++
            [ValueIndex.mk value (f.allocated (5 + value.length + 32))]) }
        (literalNewNameBytes 0x40 GRPC_MDSTR_PATH (plainValuePrefix value) value)) ∧
    (∀ value i, f.compressor.path_index.values.findIdx? (fun v => value == v.value) = some i →
      f.compressor.table.ConvertableToDynamicIndex
        (f.compressor.path_index.values.getD i (ValueIndex.mk value 0)).index = false →
      CallOutcome f (f.Encode_HttpPathMetadata value)
        { f.afterAllocate (5 + value.length + 32) with
          path_index := SliceIndex.mk (SliceIndex.popStale
            (f.afterAllocate (5 + value.length + 32)).table
            (SliceIndex.bubble (f.compressor.path_index.values.set i
              (ValueIndex.mk value (f.allocated (5 + value.length + 32)))) i)) }
        (literalNewNameBytes 0x40 GRPC_MDSTR_PATH (plainValuePrefix value) value)) ∧
    (∀ value,
      f.compressor.authority_index.values.findIdx? (fun v => value == v.value) = none →
      CallOutcome f (f.Encode_HttpAuthorityMetadata value)
        { f.afterAllocate (10 + value.length + 32) with
          authority_index := SliceIndex.mk (f.compressor.authority_index.values ++
            [ValueIndex.mk value (f.allocated (10 + value.length + 32))]) }
        (literalNewNameBytes 0x40 GRPC_MDSTR_AUTHORITY (plainValuePrefix value) value)) ∧
    (∀ value i,
      f.compressor.authority_index.values.findIdx? (fun v => value == v.value) = some i →
      f.compressor.table.ConvertableToDynamicIndex
        (f.compressor.authority_index.values.getD i (ValueIndex.mk value 0)).index = false →
      CallOutcome f (f.Encode_HttpAuthorityMetadata value)
        { f.afterAllocate (10 + value.length + 32) with
          authority_index := SliceIndex.mk (SliceIndex.popStale
            (f.afterAllocate (10 + value.length + 32)).table
            (SliceIndex.bubble (f.compressor.authority_index.values.set i
              (ValueIndex.mk value (f.allocated (10 + value.length + 32)))) i)) }
        (literalNewNameBytes 0x40 GRPC_MDSTR_AUTHORITY (plainValuePrefix value) value)) ∧
    (f.compressor.table.ConvertableToDynamicIndex f.compressor.te_index = false →
      CallOutcome f (f.Encode_TeMetadata Framer.TeValueType.kTrailers)
        { f.afterAllocate (2 + 8 + 32) with te_index := f.allocated (2 + 8 + 32) }
        (literalNewNameBytes 0x40 GRPC_MDSTR_TE (plainValuePrefix GRPC_MDSTR_TRAILERS)
          GRPC_MDSTR_TRAILERS)) ∧
    (f.compressor.table.ConvertableToDynamicIndex f.compressor.content_type_index = false →
      CallOutcome f
        (f.Encode_ContentTypeMetadata Framer.ContentTypeValueType.kApplicationGrpc)
        { f.afterAllocate (12 + 16 + 32) with content_type_index := f.allocated (12 + 16 + 32) }
        (literalNewNameBytes 0x40 GRPC_MDSTR_CONTENT_TYPE (plainValuePrefix STR_APPLICATION_GRPC)
          STR_APPLICATION_GRPC)) ∧
    (∀ slice : Slice,
      f.compressor.table.ConvertableToDynamicIndex
        (f.compressor.withUserAgent slice).user_agent_index = false →
      CallOutcome f (f.Encode_UserAgentMetadata slice)
        { f.compressor.withUserAgent slice with
          table := (f.afterAllocate (10 + slice.bytes.length + 32)).table
          user_agent_index := f.allocated (10 + slice.bytes.length + 32) }
        (literalNewNameBytes 0x40 GRPC_MDSTR_USER_AGENT (plainValuePrefix slice.bytes)
          slice.bytes)) ∧
    (∀ code, code < kNumCachedGrpcStatusValues f.compressor →
      f.compressor.table.ConvertableToDynamicIndex
        (f.compressor.cached_grpc_status.getD code 0) = false →
      CallOutcome f (f.Encode_GrpcStatusMetadata code)
        { f.afterAllocate (11 + (gpr_ltoa code).length + 32) with
          cached_grpc_status := f.compressor.cached_grpc_status.set code
            (f.allocated (11 + (gpr_ltoa code).length + 32)) }
        (literalNewNameBytes 0x40 GrpcStatusMetadata_key (plainValuePrefix (gpr_ltoa code))
          (gpr_ltoa code))) ∧
    (∀ value,
      f.compressor.table.ConvertableToDynamicIndex f.compressor.grpc_trace_bin_index = false →
      CallOutcome f (f.Encode_GrpcTraceBinMetadata env value)
        { f.afterAllocate (14 + value.length + 32) with
          grpc_trace_bin_index := f.allocated (14 + value.length + 32) }
        (literalNewNameBytes 0x40 STR_GRPC_TRACE_BIN
          (StringValue.newBinary env value f.use_true_binary_metadata).WritePrefix
          (StringValue.newBinary env value f.use_true_binary_metadata).data)) ∧
    (∀ value,
      f.compressor.table.ConvertableToDynamicIndex f.compressor.grpc_tags_bin_index = false →
      CallOutcome f (f.Encode_GrpcTagsBinMetadata env value)
        { f.afterAllocate (13 + value.length + 32) with
          grpc_tags_bin_index := f.allocated (13 + value.length + 32) }
        (literalNewNameBytes 0x40 STR_GRPC_TAGS_BIN
          (StringValue.newBinary env value f.use_true_binary_metadata).WritePrefix
          (StringValue.newBinary env value f.use_true_binary_metadata).data)) ∧
    (∀ value i, f.compressor.path_index.values.findIdx? (fun v => value == v.value) = some i →
      (f.afterAllocate (5 + value.length + 32)).table.ConvertableToDynamicIndex
        (f.allocated (5 + value.length + 32)) = true →
      ValueIndex.mk value (f.allocated (5 + value.length + 32)) ∈
        SliceIndex.popStale (f.afterAllocate (5 + value.length + 32)).table
          (SliceIndex.bubble (f.compressor.path_index.values.set i
            (ValueIndex.mk value (f.allocated (5 + value.length + 32)))) i)) ∧
    (∀ value i,
      f.compressor.authority_index.values.findIdx? (fun v => value == v.value) = some i →
      (f.afterAllocate (10 + value.length + 32)).table.ConvertableToDynamicIndex
        (f.allocated (10 + value.length + 32)) = true →
      ValueIndex.mk value (f.allocated (10 + value.length + 32)) ∈
        SliceIndex.popStale (f.afterAllocate (10 + value.length + 32)).table
          (SliceIndex.bubble (f.compressor.authority_index.values.set i
            (ValueIndex.mk value (f.allocated (10 + value.length + 32)))) i)) := by
  refine ⟨?_, ?_, ?_, ?_, ?_, ?_, ?_, ?_, ?_, ?_, ?_, ?_⟩
  · intro value h
    exact SliceIndex.emitTo_miss_outcome f.compressor.path_index GRPC_MDSTR_PATH value f
      (fun c si => { c with path_index := si }) h
  · intro value i h hs
    exact SliceIndex.emitTo_stale_outcome f.compressor.path_index GRPC_MDSTR_PATH value f
      (fun c si => { c with path_index := si }) i h hs
  · intro value h
    exact SliceIndex.emitTo_miss_outcome f.compressor.authority_index GRPC_MDSTR_AUTHORITY
      value f (fun c si => { c with authority_index := si }) h
  · intro value i h hs
    exact SliceIndex.emitTo_stale_outcome f.compressor.authority_index GRPC_MDSTR_AUTHORITY
      value f (fun c si => { c with authority_index := si }) i h hs
  · intro hs
    exact Framer.encodeAlwaysIndexed_stale f (fun c => c.te_index)
      (fun c i => { c with te_index := i }) GRPC_MDSTR_TE GRPC_MDSTR_TRAILERS _ hs
  · intro hs
    exact Framer.encodeAlwaysIndexed_stale f (fun c => c.content_type_index)
      (fun c i => { c with content_type_index := i }) GRPC_MDSTR_CONTENT_TYPE
      STR_APPLICATION_GRPC _ hs
  · intro slice hs
    rw [Framer.encode_UserAgentMetadata_eq]
    have hs' : (Framer.compressor { f with compressor := f.compressor.withUserAgent slice
        }).table.ConvertableToDynamicIndex
        (f.compressor.withUserAgent slice).user_agent_index = false := by
      have : (f.compressor.withUserAgent slice).table = f.compressor.table := by
        unfold HPackCompressor.withUserAgent; split_ifs <;> rfl
      show (f.compressor.withUserAgent slice).table.ConvertableToDynamicIndex _ = false
      rw [this]; exact hs
    have t := Framer.encodeAlwaysIndexed_stale
      { f with compressor := f.compressor.withUserAgent slice }
      (fun c => c.user_agent_index) (fun c i => { c with user_agent_index := i })
      GRPC_MDSTR_USER_AGENT slice.bytes (10 + slice.bytes.length + kEntryOverhead) hs'
    have ht : (f.compressor.withUserAgent slice).table = f.compressor.table := by
      unfold HPackCompressor.withUserAgent; split_ifs <;> rfl
    have t2 := callOutcome_of_compressor t
    simp only [ht] at t2
    exact t2
  · intro code hc hs
    unfold Framer.Encode_GrpcStatusMetadata
    simp only [hc, hs, decide_True, Bool.and_false, Bool.false_eq_true, if_false, if_true]
    exact Framer.incIdx_outcome f _ GrpcStatusMetadata_key (gpr_ltoa code)
  · intro value hs
    exact Framer.encodeIndexedKeyWithBinaryValue_stale env f (fun c => c.grpc_trace_bin_index)
      (fun c i => { c with grpc_trace_bin_index := i }) STR_GRPC_TRACE_BIN value hs
  · intro value hs
    exact Framer.encodeIndexedKeyWithBinaryValue_stale env f (fun c => c.grpc_tags_bin_index)
      (fun c i => { c with grpc_tags_bin_index := i }) STR_GRPC_TAGS_BIN value hs
  · intro value i h hl
    exact SliceIndex.refreshed_entry_kept _ _ value _ i h hl
  · intro value i h hl
    exact SliceIndex.refreshed_entry_kept _ _ value _ i h hl

/-- C10 on a new compressor: the slot of `te` holds no index of the table,
`Encode(te: trailers)` stores the index 62 that `AllocateIndex(42)` returns and
emits the literal with incremental indexing. -/
theorem fast_paths_store_index_and_emit_incidx_witness :
    (demoFramer 16384).compressor.table.ConvertableToDynamicIndex
        (demoFramer 16384).compressor.te_index = false ∧
    CallOutcome (demoFramer 16384)
      ((demoFramer 16384).Encode_TeMetadata Framer.TeValueType.kTrailers)
      { (demoFramer 16384).afterAllocate (2 + 8 + 32) with
        te_index := (demoFramer 16384).allocated (2 + 8 + 32) }
      (literalNewNameBytes 0x40 GRPC_MDSTR_TE (plainValuePrefix GRPC_MDSTR_TRAILERS)
        GRPC_MDSTR_TRAILERS) ∧
    (demoFramer 16384).allocated (2 + 8 + 32) = 62 :=
  ⟨by decide,
    (fast_paths_store_index_and_emit_incidx demoCollaborators (demoFramer 16384)).2.2.2.2.1
      (by decide),
    by decide⟩

/-! ## The fast path of `:status` -/

theorem Framer.encode_HttpStatus_literal (f : Framer) (status : Nat) (h200 : status ≠ 200)
    (hidx : Framer.HttpStatus_index status = 0) :
    CallOutcome f (f.Encode_HttpStatusMetadata status) f.compressor
      (literalNewNameBytes 0x40 GRPC_MDSTR_STATUS (plainValuePrefix (gpr_ltoa status))
        (gpr_ltoa status)) := by
  unfold Framer.Encode_HttpStatusMetadata
  simp only [h200, hidx, if_false, ne_eq, not_true_eq_false]
  exact Framer.incIdx_outcome f f.compressor GRPC_MDSTR_STATUS (gpr_ltoa status)

/-- C1 at the failing input. `Encode(:status, 201)` on a new compressor emits one
HEADERS frame whose payload is a literal with incremental indexing (first byte
0x40) and leaves the compressor, its table included, as it was: `AllocateIndex`
is not called, while the same-sized allocation that `Encode(grpc-status, 0)`
makes moves `next_index` from 62 to 63. -/
theorem Encode_HttpStatus_emits_incidx_without_AllocateIndex :
    ((demoFramer 16384).Encode_HttpStatusMetadata 201).map
        (fun g => (g.FinishFrame true).output) =
      some (wireFrames
        [{ type := 1, flags := 5, stream_id := 3,
           payload := [0x40, 7, 58, 115, 116, 97, 116, 117, 115, 3, 50, 48, 49] }]) ∧
    ((demoFramer 16384).Encode_HttpStatusMetadata 201).map (fun g => g.compressor) =
      some (demoFramer 16384).compressor ∧
    (demoFramer 16384).compressor.table.next_index = 62 ∧
    ((demoFramer 16384).Encode_GrpcStatusMetadata 0).map
        (fun g => ((g.FinishFrame true).output, g.compressor.table.next_index)) =
      some (wireFrames
        [{ type := 1, flags := 5, stream_id := 3,
           payload := [0x40, 11, 103, 114, 112, 99, 45, 115, 116, 97, 116, 117, 115, 1, 48] }],
        63) := by
  refine ⟨by decide, by rfl, by decide, by decide⟩

/-! ## The setters of the table size -/

theorem HPackEncoderTable.evictUntilFits_max_size (need : Nat) :
    ∀ (n : Nat) (t : HPackEncoderTable), (EvictUntilFits need n t).max_size = t.max_size := by
  intro n
  induction n with
  | zero => intro t; rfl
  | succ n ih =>
    intro t
    unfold EvictUntilFits
    split_ifs
    · rfl
    · rw [ih]
      unfold EvictOne
      split <;> rfl

theorem HPackEncoderTable.setMaxSize_max_size (t : HPackEncoderTable) (n : Nat) :
    (t.SetMaxSize n).2.max_size = n ∧ (t.SetMaxSize n).1 = (n != t.max_size) := by
  unfold SetMaxSize
  exact ⟨by simp [evictUntilFits_max_size], rfl⟩

theorem HPackCompressor.setMaxTableSize_eq (c : HPackCompressor) (n : Nat) :
    c.SetMaxTableSize n =
      if (c.table.SetMaxSize (min c.max_usable_size n)).1 = true then
        { c with table := (c.table.SetMaxSize (min c.max_usable_size n)).2
                 advertise_table_size_change := true }
      else { c with table := (c.table.SetMaxSize (min c.max_usable_size n)).2 } := rfl

theorem HPackCompressor.setMaxTableSize_spec (c : HPackCompressor) (n : Nat) :
    (c.SetMaxTableSize n).table.max_size = min c.max_usable_size n ∧
    (c.SetMaxTableSize n).max_usable_size = c.max_usable_size ∧
    (c.SetMaxTableSize n).advertise_table_size_change =
      (c.advertise_table_size_change || (min c.max_usable_size n != c.table.max_size)) := by
  have h := c.table.setMaxSize_max_size (min c.max_usable_size n)
  rw [setMaxTableSize_eq, ← h.2]
  split_ifs with hne
  · exact ⟨h.1, rfl, by rw [hne]; simp⟩
  · simp only [Bool.not_eq_true] at hne
    exact ⟨h.1, rfl, by rw [hne]; simp⟩

theorem HPackCompressor.setMaxUsableSize_spec (c : HPackCompressor) (u : Nat) :
    (c.SetMaxUsableSize u).table.max_size = min c.table.max_size u ∧
    (c.SetMaxUsableSize u).max_usable_size = u := by
  unfold SetMaxUsableSize
  have h := setMaxTableSize_spec { c with max_usable_size := u } (min c.table.max_size u)
  refine ⟨?_, h.2.1⟩
  rw [h.1]
  show min u (min c.table.max_size u) = _
  omega

theorem HPackCompressor.calls_max_size : ∀ (xs : List TableCall) (c : HPackCompressor)
    (peer : Nat), c.table.max_size = min peer c.max_usable_size →
    usableNeverRaised c.max_usable_size xs →
    (c.calls xs).table.max_size =
        min (lastMaxTableSize peer xs) (lastMaxUsableSize c.max_usable_size xs) ∧
      (c.calls xs).max_usable_size = lastMaxUsableSize c.max_usable_size xs
  | [], c, peer, h, _ => ⟨h, rfl⟩
  | TableCall.SetMaxTableSize n :: xs, c, peer, _, hu => by
    have hs := c.setMaxTableSize_spec n
    have ih := calls_max_size xs (c.SetMaxTableSize n) n
      (by rw [hs.1, hs.2.1]; omega) (by rw [hs.2.1]; exact hu)
    rw [hs.2.1] at ih
    exact ih
  | TableCall.SetMaxUsableSize u :: xs, c, peer, h, hu => by
    have hs := c.setMaxUsableSize_spec u
    have hle : u ≤ c.max_usable_size := hu.1
    have ih := calls_max_size xs (c.SetMaxUsableSize u) peer
      (by rw [hs.1, hs.2, h]; omega) (by rw [hs.2]; exact hu.2)
    rw [hs.2] at ih
    exact ih

/-- C9, as amended. After `SetMaxTableSize(n)` the maximum size of the table is
`min(max_usable_size_, n)`; after `SetMaxUsableSize(u)` it is the minimum of its
previous value and `u`. Hence, from a state whose table maximum is at most
`max_usable_size_` (as at construction), after every sequence of calls in which
no `SetMaxUsableSize` call raises `max_usable_size_`, the maximum size of the
table is `min(max_size, max_usable_size)` for the values passed to the most
recent calls of the two setters (the initial values where there is no call). -/
theorem table_max_size_after_setters (c : HPackCompressor) :
    (∀ n, (c.SetMaxTableSize n).table.max_size = min c.max_usable_size n) ∧
    (∀ u, (c.SetMaxUsableSize u).table.max_size = min c.table.max_size u) ∧
    (∀ xs, c.table.max_size ≤ c.max_usable_size → usableNeverRaised c.max_usable_size xs →
      (c.calls xs).table.max_size =
        min (lastMaxTableSize c.table.max_size xs)
          (lastMaxUsableSize c.max_usable_size xs)) :=
  ⟨fun n => (c.setMaxTableSize_spec n).1, fun u => (c.setMaxUsableSize_spec u).1,
    fun xs h hu => (HPackCompressor.calls_max_size xs c c.table.max_size (by omega) hu).1⟩

/-- C9 on a new compressor: the hypotheses hold for a sequence that lowers the
cap, and the table maximum is the minimum of the two most recent values. -/
theorem table_max_size_after_setters_witness :
    (HPackCompressor.init.table.max_size ≤ HPackCompressor.init.max_usable_size ∧
      usableNeverRaised HPackCompressor.init.max_usable_size
        [TableCall.SetMaxUsableSize 1000, TableCall.SetMaxTableSize 2000,
         TableCall.SetMaxUsableSize 500]) ∧
    (HPackCompressor.init.calls
        [TableCall.SetMaxUsableSize 1000, TableCall.SetMaxTableSize 2000,
         TableCall.SetMaxUsableSize 500]).table.max_size = min 2000 500 := by
  have hu : usableNeverRaised HPackCompressor.init.max_usable_size
      [TableCall.SetMaxUsableSize 1000, TableCall.SetMaxTableSize 2000,
       TableCall.SetMaxUsableSize 500] := by decide
  exact ⟨⟨by decide, hu⟩,
    (table_max_size_after_setters HPackCompressor.init).2.2 _ (by decide) hu⟩

/-- C9 as stated fails: after `SetMaxTableSize(100)`, `SetMaxUsableSize(50)`,
`SetMaxUsableSize(200)` the maximum size of the table is 50, not
`min(100, 200)`: the second `SetMaxUsableSize` takes the minimum with the table
maximum that the first one had lowered. -/
theorem table_max_size_not_min_of_latest_arguments :
    (HPackCompressor.init.calls
        [TableCall.SetMaxTableSize 100, TableCall.SetMaxUsableSize 50,
         TableCall.SetMaxUsableSize 200]).table.max_size = 50 ∧
    lastMaxTableSize 4096
        [TableCall.SetMaxTableSize 100, TableCall.SetMaxUsableSize 50,
         TableCall.SetMaxUsableSize 200] = 100 ∧
    lastMaxUsableSize 4096
        [TableCall.SetMaxTableSize 100, TableCall.SetMaxUsableSize 50,
         TableCall.SetMaxUsableSize 200] = 200 ∧
    (50 : Nat) ≠ min 100 200 := by
  refine ⟨by decide, by decide, by decide, by decide⟩

theorem tableSizeUpdateBytes_first (max_size : Nat) :
    (∃ b rest, tableSizeUpdateBytes max_size = b :: rest ∧ b / 32 = 1) ∧
    (max_size = 0 → tableSizeUpdateBytes max_size = [0x20]) := by
  have hsmall : ∀ v < 31, (0x20 ||| v) / 32 = 1 := by decide
  unfold tableSizeUpdateBytes VarintWriter.Write
  have hk : VarintWriter.kMaxInPrefix { kPrefixBits := 3, value := max_size } = 31 := rfl
  rw [hk]
  constructor
  · split_ifs with h
    · exact ⟨_, _, rfl, hsmall _ h⟩
    · exact ⟨_, _, rfl, by decide⟩
  · intro h0
    subst h0
    rfl

theorem Framer.new_of_no_advertisement (options : EncodeHeaderOptions)
    (c : HPackCompressor) (output : List Nat) (h : c.advertise_table_size_change = false) :
    Framer.new options c output = Framer.begun options c output := by
  rw [Framer.new_unfold, if_neg (by simp [h])]

/-- C8, as amended. If `SetMaxTableSize(n)` is called between two header sets
and changes the maximum size of the table (`min(max_usable_size_, n)` differs
from the current maximum) or an advertisement is already pending, the HPACK
byte stream of the next framer is, before any other representation, a Dynamic
Table Size Update: first byte 001xxxxx, the 5-bit-prefix integer of the new
maximum size `min(max_usable_size_, n)`, the single byte 0x20 when that is 0.
Constructing that framer clears the pending flag, and a following framer
constructed on its compressor emits nothing. If the call changes nothing and no
advertisement is pending, the next framer emits no size update. -/
theorem table_size_update_leads_next_header_block (c : HPackCompressor) (n : Nat)
    (options : EncodeHeaderOptions) (output : List Nat) :
    (min c.max_usable_size n ≠ c.table.max_size ∨ c.advertise_table_size_change = true →
      ∃ fs cur, (Framer.new options (c.SetMaxTableSize n) output).Layout output fs cur ∧
        payloads fs ++ cur = tableSizeUpdateBytes (min c.max_usable_size n) ∧
        (∃ b rest, payloads fs ++ cur = b :: rest ∧ b / 32 = 1) ∧
        (min c.max_usable_size n = 0 → payloads fs ++ cur = [0x20]) ∧
        (Framer.new options (c.SetMaxTableSize n) output).compressor.table.max_size =
          min c.max_usable_size n ∧
        (Framer.new options (c.SetMaxTableSize n) output).compressor.advertise_table_size_change
          = false ∧
        ∀ (options2 : EncodeHeaderOptions) (output2 : List Nat),
          (Framer.new options2 (Framer.new options (c.SetMaxTableSize n) output).compressor
            output2).Layout output2 [] []) ∧
    (min c.max_usable_size n = c.table.max_size → c.advertise_table_size_change = false →
      (Framer.new options (c.SetMaxTableSize n) output).Layout output [] []) := by
  have hs := c.setMaxTableSize_spec n
  have happ := Framer.begun_appends_new options (c.SetMaxTableSize n) output
  have hcomp : (Framer.new options (c.SetMaxTableSize n) output).compressor =
      { c.SetMaxTableSize n with advertise_table_size_change := false } := happ.same.compressor
  constructor
  · intro h
    have hadv : (c.SetMaxTableSize n).advertise_table_size_change = true := by
      rw [hs.2.2]
      rcases h with h | h
      · simp [h]
      · simp [h]
    have hbytes : advertisedBytes (c.SetMaxTableSize n) =
        tableSizeUpdateBytes (min c.max_usable_size n) := by
      unfold advertisedBytes tableSizeUpdateBytes
      rw [if_pos hadv, hs.1]
    obtain ⟨chunks, cur, l, e, -, -⟩ :=
      happ.layout output [] [] (Framer.begun_layout _ _ _)
    have hp : payloads (Framer.framesOf (Framer.begun options (c.SetMaxTableSize n) output)
        chunks) ++ cur = tableSizeUpdateBytes (min c.max_usable_size n) := by
      rw [Framer.framesOf, payloads_framesOf, e, hbytes]; rfl
    have hfirst := tableSizeUpdateBytes_first (min c.max_usable_size n)
    refine ⟨_, cur, by simpa using l, hp, by rw [hp]; exact hfirst.1,
      fun h0 => by rw [hp]; exact hfirst.2 h0, by rw [hcomp]; exact hs.1, by rw [hcomp], ?_⟩
    intro options2 output2
    rw [Framer.new_of_no_advertisement _ _ _ (by rw [hcomp])]
    exact Framer.begun_layout _ _ _
  · intro heq hno
    have hadv : (c.SetMaxTableSize n).advertise_table_size_change = false := by
      rw [hs.2.2, hno, heq]; simp
    rw [Framer.new_of_no_advertisement _ _ _ hadv]
    exact Framer.begun_layout _ _ _

/-- C8 on a new compressor: `SetMaxTableSize(0)` changes the maximum size, and
the HPACK byte stream of the next framer is the single byte 0x20. -/
theorem table_size_update_leads_next_header_block_witness :
    (min HPackCompressor.init.max_usable_size 0 ≠ HPackCompressor.init.table.max_size ∨
      HPackCompressor.init.advertise_table_size_change = true) ∧
    ∃ fs cur,
      (Framer.new (demoOptions 16384) (HPackCompressor.init.SetMaxTableSize 0) []).Layout []
        fs cur ∧
      payloads fs ++ cur = [0x20] := by
  have h : min HPackCompressor.init.max_usable_size 0 ≠ HPackCompressor.init.table.max_size ∨
      HPackCompressor.init.advertise_table_size_change = true := Or.inl (by decide)
  obtain ⟨fs, cur, l, -, -, h0, -⟩ :=
    (table_size_update_leads_next_header_block HPackCompressor.init 0 (demoOptions 16384)
      []).1 h
  exact ⟨h, fs, cur, l, h0 (by decide)⟩

/-- C8 as stated fails for the `n` that changes nothing: after
`SetMaxTableSize(4096)` on a new compressor the next framer emits no size
update, and the header block of `:method: GET` is the single byte 0x82. -/
theorem no_table_size_update_when_size_unchanged :
    (Framer.new (demoOptions 16384) (HPackCompressor.init.SetMaxTableSize 4096) []).output =
      [0, 0, 0, 0, 0, 0, 0, 0, 0] ∧
    ((Framer.new (demoOptions 16384) (HPackCompressor.init.SetMaxTableSize 4096)
        []).Encode_HttpMethodMetadata Framer.HttpMethodValueType.kGet).map
        (fun g => (g.FinishFrame true).output) =
      some (wireFrames [{ type := 1, flags := 5, stream_id := 3, payload := [0x82] }]) := by
  refine ⟨by decide, by decide⟩

/-! ## Literals with an indexed name, and the literals of the generic path -/

theorem store_two (X A B : List Nat) :
    store (store (X ++ List.replicate (A.length + B.length) 0) X.length A)
      (X.length + A.length) B = X ++ (A ++ B) := by
  have e : X ++ List.replicate (A.length + B.length) 0 =
      X ++ (List.replicate A.length 0 ++ List.replicate B.length 0) := by
    rw [List.replicate_add]
  rw [e, store_mid X (List.replicate A.length 0) _ A (by simp)]
  have h := store_mid (X ++ A) (List.replicate B.length 0) [] B (by simp)
  simp only [List.append_nil, List.length_append, List.append_assoc] at h
  exact h

theorem Framer.addTiny_write_two (f : Framer) (a b : Nat) (A B : List Nat)
    (hA : A.length = a) (hB : B.length = b) :
    ((f.AddTiny (a + b)).2.Write (f.AddTiny (a + b)).1 A).Write ((f.AddTiny (a + b)).1 + a) B =
      f.AddTinyBytes (A ++ B) := by
  subst hA hB
  rw [addTinyBytes_eq]
  simp [AddTiny, Write, grpc_slice_buffer_tiny_add, store_two]

theorem Framer.appends_emitIndexedName {f g : Framer} {name_field value_pfx value_data : List Nat}
    (h : f.emitIndexedName name_field value_pfx value_data = some g) :
    f.Appends g (name_field ++ (value_pfx ++ value_data)) := by
  have a := appends_trans (appends_addTinyBytes f (name_field ++ value_pfx)) (appends_add h)
  rw [List.append_assoc] at a
  exact a

theorem Framer.emitIndexedName_isSome (f : Framer) (name_field value_pfx value_data : List Nat)
    (hM : 1 ≤ f.max_frame_size) :
    (f.emitIndexedName name_field value_pfx value_data).isSome :=
  add_isSome _ _ (by rw [(appends_addTinyBytes _ _).same.max_frame_size]; exact hM)

theorem Framer.emitLitHdrIncIdx_eq (env : Collaborators) (f : Framer) (key_index : Nat)
    (elem : grpc_mdelem) :
    f.EmitLitHdrIncIdx env key_index elem =
      f.emitIndexedName (VarintWriter.Write { kPrefixBits := 2, value := key_index } 0x40)
        (StringValue.new env (grpc_is_binary_header_internal elem.key) elem.value
          f.use_true_binary_metadata).WritePrefix
        (StringValue.new env (grpc_is_binary_header_internal elem.key) elem.value
          f.use_true_binary_metadata).data := by
  unfold EmitLitHdrIncIdx emitIndexedName
  simp only []
  rw [addTiny_write_two f _ _ _ _ (VarintWriter.length_write _ _)
    (stringValue_writePrefix_length _)]

theorem Framer.emitLitHdrNotIdx_eq (env : Collaborators) (f : Framer) (key_index : Nat)
    (elem : grpc_mdelem) :
    f.EmitLitHdrNotIdx env key_index elem =
      f.emitIndexedName (VarintWriter.Write { kPrefixBits := 4, value := key_index } 0x00)
        (StringValue.new env (grpc_is_binary_header_internal elem.key) elem.value
          f.use_true_binary_metadata).WritePrefix
        (StringValue.new env (grpc_is_binary_header_internal elem.key) elem.value
          f.use_true_binary_metadata).data := by
  unfold EmitLitHdrNotIdx emitIndexedName
  simp only []
  rw [addTiny_write_two f _ _ _ _ (VarintWriter.length_write _ _)
    (stringValue_writePrefix_length _)]

theorem Framer.emitLitHdrWithBinaryStringKeyNotIdx_indexed_eq (env : Collaborators) (f : Framer)
    (key_index : Nat) (value : List Nat) :
    f.EmitLitHdrWithBinaryStringKeyNotIdx_indexed env key_index value =
      f.emitIndexedName (VarintWriter.Write { kPrefixBits := 4, value := key_index } 0x00)
        (StringValue.newBinary env value f.use_true_binary_metadata).WritePrefix
        (StringValue.newBinary env value f.use_true_binary_metadata).data := by
  unfold EmitLitHdrWithBinaryStringKeyNotIdx_indexed emitIndexedName
  simp only []
  rw [addTiny_write_two f _ _ _ _ (VarintWriter.length_write _ _)
    (stringValue_writePrefix_length _)]

/-- The shape every `EmitLitHdrWith…StringKey…` function has, whatever the class
of its value: the prefix `P` of the value and its bytes `D` depend on the framer
through `use_true_binary_metadata` alone. -/
theorem Framer.newName_eq (f : Framer) (type : Nat) (key : List Nat) (n : Bool → Nat)
    (P D : Bool → List Nat) (hn : ∀ b, (P b).length = n b) :
    Option.bind
      (((f.AddTiny (StringKey.new key).prefix_length).2.Write
        (f.AddTiny (StringKey.new key).prefix_length).1
        ((StringKey.new key).WritePrefix type)).Add key)
      (fun f1 => ((f1.AddTiny (n f1.use_true_binary_metadata)).2.Write
        (f1.AddTiny (n f1.use_true_binary_metadata)).1 (P f1.use_true_binary_metadata)).Add
        (D f1.use_true_binary_metadata)) =
    f.emitNewName type key (P f.use_true_binary_metadata) (D f.use_true_binary_metadata) := by
  have e1 := addTiny_write f _ _ (stringKey_writePrefix_length key type)
  rw [e1]
  unfold emitNewName
  have e0 : (StringKey.new key).WritePrefix type =
      type :: VarintWriter.Write { kPrefixBits := 1, value := key.length } 0x00 := rfl
  rw [e0]
  cases h1 : (f.AddTinyBytes (type :: VarintWriter.Write
      { kPrefixBits := 1, value := key.length } 0x00)).Add key with
  | none => rfl
  | some f1 =>
    have hs :=
      (appends_trans (appends_addTinyBytes f _) (appends_add h1)).same.use_true_binary_metadata
    simp only [Option.some_bind, hs]
    rw [addTiny_write f1 _ _ (hn _)]

theorem Framer.emitLitHdrWithStringKeyIncIdx_eq (env : Collaborators) (f : Framer)
    (elem : grpc_mdelem) :
    f.EmitLitHdrWithStringKeyIncIdx env elem =
      f.emitNewName 0x40 elem.key
        (StringValue.new env (grpc_is_binary_header_internal elem.key) elem.value
          f.use_true_binary_metadata).WritePrefix
        (StringValue.new env (grpc_is_binary_header_internal elem.key) elem.value
          f.use_true_binary_metadata).data :=
  newName_eq f 0x40 elem.key
    (fun b => (StringValue.new env (grpc_is_binary_header_internal elem.key) elem.value
      b).prefix_length)
    (fun b => (StringValue.new env (grpc_is_binary_header_internal elem.key) elem.value
      b).WritePrefix)
    (fun b => (StringValue.new env (grpc_is_binary_header_internal elem.key) elem.value b).data)
    (fun _ => stringValue_writePrefix_length _)

theorem Framer.emitLitHdrWithStringKeyNotIdx_eq (env : Collaborators) (f : Framer)
    (elem : grpc_mdelem) :
    f.EmitLitHdrWithStringKeyNotIdx env elem =
      f.emitNewName 0x00 elem.key
        (StringValue.new env (grpc_is_binary_header_internal elem.key) elem.value
          f.use_true_binary_metadata).WritePrefix
        (StringValue.new env (grpc_is_binary_header_internal elem.key) elem.value
          f.use_true_binary_metadata).data :=
  newName_eq f 0x00 elem.key
    (fun b => (StringValue.new env (grpc_is_binary_header_internal elem.key) elem.value
      b).prefix_length)
    (fun b => (StringValue.new env (grpc_is_binary_header_internal elem.key) elem.value
      b).WritePrefix)
    (fun b => (StringValue.new env (grpc_is_binary_header_internal elem.key) elem.value b).data)
    (fun _ => stringValue_writePrefix_length _)

theorem Framer.emitLitHdrWithBinaryStringKeyNotIdx_eq (env : Collaborators) (f : Framer)
    (key value : List Nat) :
    f.EmitLitHdrWithBinaryStringKeyNotIdx env key value =
      f.emitNewName 0x00 key
        (StringValue.newBinary env value f.use_true_binary_metadata).WritePrefix
        (StringValue.newBinary env value f.use_true_binary_metadata).data :=
  newName_eq f 0x00 key
    (fun b => (StringValue.newBinary env value b).prefix_length)
    (fun b => (StringValue.newBinary env value b).WritePrefix)
    (fun b => (StringValue.newBinary env value b).data)
    (fun _ => stringValue_writePrefix_length _)

theorem Framer.emitNewName_outcome (f : Framer) (c : HPackCompressor) (type : Nat)
    (key value_pfx value_data : List Nat) :
    CallOutcome f (emitNewName { f with compressor := c } type key value_pfx value_data) c
      (literalNewNameBytes type key value_pfx value_data) := by
  constructor
  · intro hM
    exact Option.isSome_iff_exists.mp (emitNewName_isSome _ _ _ _ _ hM)
  · intro g hg
    have a := appends_emitNewName hg
    exact ⟨a.same.compressor, emitsHpack_of_compressor c (appends_emitsHpack a)⟩

theorem Framer.emitIndexedName_outcome (f : Framer) (c : HPackCompressor)
    (name_field value_pfx value_data : List Nat) :
    CallOutcome f (emitIndexedName { f with compressor := c } name_field value_pfx value_data) c
      (name_field ++ (value_pfx ++ value_data)) := by
  constructor
  · intro hM
    exact Option.isSome_iff_exists.mp (emitIndexedName_isSome _ _ _ _ hM)
  · intro g hg
    have a := appends_emitIndexedName hg
    exact ⟨a.same.compressor, emitsHpack_of_compressor c (appends_emitsHpack a)⟩

/-! ## The static table and the pseudo-headers -/

theorem indexedBytes_small (i : Nat) (h : i < 127) : indexedBytes i = [0x80 ||| i] := by
  unfold indexedBytes VarintWriter.Write VarintWriter.kMaxInPrefix
  rw [if_pos (by simpa using h)]

theorem Framer.emitIndexed_returns (f : Framer) (i : Nat) :
    CallReturns f (some (f.EmitIndexed i)) f.compressor (indexedBytes i) :=
  ⟨_, rfl, (appends_emitIndexed f i).same.compressor,
    appends_emitsHpack (appends_emitIndexed f i), (appends_emitIndexed f i).header_bytes⟩

theorem gpr_ltoa_digits_read : ∀ (k n : Nat) (acc : List Nat), n ≤ k →
    (gpr_ltoa_digits k n acc).foldl (fun a d => a * 10 + (d - 48)) 0 =
      acc.foldl (fun a d => a * 10 + (d - 48)) n := by
  intro k
  induction k with
  | zero =>
    intro n acc h
    have h0 : n = 0 := by omega
    subst h0
    simp [gpr_ltoa_digits]
  | succ k ih =>
    intro n acc h
    unfold gpr_ltoa_digits
    split_ifs with h10
    · simp
    · rw [ih (n / 10) _ (by omega)]
      simp only [List.foldl_cons]
      congr 1
      omega

theorem gpr_ltoa_digits_range : ∀ (k n : Nat) (acc : List Nat), n ≤ k →
    (∀ d ∈ acc, 48 ≤ d ∧ d ≤ 57) → ∀ d ∈ gpr_ltoa_digits k n acc, 48 ≤ d ∧ d ≤ 57 := by
  intro k
  induction k with
  | zero =>
    intro n acc h hacc d hd
    simp only [gpr_ltoa_digits, List.mem_cons] at hd
    rcases hd with rfl | hd
    · omega
    · exact hacc d hd
  | succ k ih =>
    intro n acc h hacc d hd
    unfold gpr_ltoa_digits at hd
    split_ifs at hd with h10
    · simp only [List.mem_cons] at hd
      rcases hd with rfl | hd
      · omega
      · exact hacc d hd
    · refine ih (n / 10) _ (by omega) ?_ d hd
      intro e he
      simp only [List.mem_cons] at he
      rcases he with rfl | he
      · omega
      · exact hacc e he

/-- The string `gpr_ltoa` gives is the decimal ASCII of the number. -/
theorem gpr_ltoa_decimal (n : Nat) :
    read_decimal (gpr_ltoa n) = n ∧ ∀ d ∈ gpr_ltoa n, 48 ≤ d ∧ d ≤ 57 :=
  ⟨by unfold read_decimal gpr_ltoa; rw [gpr_ltoa_digits_read n n [] le_rfl]; rfl,
    gpr_ltoa_digits_range n n [] le_rfl (by simp)⟩

theorem Framer.nonBinaryNotIdx_outcome (f : Framer) (c : HPackCompressor) (key value : List Nat) :
    CallOutcome f (EmitLitHdrWithNonBinaryStringKeyNotIdx { f with compressor := c } key value)
      c (literalNewNameBytes 0x00 key (plainValuePrefix value) value) := by
  rw [emitLitHdrWithNonBinaryStringKeyNotIdx_eq]
  exact emitNewName_outcome f c _ _ _ _

/-- C14: for an entry of the static storage class whose static index `i` is below
61, `Encode(md)` returns, emits exactly the one byte `0x80 | (i + 1)` and leaves
the compressor (the filter, both index caches and the dynamic table) as it was;
for every other entry `Encode(md)` is `EncodeDynamic(md)`. -/
theorem Encode_static_entry_emits_one_indexed_byte (env : Collaborators) (f : Framer)
    (md : grpc_mdelem) :
    (md.storage = grpc_mdelem_data_storage.GRPC_MDELEM_STORAGE_STATIC → md.static_index < 61 →
      CallReturns f (f.Encode env md) f.compressor [0x80 ||| (md.static_index + 1)]) ∧
    (¬ (md.storage = grpc_mdelem_data_storage.GRPC_MDELEM_STORAGE_STATIC ∧
        md.static_index < 61) → f.Encode env md = f.EncodeDynamic env md) := by
  constructor
  · intro hs hi
    have e : f.Encode env md = some (f.EmitIndexed (md.static_index + 1)) := by
      unfold Framer.Encode
      rw [if_pos ⟨hs, hi⟩]
    rw [e, ← indexedBytes_small (md.static_index + 1) (by omega)]
    exact Framer.emitIndexed_returns f _
  · intro h
    unfold Framer.Encode
    exact if_neg h

/-- C14 on the static entry `:method: GET` (static index 1) and a new compressor:
the byte is 0x82. -/
theorem Encode_static_entry_emits_one_indexed_byte_witness :
    CallReturns (demoFramer 16384)
      ((demoFramer 16384).Encode demoCollaborators
        { key := STR_METHOD, value := [71, 69, 84],
          storage := grpc_mdelem_data_storage.GRPC_MDELEM_STORAGE_STATIC,
          key_is_interned := true, hash := 9, key_hash := 4, static_index := 1 })
      HPackCompressor.init [0x82] :=
  (Encode_static_entry_emits_one_indexed_byte demoCollaborators (demoFramer 16384)
    { key := STR_METHOD, value := [71, 69, 84],
      storage := grpc_mdelem_data_storage.GRPC_MDELEM_STORAGE_STATIC,
      key_is_interned := true, hash := 9, key_hash := 4, static_index := 1 }).1 rfl (by decide)

/-- C15: `:method` GET and POST, `:scheme` http and https, and the seven
statuses of the static table are each emitted as one Indexed byte (0x82, 0x83,
0x86, 0x87, 0x88 and 0x89 to 0x8e) and leave the compressor unchanged; `:method`
PUT is the literal without indexing 0x00, 0x07, `:method`, 0x03, `PUT`; every
other status `s` is a literal with incremental indexing and the new name
`:status`, whose value is the decimal ASCII of `s`. -/
theorem pseudo_header_fast_paths (f : Framer) :
    CallReturns f (f.Encode_HttpMethodMetadata Framer.HttpMethodValueType.kGet)
      f.compressor [0x82] ∧
    CallReturns f (f.Encode_HttpMethodMetadata Framer.HttpMethodValueType.kPost)
      f.compressor [0x83] ∧
    CallReturns f (f.Encode_HttpSchemeMetadata Framer.HttpSchemeValueType.kHttp)
      f.compressor [0x86] ∧
    CallReturns f (f.Encode_HttpSchemeMetadata Framer.HttpSchemeValueType.kHttps)
      f.compressor [0x87] ∧
    CallReturns f (f.Encode_HttpStatusMetadata 200) f.compressor [0x88] ∧
    CallReturns f (f.Encode_HttpStatusMetadata 204) f.compressor [0x89] ∧
    CallReturns f (f.Encode_HttpStatusMetadata 206) f.compressor [0x8a] ∧
    CallReturns f (f.Encode_HttpStatusMetadata 304) f.compressor [0x8b] ∧
    CallReturns f (f.Encode_HttpStatusMetadata 400) f.compressor [0x8c] ∧
    CallReturns f (f.Encode_HttpStatusMetadata 404) f.compressor [0x8d] ∧
    CallReturns f (f.Encode_HttpStatusMetadata 500) f.compressor [0x8e] ∧
    CallOutcome f (f.Encode_HttpMethodMetadata Framer.HttpMethodValueType.kPut) f.compressor
      ([0x00, 0x07] ++ STR_METHOD ++ [0x03] ++ STR_PUT) ∧
    (∀ s : Nat, s ∉ [200, 204, 206, 304, 400, 404, 500] →
      CallOutcome f (f.Encode_HttpStatusMetadata s) f.compressor
        (literalNewNameBytes 0x40 GRPC_MDSTR_STATUS (plainValuePrefix (gpr_ltoa s))
          (gpr_ltoa s)) ∧
      read_decimal (gpr_ltoa s) = s ∧ ∀ d ∈ gpr_ltoa s, 48 ≤ d ∧ d ≤ 57) := by
  have ix : ∀ i : Nat, CallReturns f (some (f.EmitIndexed i)) f.compressor (indexedBytes i) :=
    Framer.emitIndexed_returns f
  refine ⟨ix 2, ix 3, ix 6, ix 7, ix 8, ix 9, ix 10, ix 11, ix 12, ix 13, ix 14, ?_, ?_⟩
  · exact Framer.nonBinaryNotIdx_outcome f f.compressor STR_METHOD STR_PUT
  · intro s hs
    simp only [List.mem_cons, List.mem_singleton, List.not_mem_nil, or_false, not_or] at hs
    obtain ⟨h1, h2, h3, h4, h5, h6, h7⟩ := hs
    refine ⟨?_, gpr_ltoa_decimal s⟩
    have e : f.Encode_HttpStatusMetadata s =
        Framer.EmitLitHdrWithNonBinaryStringKeyIncIdx { f with compressor := f.compressor }
          GRPC_MDSTR_STATUS (gpr_ltoa s) := by
      unfold Framer.Encode_HttpStatusMetadata Framer.HttpStatus_index
      simp [h1, h2, h3, h4, h5, h6, h7]
    rw [e]
    exact Framer.incIdx_outcome f f.compressor GRPC_MDSTR_STATUS (gpr_ltoa s)

/-- C15 on a new compressor: the status 201 is the literal with incremental
indexing 0x40, 0x07, `:status`, 0x03, `201`. -/
theorem pseudo_header_fast_paths_witness :
    201 ∉ [200, 204, 206, 304, 400, 404, 500] ∧
    CallOutcome (demoFramer 16384) ((demoFramer 16384).Encode_HttpStatusMetadata 201)
      HPackCompressor.init
      [0x40, 0x07, 58, 115, 116, 97, 116, 117, 115, 0x03, 50, 48, 49] ∧
    read_decimal (gpr_ltoa 201) = 201 :=
  ⟨by decide,
    ((pseudo_header_fast_paths (demoFramer 16384)).2.2.2.2.2.2.2.2.2.2.2.2 201 (by decide)).1,
    ((pseudo_header_fast_paths (demoFramer 16384)).2.2.2.2.2.2.2.2.2.2.2.2 201 (by decide)).2.1⟩

/-- C18: `Encode(GrpcStatusMetadata, code)`. A code below
`kNumCachedGrpcStatusValues` whose slot holds a live index is emitted Indexed
with the wire index of the slot and nothing changes; a code below it whose slot
is not live takes a new index for the size 11 + digits + 32, stored in the slot
of `code` alone, and is emitted as a literal with incremental indexing and the
new name `grpc-status`; a code from `kNumCachedGrpcStatusValues` on is emitted
as a literal without indexing and the new name, and nothing changes. The value
of both literals is the decimal ASCII of `code`. -/
theorem Encode_GrpcStatus_three_cases (f : Framer) (code : Nat) :
    (code < kNumCachedGrpcStatusValues f.compressor →
      f.compressor.table.ConvertableToDynamicIndex
        (f.compressor.cached_grpc_status.getD code 0) = true →
      CallReturns f (f.Encode_GrpcStatusMetadata code) f.compressor
        (indexedBytes (f.compressor.table.DynamicIndex
          (f.compressor.cached_grpc_status.getD code 0)))) ∧
    (code < kNumCachedGrpcStatusValues f.compressor →
      f.compressor.table.ConvertableToDynamicIndex
        (f.compressor.cached_grpc_status.getD code 0) = false →
      CallOutcome f (f.Encode_GrpcStatusMetadata code)
        { f.compressor with
          table := (f.compressor.table.AllocateIndex (11 + (gpr_ltoa code).length + 32)).2,
          cached_grpc_status := f.compressor.cached_grpc_status.set code
            (f.compressor.table.AllocateIndex (11 + (gpr_ltoa code).length + 32)).1 }
        (literalNewNameBytes 0x40 GrpcStatusMetadata_key (plainValuePrefix (gpr_ltoa code))
          (gpr_ltoa code)) ∧
      (f.compressor.cached_grpc_status.set code
        (f.compressor.table.AllocateIndex (11 + (gpr_ltoa code).length + 32)).1).getD code 0 =
        (f.compressor.table.AllocateIndex (11 + (gpr_ltoa code).length + 32)).1 ∧
      ∀ j, j ≠ code →
        (f.compressor.cached_grpc_status.set code
          (f.compressor.table.AllocateIndex (11 + (gpr_ltoa code).length + 32)).1).getD j 0 =
        f.compressor.cached_grpc_status.getD j 0) ∧
    (kNumCachedGrpcStatusValues f.compressor ≤ code →
      CallOutcome f (f.Encode_GrpcStatusMetadata code) f.compressor
        (literalNewNameBytes 0x00 GrpcStatusMetadata_key (plainValuePrefix (gpr_ltoa code))
          (gpr_ltoa code))) ∧
    GrpcStatusMetadata_key = [103, 114, 112, 99, 45, 115, 116, 97, 116, 117, 115] ∧
    read_decimal (gpr_ltoa code) = code ∧ ∀ d ∈ gpr_ltoa code, 48 ≤ d ∧ d ≤ 57 := by
  refine ⟨?_, ?_, ?_, rfl, gpr_ltoa_decimal code⟩
  · intro hc hl
    have e : f.Encode_GrpcStatusMetadata code = some (f.EmitIndexed
        (f.compressor.table.DynamicIndex (f.compressor.cached_grpc_status.getD code 0))) := by
      unfold Framer.Encode_GrpcStatusMetadata
      simp only [hc, hl, decide_True, Bool.and_self, if_true]
    rw [e]
    exact Framer.emitIndexed_returns f _
  · intro hc hl
    refine ⟨?_, ?_, ?_⟩
    · have e : f.Encode_GrpcStatusMetadata code =
          Framer.EmitLitHdrWithNonBinaryStringKeyIncIdx
            { f with compressor := { f.compressor with
              table := (f.compressor.table.AllocateIndex (11 + (gpr_ltoa code).length + 32)).2,
              cached_grpc_status := f.compressor.cached_grpc_status.set code
                (f.compressor.table.AllocateIndex (11 + (gpr_ltoa code).length + 32)).1 } }
            GrpcStatusMetadata_key (gpr_ltoa code) := by
        unfold Framer.Encode_GrpcStatusMetadata
        simp only [hc, hl, decide_True, Bool.and_false, Bool.false_eq_true, if_false, if_true]
        rfl
      rw [e]
      exact Framer.incIdx_outcome f _ _ _
    · have hlen : code < f.compressor.cached_grpc_status.length := hc
      simp [List.getD_eq_getElem?_getD, hlen]
    · intro j hj
      simp [List.getD_eq_getElem?_getD, List.getElem?_set_ne (Ne.symm hj)]
  · intro hc
    have e : f.Encode_GrpcStatusMetadata code =
        Framer.EmitLitHdrWithNonBinaryStringKeyNotIdx { f with compressor := f.compressor }
          GrpcStatusMetadata_key (gpr_ltoa code) := by
      unfold Framer.Encode_GrpcStatusMetadata
      simp only [Nat.not_lt.mpr hc, decide_False, Bool.false_and, Bool.false_eq_true, if_false]
    rw [e]
    exact Framer.nonBinaryNotIdx_outcome f f.compressor _ _

/-- C18 on a new compressor: the code 0 has an empty slot, so it takes the index
62, kept in slot 0, and is emitted as 0x40, 0x0b, `grpc-status`, 0x01, `0`; the
code 16 is beyond the slots and is emitted as 0x00, 0x0b, `grpc-status`, 0x02,
`16`. -/
theorem Encode_GrpcStatus_three_cases_witness :
    (0 < kNumCachedGrpcStatusValues (demoFramer 16384).compressor ∧
      (demoFramer 16384).compressor.table.ConvertableToDynamicIndex
        ((demoFramer 16384).compressor.cached_grpc_status.getD 0 0) = false ∧
      kNumCachedGrpcStatusValues (demoFramer 16384).compressor ≤ 16) ∧
    (∃ c, CallOutcome (demoFramer 16384) ((demoFramer 16384).Encode_GrpcStatusMetadata 0) c
        [0x40, 0x0b, 103, 114, 112, 99, 45, 115, 116, 97, 116, 117, 115, 0x01, 48] ∧
      c.cached_grpc_status.getD 0 0 = 62) ∧
    CallOutcome (demoFramer 16384) ((demoFramer 16384).Encode_GrpcStatusMetadata 16)
      HPackCompressor.init
      [0x00, 0x0b, 103, 114, 112, 99, 45, 115, 116, 97, 116, 117, 115, 0x02, 49, 54] :=
  ⟨⟨by decide, by decide, by decide⟩,
    ⟨_, ((Encode_GrpcStatus_three_cases (demoFramer 16384) 0).2.1 (by decide) (by decide)).1,
      by decide⟩,
    (Encode_GrpcStatus_three_cases (demoFramer 16384) 16).2.2.1 (by decide)⟩

/-! ## The value of a literal and the first byte of a representation -/

theorem StringValue.wire_eq_valueField (env : Collaborators) (is_binary : Bool) (v : List Nat)
    (true_binary : Bool) :
    (StringValue.new env is_binary v true_binary).WritePrefix ++
      (StringValue.new env is_binary v true_binary).data =
      valueField env is_binary true_binary v := by
  cases is_binary <;> cases true_binary <;>
    simp [StringValue.new, StringValue.WritePrefix, StringValue.data, GetWireValue,
      WireValue.new, valueField, lengthPrefixed,
      Collaborators.grpc_chttp2_base64_encode_and_huffman_compress]

theorem StringValue.newBinary_wire_eq_valueField (env : Collaborators) (v : List Nat)
    (true_binary : Bool) :
    (StringValue.newBinary env v true_binary).WritePrefix ++
      (StringValue.newBinary env v true_binary).data =
      valueField env true true_binary v :=
  StringValue.wire_eq_valueField env true v true_binary

theorem plainValue_eq_valueField (env : Collaborators) (v : List Nat) (true_binary : Bool) :
    plainValuePrefix v ++ v = valueField env false true_binary v := rfl

theorem VarintWriter.write_first (k v high : Nat) :
    ∃ tl, VarintWriter.Write { kPrefixBits := k, value := v } high =
      (high ||| min v (2 ^ (8 - k) - 1)) :: tl := by
  unfold VarintWriter.Write VarintWriter.kMaxInPrefix
  split_ifs with h
  · exact ⟨[], by rw [Nat.min_eq_left (Nat.le_of_lt h)]⟩
  · exact ⟨_, by rw [Nat.min_eq_right (Nat.le_of_not_lt h)]⟩

theorem first_byte_forms :
    (∀ m, m ≤ 127 → (0x80 ||| m) / 128 = 1) ∧ (∀ m, m ≤ 63 → (0x40 ||| m) / 64 = 1) ∧
    (∀ m, m ≤ 15 → (0x00 ||| m) / 16 = 0) ∧ (∀ m, m ≤ 31 → (0x20 ||| m) / 32 = 1) ∧
    (∀ m, m ≤ 127 → (0x00 ||| m) / 128 = 0) := by
  refine ⟨by decide, by decide, by decide, by decide, by decide⟩

theorem varint_read_tail_write : ∀ (n v : Nat) (rest : List Nat), v ≤ n →
    varint_read_tail (VarintWriteTail n v ++ rest) = v := by
  intro n
  induction n with
  | zero =>
    intro v rest h
    have h0 : v = 0 := by omega
    subst h0
    simp [VarintWriteTail, varint_read_tail]
  | succ n ih =>
    intro v rest h
    unfold VarintWriteTail
    split_ifs with h128
    · simp [varint_read_tail, h128]
    · have hb : ¬ (v % 128 + 128 < 128) := by omega
      have e : varint_read_tail ((v % 128 + 128) :: (VarintWriteTail n (v / 128) ++ rest)) =
          (v % 128 + 128 - 128) + 128 * varint_read_tail (VarintWriteTail n (v / 128) ++ rest) := by
        rw [varint_read_tail, if_neg hb]
      rw [List.cons_append, e, ih (v / 128) rest (by omega)]
      omega

theorem varint_read_write7 (high n : Nat) (rest : List Nat)
    (hm : ∀ m, m ≤ 127 → (high ||| m) % 128 = m) :
    varint_read 1 (VarintWriter.Write { kPrefixBits := 1, value := n } high ++ rest) = n := by
  have e128 : 2 ^ (8 - 1) = 128 := by norm_num
  unfold VarintWriter.Write VarintWriter.kMaxInPrefix
  simp only [e128]
  by_cases h : n < 127
  · rw [if_pos h]
    show varint_read 1 ((high ||| n) :: rest) = n
    unfold varint_read
    simp only [e128]
    rw [hm n (by omega), if_pos h]
  · rw [if_neg h]
    show varint_read 1 ((high ||| 127) :: (VarintWriteTail n (n - 127) ++ rest)) = n
    unfold varint_read
    simp only [e128]
    rw [hm 127 (by omega), if_neg (by omega), varint_read_tail_write n (n - 127) rest (by omega)]
    omega

/-- A length written under the 7-bit prefix, with the Huffman bit set or clear,
reads back as the same number, whatever follows it. -/
theorem varint_read_length (n : Nat) (rest : List Nat) :
    varint_read 1 (VarintWriter.Write { kPrefixBits := 1, value := n } 0x00 ++ rest) = n ∧
    varint_read 1 (VarintWriter.Write { kPrefixBits := 1, value := n } 0x80 ++ rest) = n :=
  ⟨varint_read_write7 0x00 n rest (by decide), varint_read_write7 0x80 n rest (by decide)⟩

/-! ## What each `Emit…` function writes -/

theorem literalNewNameBytes_eq (type : Nat) (key value_pfx value_data : List Nat) :
    literalNewNameBytes type key value_pfx value_data =
      type :: (lengthPrefixed 0x00 key ++ (value_pfx ++ value_data)) := by
  simp [literalNewNameBytes, lengthPrefixed]

theorem Framer.emitLitHdrIncIdx_outcome (env : Collaborators) (f : Framer) (key_index : Nat)
    (elem : grpc_mdelem) :
    CallOutcome f (f.EmitLitHdrIncIdx env key_index elem) f.compressor
      (VarintWriter.Write { kPrefixBits := 2, value := key_index } 0x40 ++
        valueField env (grpc_is_binary_header_internal elem.key) f.use_true_binary_metadata
          elem.value) := by
  rw [emitLitHdrIncIdx_eq, ← StringValue.wire_eq_valueField]
  exact emitIndexedName_outcome f f.compressor _ _ _

theorem Framer.emitLitHdrNotIdx_outcome (env : Collaborators) (f : Framer) (key_index : Nat)
    (elem : grpc_mdelem) :
    CallOutcome f (f.EmitLitHdrNotIdx env key_index elem) f.compressor
      (VarintWriter.Write { kPrefixBits := 4, value := key_index } 0x00 ++
        valueField env (grpc_is_binary_header_internal elem.key) f.use_true_binary_metadata
          elem.value) := by
  rw [emitLitHdrNotIdx_eq, ← StringValue.wire_eq_valueField]
  exact emitIndexedName_outcome f f.compressor _ _ _

theorem Framer.emitLitHdrWithBinaryStringKeyNotIdx_indexed_outcome (env : Collaborators)
    (f : Framer) (key_index : Nat) (value : List Nat) :
    CallOutcome f (f.EmitLitHdrWithBinaryStringKeyNotIdx_indexed env key_index value) f.compressor
      (VarintWriter.Write { kPrefixBits := 4, value := key_index } 0x00 ++
        valueField env true f.use_true_binary_metadata value) := by
  rw [emitLitHdrWithBinaryStringKeyNotIdx_indexed_eq, ← StringValue.newBinary_wire_eq_valueField]
  exact emitIndexedName_outcome f f.compressor _ _ _

theorem Framer.emitLitHdrWithStringKeyIncIdx_outcome (env : Collaborators) (f : Framer)
    (elem : grpc_mdelem) :
    CallOutcome f (f.EmitLitHdrWithStringKeyIncIdx env elem) f.compressor
      (0x40 :: (lengthPrefixed 0x00 elem.key ++
        valueField env (grpc_is_binary_header_internal elem.key) f.use_true_binary_metadata
          elem.value)) := by
  rw [emitLitHdrWithStringKeyIncIdx_eq, ← StringValue.wire_eq_valueField,
    ← literalNewNameBytes_eq]
  exact emitNewName_outcome f f.compressor _ _ _ _

theorem Framer.emitLitHdrWithStringKeyNotIdx_outcome (env : Collaborators) (f : Framer)
    (elem : grpc_mdelem) :
    CallOutcome f (f.EmitLitHdrWithStringKeyNotIdx env elem) f.compressor
      (0x00 :: (lengthPrefixed 0x00 elem.key ++
        valueField env (grpc_is_binary_header_internal elem.key) f.use_true_binary_metadata
          elem.value)) := by
  rw [emitLitHdrWithStringKeyNotIdx_eq, ← StringValue.wire_eq_valueField,
    ← literalNewNameBytes_eq]
  exact emitNewName_outcome f f.compressor _ _ _ _

theorem Framer.emitLitHdrWithNonBinaryStringKeyIncIdx_outcome (env : Collaborators) (f : Framer)
    (key value : List Nat) :
    CallOutcome f (f.EmitLitHdrWithNonBinaryStringKeyIncIdx key value) f.compressor
      (0x40 :: (lengthPrefixed 0x00 key ++
        valueField env false f.use_true_binary_metadata value)) := by
  rw [← plainValue_eq_valueField, ← literalNewNameBytes_eq]
  exact incIdx_outcome f f.compressor key value

theorem Framer.emitLitHdrWithNonBinaryStringKeyNotIdx_outcome (env : Collaborators) (f : Framer)
    (key value : List Nat) :
    CallOutcome f (f.EmitLitHdrWithNonBinaryStringKeyNotIdx key value) f.compressor
      (0x00 :: (lengthPrefixed 0x00 key ++
        valueField env false f.use_true_binary_metadata value)) := by
  rw [← plainValue_eq_valueField, ← literalNewNameBytes_eq]
  exact nonBinaryNotIdx_outcome f f.compressor key value

theorem Framer.emitLitHdrWithBinaryStringKeyIncIdx_outcome (env : Collaborators) (f : Framer)
    (key value : List Nat) :
    CallOutcome f (f.EmitLitHdrWithBinaryStringKeyIncIdx env key value) f.compressor
      (0x40 :: (lengthPrefixed 0x00 key ++
        valueField env true f.use_true_binary_metadata value)) := by
  rw [← StringValue.newBinary_wire_eq_valueField, ← literalNewNameBytes_eq]
  exact binaryIncIdx_outcome env f f.compressor key value

theorem Framer.emitLitHdrWithBinaryStringKeyNotIdx_outcome (env : Collaborators) (f : Framer)
    (key value : List Nat) :
    CallOutcome f (f.EmitLitHdrWithBinaryStringKeyNotIdx env key value) f.compressor
      (0x00 :: (lengthPrefixed 0x00 key ++
        valueField env true f.use_true_binary_metadata value)) := by
  rw [emitLitHdrWithBinaryStringKeyNotIdx_eq, ← StringValue.newBinary_wire_eq_valueField,
    ← literalNewNameBytes_eq]
  exact emitNewName_outcome f f.compressor _ _ _ _

/-- C19: every function that emits a literal writes, after the name, the value
field `valueField`: a length under the 7-bit prefix that is the number of bytes
that follow it (a decoder reads that number back), then those bytes. Under a key
that is not binary they are `v`, Huffman bit clear; under a binary key with
true-binary metadata the byte 0x00 and `v` (`|v| + 1` bytes), Huffman bit clear;
under a binary key without it `w = huffman_compress(base64url_encode(v))`,
Huffman bit set. -/
theorem value_length_field_counts_following_bytes (env : Collaborators) (f : Framer) :
    (∀ key_index elem, CallOutcome f (f.EmitLitHdrIncIdx env key_index elem) f.compressor
      (VarintWriter.Write { kPrefixBits := 2, value := key_index } 0x40 ++
        valueField env (grpc_is_binary_header_internal elem.key) f.use_true_binary_metadata
          elem.value)) ∧
    (∀ key_index elem, CallOutcome f (f.EmitLitHdrNotIdx env key_index elem) f.compressor
      (VarintWriter.Write { kPrefixBits := 4, value := key_index } 0x00 ++
        valueField env (grpc_is_binary_header_internal elem.key) f.use_true_binary_metadata
          elem.value)) ∧
    (∀ key_index value,
      CallOutcome f (f.EmitLitHdrWithBinaryStringKeyNotIdx_indexed env key_index value)
        f.compressor
        (VarintWriter.Write { kPrefixBits := 4, value := key_index } 0x00 ++
          valueField env true f.use_true_binary_metadata value)) ∧
    (∀ elem, CallOutcome f (f.EmitLitHdrWithStringKeyIncIdx env elem) f.compressor
      (0x40 :: (lengthPrefixed 0x00 elem.key ++
        valueField env (grpc_is_binary_header_internal elem.key) f.use_true_binary_metadata
          elem.value))) ∧
    (∀ elem, CallOutcome f (f.EmitLitHdrWithStringKeyNotIdx env elem) f.compressor
      (0x00 :: (lengthPrefixed 0x00 elem.key ++
        valueField env (grpc_is_binary_header_internal elem.key) f.use_true_binary_metadata
          elem.value))) ∧
    (∀ key value, CallOutcome f (f.EmitLitHdrWithNonBinaryStringKeyIncIdx key value) f.compressor
      (0x40 :: (lengthPrefixed 0x00 key ++
        valueField env false f.use_true_binary_metadata value))) ∧
    (∀ key value, CallOutcome f (f.EmitLitHdrWithNonBinaryStringKeyNotIdx key value) f.compressor
      (0x00 :: (lengthPrefixed 0x00 key ++
        valueField env false f.use_true_binary_metadata value))) ∧
    (∀ key value, CallOutcome f (f.EmitLitHdrWithBinaryStringKeyIncIdx env key value) f.compressor
      (0x40 :: (lengthPrefixed 0x00 key ++
        valueField env true f.use_true_binary_metadata value))) ∧
    (∀ key value, CallOutcome f (f.EmitLitHdrWithBinaryStringKeyNotIdx env key value) f.compressor
      (0x00 :: (lengthPrefixed 0x00 key ++
        valueField env true f.use_true_binary_metadata value))) ∧
    (∀ (true_binary : Bool) (v : List Nat),
      valueField env false true_binary v =
        VarintWriter.Write { kPrefixBits := 1, value := v.length } 0x00 ++ v) ∧
    (∀ v : List Nat,
      valueField env true true v =
        VarintWriter.Write { kPrefixBits := 1, value := v.length + 1 } 0x00 ++ 0x00 :: v) ∧
    (∀ v : List Nat,
      valueField env true false v =
        VarintWriter.Write
          (VarintWriter.mk 1 (env.huffman_compress (env.base64url_encode v)).length) 0x80 ++
          env.huffman_compress (env.base64url_encode v)) ∧
    (∀ (n : Nat) (body : List Nat),
      varint_read 1 (VarintWriter.Write { kPrefixBits := 1, value := n } 0x00 ++ body) = n ∧
      varint_read 1 (VarintWriter.Write { kPrefixBits := 1, value := n } 0x80 ++ body) = n) ∧
    (∀ n : Nat, ∃ b tl,
      VarintWriter.Write { kPrefixBits := 1, value := n } 0x00 = b :: tl ∧ b / 128 = 0) ∧
    (∀ n : Nat, ∃ b tl,
      VarintWriter.Write { kPrefixBits := 1, value := n } 0x80 = b :: tl ∧ b / 128 = 1) := by
  refine ⟨Framer.emitLitHdrIncIdx_outcome env f, Framer.emitLitHdrNotIdx_outcome env f,
    Framer.emitLitHdrWithBinaryStringKeyNotIdx_indexed_outcome env f,
    Framer.emitLitHdrWithStringKeyIncIdx_outcome env f,
    Framer.emitLitHdrWithStringKeyNotIdx_outcome env f,
    Framer.emitLitHdrWithNonBinaryStringKeyIncIdx_outcome env f,
    Framer.emitLitHdrWithNonBinaryStringKeyNotIdx_outcome env f,
    Framer.emitLitHdrWithBinaryStringKeyIncIdx_outcome env f,
    Framer.emitLitHdrWithBinaryStringKeyNotIdx_outcome env f,
    fun _ _ => rfl, fun _ => rfl, fun _ => rfl, varint_read_length, ?_, ?_⟩
  · intro n
    obtain ⟨tl, h⟩ := VarintWriter.write_first 1 n 0x00
    exact ⟨_, tl, h, first_byte_forms.2.2.2.2 _ (by simp)⟩
  · intro n
    obtain ⟨tl, h⟩ := VarintWriter.write_first 1 n 0x80
    exact ⟨_, tl, h, first_byte_forms.1 _ (by simp)⟩

theorem Framer.advertiseTableSizeChange_returns (f : Framer) :
    CallReturns f (some f.AdvertiseTableSizeChange) f.compressor
      (VarintWriter.Write { kPrefixBits := 3, value := f.compressor.table.max_size } 0x20) := by
  have a := appends_addTinyBytes f
    (VarintWriter.Write { kPrefixBits := 3, value := f.compressor.table.max_size } 0x20)
  rw [advertiseTableSizeChange_eq]
  exact ⟨_, rfl, a.same.compressor, appends_emitsHpack a, a.header_bytes⟩

/-- C20: the first byte of every representation. `EmitIndexed` writes an index
under the 7-bit prefix with 0x80 (1xxxxxxx); `EmitLitHdrIncIdx` an index under
the 6-bit prefix with 0x40 (01xxxxxx); `EmitLitHdrNotIdx` and the indexed
`EmitLitHdrWithBinaryStringKeyNotIdx` an index under the 4-bit prefix with 0x00
(0000xxxx); `AdvertiseTableSizeChange` the size under the 5-bit prefix with 0x20
(001xxxxx); the six functions with a new name the byte 0x40 or 0x00, then the
length of the name under the 7-bit prefix with the Huffman bit clear and the
name. No first byte has the form 0001xxxx. -/
theorem first_byte_of_every_representation (env : Collaborators) (f : Framer) :
    (∀ elem_index, CallReturns f (some (f.EmitIndexed elem_index)) f.compressor
      (VarintWriter.Write { kPrefixBits := 1, value := elem_index } 0x80)) ∧
    (∀ key_index elem, ∃ tl,
      CallOutcome f (f.EmitLitHdrIncIdx env key_index elem) f.compressor
        (VarintWriter.Write { kPrefixBits := 2, value := key_index } 0x40 ++ tl)) ∧
    (∀ key_index elem, ∃ tl,
      CallOutcome f (f.EmitLitHdrNotIdx env key_index elem) f.compressor
        (VarintWriter.Write { kPrefixBits := 4, value := key_index } 0x00 ++ tl)) ∧
    (∀ key_index value, ∃ tl,
      CallOutcome f (f.EmitLitHdrWithBinaryStringKeyNotIdx_indexed env key_index value)
        f.compressor (VarintWriter.Write { kPrefixBits := 4, value := key_index } 0x00 ++ tl)) ∧
    CallReturns f (some f.AdvertiseTableSizeChange) f.compressor
      (VarintWriter.Write { kPrefixBits := 3, value := f.compressor.table.max_size } 0x20) ∧
    (∀ elem, ∃ tl, CallOutcome f (f.EmitLitHdrWithStringKeyIncIdx env elem) f.compressor
      (0x40 :: (VarintWriter.Write { kPrefixBits := 1, value := elem.key.length } 0x00 ++
        elem.key ++ tl))) ∧
    (∀ elem, ∃ tl, CallOutcome f (f.EmitLitHdrWithStringKeyNotIdx env elem) f.compressor
      (0x00 :: (VarintWriter.Write { kPrefixBits := 1, value := elem.key.length } 0x00 ++
        elem.key ++ tl))) ∧
    (∀ key value, ∃ tl,
      CallOutcome f (f.EmitLitHdrWithNonBinaryStringKeyIncIdx key value) f.compressor
        (0x40 :: (VarintWriter.Write { kPrefixBits := 1, value := key.length } 0x00 ++
          key ++ tl))) ∧
    (∀ key value, ∃ tl,
      CallOutcome f (f.EmitLitHdrWithNonBinaryStringKeyNotIdx key value) f.compressor
        (0x00 :: (VarintWriter.Write { kPrefixBits := 1, value := key.length } 0x00 ++
          key ++ tl))) ∧
    (∀ key value, ∃ tl,
      CallOutcome f (f.EmitLitHdrWithBinaryStringKeyIncIdx env key value) f.compressor
        (0x40 :: (VarintWriter.Write { kPrefixBits := 1, value := key.length } 0x00 ++
          key ++ tl))) ∧
    (∀ key value, ∃ tl,
      CallOutcome f (f.EmitLitHdrWithBinaryStringKeyNotIdx env key value) f.compressor
        (0x00 :: (VarintWriter.Write { kPrefixBits := 1, value := key.length } 0x00 ++
          key ++ tl))) ∧
    (∀ v : Nat, ∃ b tl,
      VarintWriter.Write { kPrefixBits := 1, value := v } 0x80 = b :: tl ∧ b / 128 = 1 ∧
        b / 16 ≠ 1) ∧
    (∀ v : Nat, ∃ b tl,
      VarintWriter.Write { kPrefixBits := 2, value := v } 0x40 = b :: tl ∧ b / 64 = 1 ∧
        b / 16 ≠ 1) ∧
    (∀ v : Nat, ∃ b tl,
      VarintWriter.Write { kPrefixBits := 4, value := v } 0x00 = b :: tl ∧ b / 16 = 0) ∧
    (∀ v : Nat, ∃ b tl,
      VarintWriter.Write { kPrefixBits := 3, value := v } 0x20 = b :: tl ∧ b / 32 = 1 ∧
        b / 16 ≠ 1) ∧
    (∀ n : Nat, ∃ b tl,
      VarintWriter.Write { kPrefixBits := 1, value := n } 0x00 = b :: tl ∧ b / 128 = 0) ∧
    0x40 / 16 ≠ 1 ∧ 0x00 / 16 ≠ 1 := by
  have lp : ∀ (key tl : List Nat), lengthPrefixed 0x00 key ++ tl =
      VarintWriter.Write { kPrefixBits := 1, value := key.length } 0x00 ++ key ++ tl :=
    fun _ _ => rfl
  refine ⟨fun i => Framer.emitIndexed_returns f i,
    fun i e => ⟨_, Framer.emitLitHdrIncIdx_outcome env f i e⟩,
    fun i e => ⟨_, Framer.emitLitHdrNotIdx_outcome env f i e⟩,
    fun i v => ⟨_, Framer.emitLitHdrWithBinaryStringKeyNotIdx_indexed_outcome env f i v⟩,
    Framer.advertiseTableSizeChange_returns f,
    fun e => ⟨_, lp _ _ ▸ Framer.emitLitHdrWithStringKeyIncIdx_outcome env f e⟩,
    fun e => ⟨_, lp _ _ ▸ Framer.emitLitHdrWithStringKeyNotIdx_outcome env f e⟩,
    fun k v => ⟨_, lp _ _ ▸ Framer.emitLitHdrWithNonBinaryStringKeyIncIdx_outcome env f k v⟩,
    fun k v => ⟨_, lp _ _ ▸ Framer.emitLitHdrWithNonBinaryStringKeyNotIdx_outcome env f k v⟩,
    fun k v => ⟨_, lp _ _ ▸ Framer.emitLitHdrWithBinaryStringKeyIncIdx_outcome env f k v⟩,
    fun k v => ⟨_, lp _ _ ▸ Framer.emitLitHdrWithBinaryStringKeyNotIdx_outcome env f k v⟩,
    ?_, ?_, ?_, ?_, ?_, by decide, by decide⟩
  · intro v
    obtain ⟨tl, h⟩ := VarintWriter.write_first 1 v 0x80
    have hb := first_byte_forms.1 (min v (2 ^ (8 - 1) - 1)) (by simp)
    have hlt : (0x80 ||| min v (2 ^ (8 - 1) - 1)) / 128 = 1 := hb
    exact ⟨_, tl, h, hb, by omega⟩
  · intro v
    obtain ⟨tl, h⟩ := VarintWriter.write_first 2 v 0x40
    have hb := first_byte_forms.2.1 (min v (2 ^ (8 - 2) - 1)) (by simp)
    exact ⟨_, tl, h, hb, by omega⟩
  · intro v
    obtain ⟨tl, h⟩ := VarintWriter.write_first 4 v 0x00
    exact ⟨_, tl, h, first_byte_forms.2.2.1 (min v (2 ^ (8 - 4) - 1)) (by simp)⟩
  · intro v
    obtain ⟨tl, h⟩ := VarintWriter.write_first 3 v 0x20
    have hb := first_byte_forms.2.2.2.1 (min v (2 ^ (8 - 3) - 1)) (by simp)
    exact ⟨_, tl, h, hb, by omega⟩
  · intro n
    obtain ⟨tl, h⟩ := VarintWriter.write_first 1 n 0x00
    exact ⟨_, tl, h, first_byte_forms.2.2.2.2 _ (by simp)⟩

/-! ## The generic path -/

theorem Framer.layout_of_compressor {f : Framer} {base : List Nat} {fs : List Frame}
    {cur : List Nat} (c : HPackCompressor) (h : f.Layout base fs cur) :
    Layout { f with compressor := c } base fs cur :=
  ⟨h.out, h.idx, h.start⟩

theorem Framer.encodeDynamic_literal_eq (env : Collaborators) (f : Framer) (elem : grpc_mdelem)
    (elem_interned : Bool) (elem_hash : Nat) :
    f.EncodeDynamic_literal env elem elem_interned elem_hash =
      if liveIndex f.compressor.table (f.compressor.key_index.Lookup elem.key_hash) then
        if elem_interned &&
            decide (MetadataSizeInHPackTable elem false < kMaxDecoderSpaceUsage) &&
            decide (elem_hash ≠ 0) then
          (f.EmitLitHdrIncIdx env (f.compressor.table.DynamicIndex
            ((f.compressor.key_index.Lookup elem.key_hash).getD 0)) elem).map (fun g =>
            { g with compressor := g.compressor.AddElem (MetadataSizeInHPackTable elem false) elem_hash elem.key_hash })
        else f.EmitLitHdrNotIdx env (f.compressor.table.DynamicIndex
            ((f.compressor.key_index.Lookup elem.key_hash).getD 0)) elem
      else
        (if (elem_interned &&
            decide (MetadataSizeInHPackTable elem false < kMaxDecoderSpaceUsage) &&
            decide (elem_hash ≠ 0)) ||
            (!elem_interned &&
            decide (MetadataSizeInHPackTable elem false < kMaxDecoderSpaceUsage))
          then f.EmitLitHdrWithStringKeyIncIdx env elem
          else f.EmitLitHdrWithStringKeyNotIdx env elem).map (fun g =>
          if elem_interned &&
              decide (MetadataSizeInHPackTable elem false < kMaxDecoderSpaceUsage) &&
              decide (elem_hash ≠ 0) then
            { g with compressor := g.compressor.AddElem (MetadataSizeInHPackTable elem false) elem_hash elem.key_hash }
          else if !elem_interned &&
              decide (MetadataSizeInHPackTable elem false < kMaxDecoderSpaceUsage) then
            { g with compressor := g.compressor.AddKey (MetadataSizeInHPackTable elem false) elem.key_hash }
          else g) := rfl

theorem callOutcome_id {f : Framer} {result : Option Framer} {expected : HPackCompressor}
    {rep : List Nat} (h : CallOutcome f result expected rep) :
    CallOutcome f (result.map (fun g => g)) expected rep := by
  have e : result.map (fun g => g) = result := by cases result <;> rfl
  rw [e]; exact h

/-- The literal of `EncodeDynamic`, on a framer whose compressor is `c`: the
compressor after the call and the bytes. -/
theorem Framer.encodeDynamic_literal_outcome (env : Collaborators) (f : Framer)
    (c : HPackCompressor) (elem : grpc_mdelem) (elem_interned : Bool) (elem_hash : Nat) :
    CallOutcome f
      (EncodeDynamic_literal env { f with compressor := c } elem elem_interned elem_hash)
      (c.afterLiteral elem elem_interned elem_hash)
      (if liveIndex c.table (c.key_index.Lookup elem.key_hash) then
        if elem_interned &&
            decide (MetadataSizeInHPackTable elem false < kMaxDecoderSpaceUsage) &&
            decide (elem_hash ≠ 0) then
          VarintWriter.Write
            (VarintWriter.mk 2 (c.table.DynamicIndex ((c.key_index.Lookup elem.key_hash).getD 0)))
            0x40 ++
            valueField env (grpc_is_binary_header_internal elem.key) f.use_true_binary_metadata
              elem.value
        else
          VarintWriter.Write
            (VarintWriter.mk 4 (c.table.DynamicIndex ((c.key_index.Lookup elem.key_hash).getD 0)))
            0x00 ++
            valueField env (grpc_is_binary_header_internal elem.key) f.use_true_binary_metadata
              elem.value
      else if (elem_interned &&
            decide (MetadataSizeInHPackTable elem false < kMaxDecoderSpaceUsage) &&
            decide (elem_hash ≠ 0)) ||
            (!elem_interned &&
            decide (MetadataSizeInHPackTable elem false < kMaxDecoderSpaceUsage)) then
        0x40 :: (lengthPrefixed 0x00 elem.key ++
          valueField env (grpc_is_binary_header_internal elem.key) f.use_true_binary_metadata
            elem.value)
      else
        0x00 :: (lengthPrefixed 0x00 elem.key ++
          valueField env (grpc_is_binary_header_internal elem.key) f.use_true_binary_metadata
            elem.value)) := by
  rw [encodeDynamic_literal_eq]
  have hsz : elem.key.length + elem.value.length + kEntryOverhead =
      MetadataSizeInHPackTable elem false := rfl
  unfold HPackCompressor.afterLiteral
  simp only [hsz]
  have o1 := fun i => callOutcome_of_compressor
    (emitLitHdrIncIdx_outcome env { f with compressor := c } i elem)
  have o2 := fun i => callOutcome_of_compressor
    (emitLitHdrNotIdx_outcome env { f with compressor := c } i elem)
  have o3 := callOutcome_of_compressor
    (emitLitHdrWithStringKeyIncIdx_outcome env { f with compressor := c } elem)
  have o4 := callOutcome_of_compressor
    (emitLitHdrWithStringKeyNotIdx_outcome env { f with compressor := c } elem)
  generalize MetadataSizeInHPackTable elem false = size at *
  generalize hsae : (elem_interned && decide (size < kMaxDecoderSpaceUsage) &&
    decide (elem_hash ≠ 0)) = sae at *
  generalize hsak : (!elem_interned && decide (size < kMaxDecoderSpaceUsage)) = sak at *
  cases hk : liveIndex c.table (c.key_index.Lookup elem.key_hash)
  · cases sae
    · cases sak
      · simp only [Bool.or_self, Bool.false_eq_true, if_false]
        exact callOutcome_id o4
      · simp only [Bool.or_true, Bool.false_eq_true, if_false, if_true]
        exact callOutcome_map _ _ o3 (fun g hg => by have hc : g.compressor = c := hg; rw [hc])
          (fun g _ _ _ l => layout_of_compressor _ l)
    · simp only [Bool.true_or, Bool.false_eq_true, if_false, if_true]
      exact callOutcome_map _ _ o3 (fun g hg => by have hc : g.compressor = c := hg; rw [hc])
        (fun g _ _ _ l => layout_of_compressor _ l)
  · cases sae
    · simp only [Bool.false_eq_true, if_false, if_true]
      exact o2 _
    · simp only [if_true]
      exact callOutcome_map _ _ (o1 _) (fun g hg => by have hc : g.compressor = c := hg; rw [hc])
        (fun g _ _ _ l => layout_of_compressor _ l)

theorem callOutcome_congr {f : Framer} {result : Option Framer} {e1 e2 : HPackCompressor}
    {r1 r2 : List Nat} (h : CallOutcome f result e1 r1) (he : e1 = e2) (hr : r1 = r2) :
    CallOutcome f result e2 r2 := he ▸ hr ▸ h

theorem callOutcome_of_returns {f : Framer} {result : Option Framer} {e : HPackCompressor}
    {r : List Nat} (h : CallReturns f result e r) : CallOutcome f result e r := by
  obtain ⟨g, hg, hc, he, -⟩ := h
  refine ⟨fun _ => ⟨g, hg⟩, ?_⟩
  intro g2 hg2
  rw [hg] at hg2
  cases hg2
  exact ⟨hc, he⟩

theorem Framer.encodeDynamic_eq (env : Collaborators) (f : Framer) (elem : grpc_mdelem) :
    f.EncodeDynamic env elem =
      if !(GRPC_MDELEM_IS_INTERNED elem || elem.key_is_interned) then
        f.EmitLitHdrWithStringKeyNotIdx env elem
      else if GRPC_MDELEM_IS_INTERNED elem then
        if liveIndex f.compressor.table (f.compressor.elem_index.Lookup elem.hash) then
          some (EmitIndexed { f with compressor := { f.compressor with filter_elems := (f.compressor.filter_elems.AddElement (elem.hash % kNumFilterValues)).2 } }
            (f.compressor.table.DynamicIndex ((f.compressor.elem_index.Lookup elem.hash).getD 0)))
        else
          EncodeDynamic_literal env { f with compressor := { f.compressor with filter_elems := (f.compressor.filter_elems.AddElement (elem.hash % kNumFilterValues)).2 } }
            elem (GRPC_MDELEM_IS_INTERNED elem)
            (if !(f.compressor.filter_elems.AddElement (elem.hash % kNumFilterValues)).1 then 0
              else elem.hash)
      else f.EncodeDynamic_literal env elem (GRPC_MDELEM_IS_INTERNED elem) 0 := rfl

/-- What `EncodeDynamic` does: the compressor it leaves and the bytes it appends. -/
theorem Framer.encodeDynamic_outcome (env : Collaborators) (f : Framer)
    (elem : grpc_mdelem) :
    CallOutcome f (f.EncodeDynamic env elem) (f.compressor.afterEncodeDynamic elem)
      (EncodeDynamic_decision env f.compressor f.use_true_binary_metadata elem) := by
  rw [Framer.encodeDynamic_eq]
  unfold HPackCompressor.afterEncodeDynamic EncodeDynamic_decision
  simp only []
  cases hi : GRPC_MDELEM_IS_INTERNED elem
  · cases hki : elem.key_is_interned
    · simp only [Bool.or_self, Bool.not_false, if_true]
      exact Framer.emitLitHdrWithStringKeyNotIdx_outcome env f elem
    · simp only [Bool.or_true, Bool.not_true, Bool.false_eq_true, if_false, Bool.false_and,
        Bool.false_or]
      refine callOutcome_congr (Framer.encodeDynamic_literal_outcome env f f.compressor elem
        false 0) rfl ?_
      simp [MetadataSizeInHPackTable, kEntryOverhead, kMaxDecoderSpaceUsage]
  · simp only [Bool.true_or, Bool.not_true, Bool.false_eq_true, if_false, if_true,
      Bool.true_and]
    cases hl : liveIndex f.compressor.table (f.compressor.elem_index.Lookup elem.hash)
    · simp only [Bool.false_eq_true, if_false]
      refine callOutcome_congr (Framer.encodeDynamic_literal_outcome env f _ elem true _)
        rfl ?_
      cases hc : (f.compressor.filter_elems.AddElement (elem.hash % kNumFilterValues)).1 <;>
        simp [MetadataSizeInHPackTable, kEntryOverhead, kMaxDecoderSpaceUsage]
    · simp only [if_true]
      exact callOutcome_of_compressor (callOutcome_of_returns (Framer.emitIndexed_returns
        { f with compressor := { f.compressor with filter_elems := (f.compressor.filter_elems.AddElement (elem.hash % kNumFilterValues)).2 } } _))

/-- C11: the decision table of `EncodeDynamic`. Whenever the frame size is at
least 1 the call returns, and the bytes it appends to the header block are those
of `EncodeDynamic_decision` on the compressor before the call: (1) key not
interned, literal without indexing and new name; (2) entry interned and live in
the entry cache, Indexed; (3) otherwise key live in the key cache, literal with
the indexed name, with incremental indexing exactly if `should_add_elem`;
(4) otherwise literal with a new name, with incremental indexing exactly if
`should_add_elem` or `should_add_key`. The compressor after the call is
`afterEncodeDynamic`. -/
theorem EncodeDynamic_follows_decision_table (env : Collaborators) (f : Framer)
    (elem : grpc_mdelem) :
    CallOutcome f (f.EncodeDynamic env elem) (f.compressor.afterEncodeDynamic elem)
      (EncodeDynamic_decision env f.compressor f.use_true_binary_metadata elem) :=
  Framer.encodeDynamic_outcome env f elem

/-! ## Invariants of the table -/

theorem HPackEncoderTable.init_wf : HPackEncoderTable.init.WF := by decide

theorem HPackEncoderTable.evictOne_wf (t : HPackEncoderTable) (h : t.WF) : t.EvictOne.WF := by
  unfold EvictOne
  cases hq : t.queue with
  | nil => exact h
  | cons p q =>
    obtain ⟨i, sz⟩ := p
    obtain ⟨h1, h2, h3⟩ := h
    have hi : i < t.next_index := h3 (i, sz) (by rw [hq]; exact List.mem_cons_self _ _)
    refine ⟨by show 1 ≤ i + 1; omega, by show i + 1 ≤ t.next_index; omega, ?_⟩
    intro p hp
    exact h3 p (by rw [hq]; exact List.mem_cons_of_mem _ hp)

theorem HPackEncoderTable.evictOne_next_index (t : HPackEncoderTable) :
    t.EvictOne.next_index = t.next_index ∧ t.EvictOne.max_size = t.max_size := by
  unfold EvictOne
  cases t.queue with
  | nil => exact ⟨rfl, rfl⟩
  | cons p q => exact ⟨rfl, rfl⟩

theorem HPackEncoderTable.evictUntilFits_wf (need : Nat) :
    ∀ (n : Nat) (t : HPackEncoderTable), t.WF →
      (EvictUntilFits need n t).WF ∧ (EvictUntilFits need n t).next_index = t.next_index := by
  intro n
  induction n with
  | zero => intro t h; exact ⟨h, rfl⟩
  | succ n ih =>
    intro t h
    unfold EvictUntilFits
    split_ifs with hfit
    · exact ⟨h, rfl⟩
    · obtain ⟨a, b⟩ := ih t.EvictOne (evictOne_wf t h)
      exact ⟨a, by rw [b, (evictOne_next_index t).1]⟩

/-- An entry that fits the maximum of a well-formed table takes `next_index`,
which is then live with the wire index 62. -/
theorem HPackEncoderTable.allocateIndex_fits (t : HPackEncoderTable) (size : Nat)
    (hfit : size ≤ t.max_size) (h : t.WF) :
    (t.AllocateIndex size).1 = t.next_index ∧
    (t.AllocateIndex size).1 ≠ 0 ∧
    (t.AllocateIndex size).2.next_index = t.next_index + 1 ∧
    (t.AllocateIndex size).2.ConvertableToDynamicIndex t.next_index = true ∧
    (t.AllocateIndex size).2.DynamicIndex t.next_index = 62 ∧
    (t.AllocateIndex size).2.WF := by
  obtain ⟨w, e⟩ := evictUntilFits_wf size t.queue.length t h
  obtain ⟨w1, w2, w3⟩ := w
  have hn : 1 ≤ t.next_index := le_trans h.1 h.2.1
  unfold AllocateIndex
  rw [if_neg (by omega)]
  simp only [e]
  refine ⟨trivial, by omega, trivial, ?_, ?_, ?_⟩
  · unfold ConvertableToDynamicIndex
    simp only [Bool.and_eq_true, decide_eq_true_eq]
    exact ⟨by rw [← e]; exact w2, Nat.lt_succ_self _⟩
  · unfold DynamicIndex kLastStaticEntry
    simp
  · refine ⟨w1, ?_, ?_⟩
    · show (EvictUntilFits size t.queue.length t).first_live_index ≤ t.next_index + 1
      rw [← e]; omega
    intro p hp
    show p.1 < t.next_index + 1
    simp only [List.mem_append, List.mem_singleton] at hp
    rcases hp with hp | hp
    · have := w3 p hp
      rw [e] at this
      omega
    · rw [hp]; exact Nat.lt_succ_self _

theorem HPackEncoderTable.allocateIndex_wf (t : HPackEncoderTable) (size : Nat) (h : t.WF) :
    (t.AllocateIndex size).2.WF := by
  by_cases hfit : size ≤ t.max_size
  · exact (allocateIndex_fits t size hfit h).2.2.2.2.2
  · unfold AllocateIndex
    rw [if_pos (by omega)]
    exact ⟨le_trans h.1 h.2.1, le_refl _, by intro p hp; cases hp⟩

theorem HPackEncoderTable.setMaxSize_wf (t : HPackEncoderTable) (n : Nat) (h : t.WF) :
    (t.SetMaxSize n).2.WF :=
  (evictUntilFits_wf 0 _ { t with max_size := n } ⟨h.1, h.2.1, h.2.2⟩).1

/-! ## The list of `SliceIndex` -/

theorem findIdx_split {α : Type} {p : α → Bool} {l : List α} {i : Nat}
    (h : l.findIdx? p = some i) :
    ∃ A e B, l = A ++ e :: B ∧ A.length = i ∧ (∀ a ∈ A, p a = false) ∧ p e = true := by
  obtain ⟨hi, hp, hn⟩ := List.findIdx?_eq_some_iff_getElem.mp h
  refine ⟨l.take i, l[i], l.drop (i + 1), ?_, ?_, ?_, hp⟩
  · rw [← List.drop_eq_getElem_cons hi, List.take_append_drop]
  · rw [List.length_take]; omega
  · intro a ha
    obtain ⟨j, hj, rfl⟩ := List.mem_iff_getElem.mp ha
    rw [List.length_take] at hj
    rw [List.getElem_take]
    have := hn j (by omega)
    simpa using this

theorem findIdx_of_split {α : Type} {p : α → Bool} (A : List α) (e : α) (B : List α)
    (hA : ∀ a ∈ A, p a = false) (he : p e = true) :
    (A ++ e :: B).findIdx? p = some A.length := by
  rw [List.findIdx?_append, List.findIdx?_eq_none_iff.mpr hA, List.findIdx?_cons, if_pos he]
  simp

theorem set_split {α : Type} (A : List α) (e x : α) (B : List α) :
    (A ++ e :: B).set A.length x = A ++ x :: B := by
  induction A with
  | nil => rfl
  | cons a A ih => simp [List.set, ih]

theorem getD_split {α : Type} (A : List α) (e d : α) (B : List α) :
    (A ++ e :: B).getD A.length d = e := by
  induction A with
  | nil => rfl
  | cons a A ih => simpa [List.getD] using ih

theorem SliceIndex.bubble_zero (l : List ValueIndex) : SliceIndex.bubble l 0 = l := by
  unfold SliceIndex.bubble
  rw [if_pos rfl]

theorem SliceIndex.bubble_split (A : List ValueIndex) (p e : ValueIndex) (B : List ValueIndex) :
    SliceIndex.bubble ((A ++ [p]) ++ e :: B) (A ++ [p]).length = A ++ e :: p :: B := by
  unfold SliceIndex.bubble
  have hlen : (A ++ [p]).length = A.length + 1 := by simp
  rw [if_neg (by rw [hlen]; omega)]
  have h1 : ((A ++ [p]) ++ e :: B).get? ((A ++ [p]).length - 1) = some p := by
    rw [hlen, Nat.add_sub_cancel, List.append_assoc, List.get?_eq_getElem?,
      List.getElem?_append_right (le_refl _)]
    simp
  have h2 : ((A ++ [p]) ++ e :: B).get? (A ++ [p]).length = some e := by
    rw [List.get?_eq_getElem?, List.getElem?_append_right (le_refl _)]
    simp
  simp only [h1, h2]
  have e1 : (((A ++ [p]) ++ e :: B).set ((A ++ [p]).length - 1) e) = (A ++ [e]) ++ e :: B := by
    rw [hlen, Nat.add_sub_cancel, List.append_assoc, List.singleton_append, set_split,
      List.append_assoc, List.singleton_append]
  have e2 : (A ++ [p]).length = (A ++ [e]).length := by simp
  rw [e1, e2, set_split]
  simp

theorem dropWhile_split {α : Type} (p : α → Bool) (U : List α) (e : α) (V : List α)
    (he : p e = false) : (U ++ e :: V).dropWhile p = U.dropWhile p ++ e :: V := by
  induction U with
  | nil => simp [List.dropWhile, he]
  | cons u U ih =>
    by_cases hu : p u = true
    · simp [List.dropWhile, hu, ih]
    · simp [List.dropWhile, hu]

theorem SliceIndex.popStale_split (t : HPackEncoderTable) (X : List ValueIndex) (e : ValueIndex)
    (Y : List ValueIndex) (he : t.ConvertableToDynamicIndex e.index = true) :
    SliceIndex.popStale t (X ++ e :: Y) = X ++ e :: SliceIndex.popStale t Y := by
  unfold SliceIndex.popStale
  rw [List.reverse_append, List.reverse_cons, List.append_assoc, List.singleton_append,
    dropWhile_split _ _ _ _ (by simp [he])]
  simp

/-- The loop that removes entries from the back: the list before it is the list
after it followed by the removed entries, none of which is live, and the back of
the list after it is live. -/
theorem SliceIndex.popStale_spec (t : HPackEncoderTable) (l : List ValueIndex) :
    ∃ removed, l = SliceIndex.popStale t l ++ removed ∧
      (∀ e ∈ removed, t.ConvertableToDynamicIndex e.index = false) ∧
      (∀ e, (SliceIndex.popStale t l).getLast? = some e →
        t.ConvertableToDynamicIndex e.index = true) := by
  refine ⟨(l.reverse.takeWhile (fun v => !t.ConvertableToDynamicIndex v.index)).reverse,
    ?_, ?_, ?_⟩
  · unfold SliceIndex.popStale
    rw [← List.reverse_append, List.takeWhile_append_dropWhile, List.reverse_reverse]
  · intro e he
    have := List.mem_takeWhile_imp (List.mem_reverse.mp he)
    simpa using this
  · intro e he
    unfold SliceIndex.popStale at he
    rw [List.getLast?_reverse] at he
    have := List.head?_dropWhile_not
      (fun v : ValueIndex => !t.ConvertableToDynamicIndex v.index) l.reverse
    rw [he] at this
    simpa using this

/-- A hit on an entry that is in the table, in `SliceIndex::EmitTo`: the entry is
emitted Indexed, then bubbled up, and the stale entries at the back are
removed. -/
theorem SliceIndex.emitTo_live (si : SliceIndex) (key value : List Nat) (f : Framer) (i : Nat)
    (h : si.values.findIdx? (fun v => value == v.value) = some i)
    (hl : f.compressor.table.ConvertableToDynamicIndex
      (si.values.getD i { value := value, index := 0 }).index = true) :
    si.EmitTo key value f =
      some (SliceIndex.mk (SliceIndex.popStale f.compressor.table
          (SliceIndex.bubble si.values i)),
        f.EmitIndexed (f.compressor.table.DynamicIndex
          (si.values.getD i { value := value, index := 0 }).index)) := by
  unfold SliceIndex.EmitTo
  simp only [h, hl, if_true, Option.map_some']
  rw [(Framer.appends_emitIndexed f _).same.compressor]

theorem SliceIndex.bubble_spec (l : List ValueIndex) (i : Nat) (hi : i < l.length) :
    (SliceIndex.bubble l i).length = l.length ∧
    (i = 0 → SliceIndex.bubble l i = l) ∧
    (0 < i → (SliceIndex.bubble l i).get? (i - 1) = l.get? i ∧
      (SliceIndex.bubble l i).get? i = l.get? (i - 1)) ∧
    (∀ j, j ≠ i → j ≠ i - 1 → (SliceIndex.bubble l i).get? j = l.get? j) := by
  unfold SliceIndex.bubble
  by_cases h0 : i = 0
  · rw [if_pos h0]
    exact ⟨rfl, fun _ => rfl, fun h => absurd h0 (by omega), fun _ _ _ => rfl⟩
  · rw [if_neg h0]
    have h1 : l.get? (i - 1) = some (l[i - 1]) := by
      rw [List.get?_eq_getElem?, List.getElem?_eq_getElem]
    have h2 : l.get? i = some l[i] := by
      rw [List.get?_eq_getElem?, List.getElem?_eq_getElem]
    simp only [h1, h2]
    refine ⟨by simp, fun h => absurd h h0, fun _ => ⟨?_, ?_⟩, ?_⟩
    · rw [List.get?_eq_getElem?, List.getElem?_set_ne (by omega), List.getElem?_set_self (by omega)]
    · rw [List.get?_eq_getElem?, List.getElem?_set_self (by simp; omega)]
    · intro j hj1 hj2
      rw [List.get?_eq_getElem?, List.getElem?_set_ne (by omega), List.getElem?_set_ne (by omega),
        List.get?_eq_getElem?]

/-- C17: the list of values after `SliceIndex::EmitTo`. On a hit at position `i`,
the first entry whose value is the argument (its index is replaced by the new
one when it was stale): if `i > 0` the entries at `i - 1` and `i` are swapped
and every other entry keeps its position, if `i = 0` nothing moves; then entries
are removed from the back for as long as the back entry is not live in the
table; no entry is added. On a miss the entry of the value and the new index is
appended at the back and nothing else changes. The call returns whenever the
frame size is at least 1. -/
theorem EmitTo_updates_value_list (si : SliceIndex) (key value : List Nat) (f : Framer) :
    (1 ≤ f.max_frame_size → ∃ r, si.EmitTo key value f = some r) ∧
    (∀ i, si.values.findIdx? (fun v => value == v.value) = some i →
      (∃ e, si.values.get? i = some e ∧ e.value = value) ∧
      (∀ j e, j < i → si.values.get? j = some e → e.value ≠ value) ∧
      ∀ r, si.EmitTo key value f = some r →
        ∃ refreshed swapped removed,
          (refreshed = si.values ∨
            refreshed = si.values.set i (ValueIndex.mk value
              (f.compressor.table.AllocateIndex (key.length + value.length + 32)).1)) ∧
          swapped.length = refreshed.length ∧
          (i = 0 → swapped = refreshed) ∧
          (0 < i → swapped.get? (i - 1) = refreshed.get? i ∧
            swapped.get? i = refreshed.get? (i - 1)) ∧
          (∀ j, j ≠ i → j ≠ i - 1 → swapped.get? j = refreshed.get? j) ∧
          swapped = r.1.values ++ removed ∧
          (∀ e ∈ removed, r.2.compressor.table.ConvertableToDynamicIndex e.index = false) ∧
          (∀ e, r.1.values.getLast? = some e →
            r.2.compressor.table.ConvertableToDynamicIndex e.index = true)) ∧
    (si.values.findIdx? (fun v => value == v.value) = none →
      ∀ r, si.EmitTo key value f = some r →
        r.1.values = si.values ++ [ValueIndex.mk value
          (f.compressor.table.AllocateIndex (key.length + value.length + 32)).1]) := by
  refine ⟨?_, ?_, ?_⟩
  · intro hM
    cases h : si.values.findIdx? (fun v => value == v.value) with
    | none =>
      rw [SliceIndex.emitTo_miss si key value f h]
      obtain ⟨g, hg⟩ := Option.isSome_iff_exists.mp (Framer.incIdx_isSome
        { f with compressor := { f.compressor with
            table := (f.compressor.table.AllocateIndex
              (key.length + value.length + kEntryOverhead)).2 } } key value hM)
      exact ⟨_, by rw [hg]; rfl⟩
    | some i =>
      cases hl : f.compressor.table.ConvertableToDynamicIndex
          (si.values.getD i { value := value, index := 0 }).index with
      | true => exact ⟨_, SliceIndex.emitTo_live si key value f i h hl⟩
      | false =>
        rw [SliceIndex.emitTo_stale si key value f i h hl]
        obtain ⟨g, hg⟩ := Option.isSome_iff_exists.mp (Framer.incIdx_isSome
          { f with compressor := { f.compressor with
              table := (f.compressor.table.AllocateIndex
                (key.length + value.length + kEntryOverhead)).2 } } key value hM)
        exact ⟨_, by rw [hg]; rfl⟩
  · intro i h
    obtain ⟨hi, hp, hn⟩ := List.findIdx?_eq_some_iff_getElem.mp h
    refine ⟨⟨si.values[i], by rw [List.get?_eq_getElem?, List.getElem?_eq_getElem],
      (eq_of_beq hp).symm⟩, ?_, ?_⟩
    · intro j e hj he hv
      have hjl : j < si.values.length := by omega
      rw [List.get?_eq_getElem?, List.getElem?_eq_getElem hjl] at he
      cases he
      exact hn j hj (by simp [hv])
    · intro r hr
      cases hl : f.compressor.table.ConvertableToDynamicIndex
          (si.values.getD i { value := value, index := 0 }).index with
      | true =>
        rw [SliceIndex.emitTo_live si key value f i h hl] at hr
        cases hr
        obtain ⟨b1, b2, b3, b4⟩ := SliceIndex.bubble_spec si.values i hi
        obtain ⟨removed, p1, p2, p3⟩ := SliceIndex.popStale_spec f.compressor.table
          (SliceIndex.bubble si.values i)
        refine ⟨si.values, SliceIndex.bubble si.values i, removed, Or.inl rfl, b1, b2, b3, b4,
          p1, ?_, ?_⟩
        · intro e he
          show (f.EmitIndexed _).compressor.table.ConvertableToDynamicIndex e.index = false
          rw [(Framer.appends_emitIndexed f _).same.compressor]
          exact p2 e he
        · intro e he
          show (f.EmitIndexed _).compressor.table.ConvertableToDynamicIndex e.index = true
          rw [(Framer.appends_emitIndexed f _).same.compressor]
          exact p3 e he
      | false =>
        rw [SliceIndex.emitTo_stale si key value f i h hl] at hr
        simp only [Option.map_eq_some'] at hr
        obtain ⟨g, -, rfl⟩ := hr
        have hi2 : i < (si.values.set i (ValueIndex.mk value
            (f.compressor.table.AllocateIndex
              (key.length + value.length + kEntryOverhead)).1)).length := by
          rw [List.length_set]; exact hi
        obtain ⟨b1, b2, b3, b4⟩ := SliceIndex.bubble_spec _ i hi2
        obtain ⟨removed, p1, p2, p3⟩ := SliceIndex.popStale_spec g.compressor.table
          (SliceIndex.bubble (si.values.set i (ValueIndex.mk value
            (f.compressor.table.AllocateIndex
              (key.length + value.length + kEntryOverhead)).1)) i)
        exact ⟨_, _, removed, Or.inr rfl, b1, b2, b3, b4, p1, p2, p3⟩
  · intro h r hr
    rw [SliceIndex.emitTo_miss si key value f h] at hr
    simp only [Option.map_eq_some'] at hr
    obtain ⟨g, -, rfl⟩ := hr
    rfl

/-- C17 on the list `[1] ↦ 5, [2] ↦ 6` and the value `[2]`: the hit is at position
1, and the call returns. -/
theorem EmitTo_updates_value_list_witness :
    (SliceIndex.mk [ValueIndex.mk [1] 5, ValueIndex.mk [2] 6]).values.findIdx?
      (fun v => [2] == v.value) = some 1 ∧
    (∃ e, (SliceIndex.mk [ValueIndex.mk [1] 5, ValueIndex.mk [2] 6]).values.get? 1 = some e ∧
      e.value = [2]) ∧
    ∃ r, (SliceIndex.mk [ValueIndex.mk [1] 5, ValueIndex.mk [2] 6]).EmitTo GRPC_MDSTR_PATH [2]
      (demoFramer 16384) = some r :=
  ⟨by decide,
    ((EmitTo_updates_value_list (SliceIndex.mk [ValueIndex.mk [1] 5, ValueIndex.mk [2] 6])
      GRPC_MDSTR_PATH [2] (demoFramer 16384)).2.1 1 (by decide)).1,
    (EmitTo_updates_value_list (SliceIndex.mk [ValueIndex.mk [1] 5, ValueIndex.mk [2] 6])
      GRPC_MDSTR_PATH [2] (demoFramer 16384)).1 (by decide)⟩

/-! ## Two calls of `SliceIndex::EmitTo` -/

theorem SliceIndex.holds_after_hit (t : HPackEncoderTable) (A : List ValueIndex)
    (value : List Nat) (index : Nat) (B : List ValueIndex)
    (hA : ∀ a ∈ A, (value == a.value) = false)
    (hl : t.ConvertableToDynamicIndex index = true) :
    SliceIndex.Holds
      (SliceIndex.mk (SliceIndex.popStale t
        (SliceIndex.bubble (A ++ ValueIndex.mk value index :: B) A.length)))
      t value index := by
  rcases List.eq_nil_or_concat A with hnil | ⟨A1, p, hc⟩
  · subst hnil
    refine ⟨[], SliceIndex.popStale t B, ?_, by simp, hl⟩
    show SliceIndex.popStale t (SliceIndex.bubble ([] ++ ValueIndex.mk value index :: B) 0) = _
    rw [SliceIndex.bubble_zero]
    exact SliceIndex.popStale_split t [] _ B hl
  · rw [List.concat_eq_append] at hc
    subst hc
    refine ⟨A1, SliceIndex.popStale t (p :: B), ?_, ?_, hl⟩
    · show SliceIndex.popStale t (SliceIndex.bubble _ _) = _
      rw [SliceIndex.bubble_split]
      exact SliceIndex.popStale_split t A1 _ (p :: B) hl
    · intro a ha
      exact hA a (List.mem_append_left _ ha)

/-- The second of two calls: a value the list holds with a live index is emitted
Indexed, and the table is not touched. -/
theorem SliceIndex.emitTo_of_holds (si : SliceIndex) (key value : List Nat) (f : Framer)
    (index : Nat) (h : si.Holds f.compressor.table value index) :
    ∃ si2, si.EmitTo key value f =
      some (si2, f.EmitIndexed (f.compressor.table.DynamicIndex index)) := by
  obtain ⟨X, Z, hv, hX, hl⟩ := h
  have hf : si.values.findIdx? (fun v => value == v.value) = some X.length := by
    rw [hv]
    exact findIdx_of_split X _ Z hX (by simp)
  have hg : (si.values.getD X.length { value := value, index := 0 }).index = index := by
    rw [hv, getD_split]
  have := SliceIndex.emitTo_live si key value f X.length hf (by rw [hg]; exact hl)
  rw [hg] at this
  exact ⟨_, this⟩

/-- The first of two calls: whatever the list, after a call for a value whose
entry fits the table the list holds the value with a live index; when the call
emitted a literal, it is the literal with incremental indexing and a new name,
and the wire index of the entry is 62. -/
theorem SliceIndex.emitTo_first (si : SliceIndex) (key value : List Nat) (f : Framer)
    (hM : 1 ≤ f.max_frame_size)
    (hfit : key.length + value.length + kEntryOverhead ≤ f.compressor.table.max_size)
    (hwf : f.compressor.table.WF) :
    ∃ si1 g1 index, si.EmitTo key value f = some (si1, g1) ∧
      si1.Holds g1.compressor.table value index ∧
      (si.hitsLive f.compressor.table value = false →
        f.EmitsHpack g1 (literalNewNameBytes 0x40 key (plainValuePrefix value) value) ∧
        g1.compressor.table.DynamicIndex index = 62) := by
  obtain ⟨a1, a2, a3, a4, a5, a6⟩ := HPackEncoderTable.allocateIndex_fits f.compressor.table
    (key.length + value.length + kEntryOverhead) hfit hwf
  have lit := Framer.incIdx_outcome f { f.compressor with
    table := (f.compressor.table.AllocateIndex (key.length + value.length + kEntryOverhead)).2 }
    key value
  obtain ⟨g, hg⟩ := lit.1 hM
  obtain ⟨hgc, hge⟩ := lit.2 g hg
  have hgt : g.compressor.table =
      (f.compressor.table.AllocateIndex (key.length + value.length + kEntryOverhead)).2 := by
    rw [hgc]
  cases h : si.values.findIdx? (fun v => value == v.value) with
  | none =>
    refine ⟨SliceIndex.mk (si.values ++ [ValueIndex.mk value
      (f.compressor.table.AllocateIndex (key.length + value.length + kEntryOverhead)).1]),
      g, f.compressor.table.next_index, ?_, ?_, ?_⟩
    · rw [SliceIndex.emitTo_miss si key value f h, hg]; rfl
    · refine ⟨si.values, [], ?_, ?_, ?_⟩
      · show si.values ++ [ValueIndex.mk value _] = _
        rw [a1]
      · intro a ha
        have := List.findIdx?_eq_none_iff.mp h a ha
        simpa using this
      · rw [hgt]; exact a4
    · intro _
      exact ⟨hge, by rw [hgt]; exact a5⟩
  | some i =>
    obtain ⟨A, e, B, hv, hlen, hA, he⟩ := findIdx_split h
    have hev : e.value = value := (eq_of_beq he).symm
    have hgd : si.values.getD i { value := value, index := 0 } = e := by
      rw [hv, ← hlen, getD_split]
    cases hl : f.compressor.table.ConvertableToDynamicIndex
        (si.values.getD i { value := value, index := 0 }).index with
    | true =>
      refine ⟨_, _, e.index, SliceIndex.emitTo_live si key value f i h hl, ?_, ?_⟩
      · rw [(Framer.appends_emitIndexed f _).same.compressor, hv, ← hlen]
        have hee : e = ValueIndex.mk value e.index := by
          cases e; simp only at hev; rw [hev]
        rw [hee]
        exact SliceIndex.holds_after_hit _ A value _ B hA (by rw [← hgd]; exact hl)
      · intro hh
        unfold SliceIndex.hitsLive at hh
        rw [h] at hh
        simp only [hl] at hh
        cases hh
    | false =>
      refine ⟨SliceIndex.mk (SliceIndex.popStale g.compressor.table
        (SliceIndex.bubble (si.values.set i (ValueIndex.mk value
          (f.compressor.table.AllocateIndex (key.length + value.length + kEntryOverhead)).1))
          i)), g, f.compressor.table.next_index, ?_, ?_, ?_⟩
      · rw [SliceIndex.emitTo_stale si key value f i h hl, hg]; rfl
      · show SliceIndex.Holds (SliceIndex.mk (SliceIndex.popStale g.compressor.table _)) _ _ _
        rw [a1, hv, ← hlen, set_split]
        exact SliceIndex.holds_after_hit _ A value _ B hA (by rw [hgt]; exact a4)
      · intro _
        exact ⟨hge, by rw [hgt]; exact a5⟩

theorem Framer.emitsHpack_with_compressor {f g : Framer} {bs : List Nat} (c : HPackCompressor)
    (h : f.EmitsHpack g bs) : f.EmitsHpack { g with compressor := c } bs := by
  intro base fs cur hl
  obtain ⟨gs, cur', l, e⟩ := h base fs cur hl
  exact ⟨gs, cur', layout_of_compressor c l, e⟩

/-- Two calls in a row of an overload that goes through `SliceIndex::EmitTo`,
for a value whose entry fits the table: the second call emits an Indexed
representation and leaves the table as it was; when the first call emitted a
literal, it is the literal with incremental indexing and a new name, and the
second call emits the wire index 62. -/
theorem Framer.encodeWithSliceIndex_twice (f : Framer) (get : HPackCompressor → SliceIndex)
    (put : HPackCompressor → SliceIndex → HPackCompressor) (key value : List Nat)
    (hgp : ∀ c s, get (put c s) = s) (hpt : ∀ c s, (put c s).table = c.table)
    (hM : 1 ≤ f.max_frame_size)
    (hfit : key.length + value.length + kEntryOverhead ≤ f.compressor.table.max_size)
    (hwf : f.compressor.table.WF) :
    ∃ g1 g2 w, f.EncodeWithSliceIndex get put key value = some g1 ∧
      g1.EncodeWithSliceIndex get put key value = some g2 ∧
      g1.EmitsHpack g2 (indexedBytes w) ∧
      g2.compressor.table = g1.compressor.table ∧
      ((get f.compressor).hitsLive f.compressor.table value = false →
        f.EmitsHpack g1 (literalNewNameBytes 0x40 key (plainValuePrefix value) value) ∧
        w = 62) := by
  obtain ⟨si1, g1r, index, h1, hh, hlit⟩ :=
    SliceIndex.emitTo_first (get f.compressor) key value f hM hfit hwf
  have hh1 : SliceIndex.Holds (get (put g1r.compressor si1))
      (put g1r.compressor si1).table value index := by
    rw [hgp, hpt]; exact hh
  obtain ⟨si2, h2⟩ := SliceIndex.emitTo_of_holds (get (put g1r.compressor si1)) key value
    { g1r with compressor := put g1r.compressor si1 } index hh1
  have ha := appends_emitIndexed { g1r with compressor := put g1r.compressor si1 }
    (HPackEncoderTable.DynamicIndex (put g1r.compressor si1).table index)
  refine ⟨{ g1r with compressor := put g1r.compressor si1 },
    { EmitIndexed { g1r with compressor := put g1r.compressor si1 }
        (HPackEncoderTable.DynamicIndex (put g1r.compressor si1).table index) with
      compressor := put (EmitIndexed { g1r with compressor := put g1r.compressor si1 }
        (HPackEncoderTable.DynamicIndex (put g1r.compressor si1).table index)).compressor si2 },
    HPackEncoderTable.DynamicIndex (put g1r.compressor si1).table index, ?_, ?_, ?_, ?_, ?_⟩
  · unfold EncodeWithSliceIndex
    rw [h1]; rfl
  · unfold EncodeWithSliceIndex
    exact congrArg (Option.map fun r => { r.2 with compressor := put r.2.compressor r.1 }) h2
  · exact emitsHpack_with_compressor _ (appends_emitsHpack ha)
  · show (put _ si2).table = (put g1r.compressor si1).table
    rw [hpt, ha.same.compressor]
  · intro hs
    obtain ⟨e1, e2⟩ := hlit hs
    exact ⟨emitsHpack_with_compressor _ e1, by rw [hpt]; exact e2⟩

/-- C16: `:path` and `:authority`. For every value whose entry (key, value and
32 bytes) fits the maximum of the table and every list of cached values, a
second `Encode` of the value right after the first emits an Indexed
representation and nothing else, and leaves the table as it was; when the first
call emitted a literal (a miss, or a hit on an index that is no longer live),
that literal is the one with incremental indexing and the new name, and the
second call emits the wire index 62, the byte 0xBE. -/
theorem path_and_authority_indexed_on_second_call (f : Framer) (value : List Nat)
    (hM : 1 ≤ f.max_frame_size) (hwf : f.compressor.table.WF) :
    (GRPC_MDSTR_PATH.length + value.length + 32 ≤ f.compressor.table.max_size →
      ∃ g1 g2 w, f.Encode_HttpPathMetadata value = some g1 ∧
        g1.Encode_HttpPathMetadata value = some g2 ∧
        g1.EmitsHpack g2 (indexedBytes w) ∧
        g2.compressor.table = g1.compressor.table ∧
        (f.compressor.path_index.hitsLive f.compressor.table value = false →
          f.EmitsHpack g1
            (literalNewNameBytes 0x40 GRPC_MDSTR_PATH (plainValuePrefix value) value) ∧
          w = 62)) ∧
    (GRPC_MDSTR_AUTHORITY.length + value.length + 32 ≤ f.compressor.table.max_size →
      ∃ g1 g2 w, f.Encode_HttpAuthorityMetadata value = some g1 ∧
        g1.Encode_HttpAuthorityMetadata value = some g2 ∧
        g1.EmitsHpack g2 (indexedBytes w) ∧
        g2.compressor.table = g1.compressor.table ∧
        (f.compressor.authority_index.hitsLive f.compressor.table value = false →
          f.EmitsHpack g1
            (literalNewNameBytes 0x40 GRPC_MDSTR_AUTHORITY (plainValuePrefix value) value) ∧
          w = 62)) ∧
    indexedBytes 62 = [0xBE] :=
  ⟨fun hfit => Framer.encodeWithSliceIndex_twice f (fun c => c.path_index)
      (fun c s => { c with path_index := s }) GRPC_MDSTR_PATH value (fun _ _ => rfl)
      (fun _ _ => rfl) hM hfit hwf,
    fun hfit => Framer.encodeWithSliceIndex_twice f (fun c => c.authority_index)
      (fun c s => { c with authority_index := s }) GRPC_MDSTR_AUTHORITY value (fun _ _ => rfl)
      (fun _ _ => rfl) hM hfit hwf,
    by decide⟩

/-- C16 on a new compressor and the path `/`: the first call misses, the second
emits the byte 0xBE. -/
theorem path_and_authority_indexed_on_second_call_witness :
    (1 ≤ (demoFramer 16384).max_frame_size ∧ (demoFramer 16384).compressor.table.WF ∧
      GRPC_MDSTR_PATH.length + [47].length + 32 ≤
        (demoFramer 16384).compressor.table.max_size ∧
      (demoFramer 16384).compressor.path_index.hitsLive (demoFramer 16384).compressor.table
        [47] = false) ∧
    ∃ g1 g2, (demoFramer 16384).Encode_HttpPathMetadata [47] = some g1 ∧
      g1.Encode_HttpPathMetadata [47] = some g2 ∧
      (demoFramer 16384).EmitsHpack g1 [0x40, 0x05, 58, 112, 97, 116, 104, 0x01, 47] ∧
      g1.EmitsHpack g2 [0xBE] := by
  obtain ⟨g1, g2, w, h1, h2, h3, -, h5⟩ :=
    (path_and_authority_indexed_on_second_call (demoFramer 16384) [47] (by decide)
      (by decide)).1 (by decide)
  obtain ⟨h6, hw⟩ := h5 (by decide)
  subst hw
  exact ⟨⟨by decide, by decide, by decide, by decide⟩, g1, g2, h1, h2, h6, h3⟩

/-! ## The filter and the insertion of an entry -/

theorem Framer.emitNewName_options {f g : Framer} {type : Nat}
    {key value_pfx value_data : List Nat}
    (h : f.emitNewName type key value_pfx value_data = some g) :
    g.max_frame_size = f.max_frame_size ∧
      g.use_true_binary_metadata = f.use_true_binary_metadata :=
  ⟨(appends_emitNewName h).same.max_frame_size,
    (appends_emitNewName h).same.use_true_binary_metadata⟩

theorem Framer.emitIndexedName_options {f g : Framer} {name_field value_pfx value_data : List Nat}
    (h : f.emitIndexedName name_field value_pfx value_data = some g) :
    g.max_frame_size = f.max_frame_size ∧
      g.use_true_binary_metadata = f.use_true_binary_metadata :=
  ⟨(appends_emitIndexedName h).same.max_frame_size,
    (appends_emitIndexedName h).same.use_true_binary_metadata⟩

theorem options_of_map {f : Framer} {result : Option Framer} (post : Framer → Framer)
    (hp : ∀ g, (post g).max_frame_size = g.max_frame_size ∧
      (post g).use_true_binary_metadata = g.use_true_binary_metadata)
    (h : ∀ g, result = some g → g.max_frame_size = f.max_frame_size ∧
      g.use_true_binary_metadata = f.use_true_binary_metadata) :
    ∀ g, result.map post = some g → g.max_frame_size = f.max_frame_size ∧
      g.use_true_binary_metadata = f.use_true_binary_metadata := by
  intro g hg
  cases result with
  | none => simp at hg
  | some a =>
    simp only [Option.map_some', Option.some.injEq] at hg
    subst hg
    exact ⟨(hp a).1.trans (h a rfl).1, (hp a).2.trans (h a rfl).2⟩

theorem Framer.encodeDynamic_literal_options (env : Collaborators) (f : Framer)
    (elem : grpc_mdelem) (elem_interned : Bool) (elem_hash : Nat) :
    ∀ g, f.EncodeDynamic_literal env elem elem_interned elem_hash = some g →
      g.max_frame_size = f.max_frame_size ∧
        g.use_true_binary_metadata = f.use_true_binary_metadata := by
  rw [encodeDynamic_literal_eq]
  have o1 : ∀ i g, f.EmitLitHdrIncIdx env i elem = some g → _ := fun i g h =>
    emitIndexedName_options (by rw [← emitLitHdrIncIdx_eq]; exact h)
  have o2 : ∀ i g, f.EmitLitHdrNotIdx env i elem = some g → _ := fun i g h =>
    emitIndexedName_options (by rw [← emitLitHdrNotIdx_eq]; exact h)
  have o3 : ∀ g, f.EmitLitHdrWithStringKeyIncIdx env elem = some g → _ := fun g h =>
    emitNewName_options (by rw [← emitLitHdrWithStringKeyIncIdx_eq]; exact h)
  have o4 : ∀ g, f.EmitLitHdrWithStringKeyNotIdx env elem = some g → _ := fun g h =>
    emitNewName_options (by rw [← emitLitHdrWithStringKeyNotIdx_eq]; exact h)
  generalize MetadataSizeInHPackTable elem false = size
  generalize (elem_interned && decide (size < kMaxDecoderSpaceUsage) &&
    decide (elem_hash ≠ 0)) = sae
  generalize (!elem_interned && decide (size < kMaxDecoderSpaceUsage)) = sak
  cases liveIndex f.compressor.table (f.compressor.key_index.Lookup elem.key_hash)
  · cases sae
    · cases sak
      · simp only [Bool.or_self, Bool.false_eq_true, if_false]
        exact options_of_map _ (fun _ => ⟨rfl, rfl⟩) o4
      · simp only [Bool.or_true, Bool.false_eq_true, if_false, if_true]
        exact options_of_map _ (fun _ => ⟨rfl, rfl⟩) o3
    · simp only [Bool.true_or, Bool.false_eq_true, if_false, if_true]
      exact options_of_map _ (fun _ => ⟨rfl, rfl⟩) o3
  · cases sae
    · simp only [Bool.false_eq_true, if_false, if_true]
      exact o2 _
    · simp only [if_true]
      exact options_of_map _ (fun _ => ⟨rfl, rfl⟩) (o1 _)

/-- `Encode(md)` changes neither the frame size nor the true-binary option. -/
theorem Framer.encode_options (env : Collaborators) (f : Framer) (elem : grpc_mdelem) :
    ∀ g, f.Encode env elem = some g →
      g.max_frame_size = f.max_frame_size ∧
        g.use_true_binary_metadata = f.use_true_binary_metadata := by
  have ix : ∀ (f0 : Framer) (i : Nat), (f0.EmitIndexed i).max_frame_size = f0.max_frame_size ∧
      (f0.EmitIndexed i).use_true_binary_metadata = f0.use_true_binary_metadata := fun f0 i =>
    ⟨(appends_emitIndexed f0 i).same.max_frame_size,
      (appends_emitIndexed f0 i).same.use_true_binary_metadata⟩
  unfold Framer.Encode
  by_cases h0 : elem.storage = grpc_mdelem_data_storage.GRPC_MDELEM_STORAGE_STATIC ∧
      elem.static_index < kLastStaticEntry
  · rw [if_pos h0]
    intro g hg
    cases hg
    exact ix f _
  · rw [if_neg h0, encodeDynamic_eq]
    by_cases h1 : (!(GRPC_MDELEM_IS_INTERNED elem || elem.key_is_interned)) = true
    · rw [if_pos h1]
      intro g hg
      exact emitNewName_options (by rw [← emitLitHdrWithStringKeyNotIdx_eq]; exact hg)
    · rw [if_neg h1]
      by_cases h2 : GRPC_MDELEM_IS_INTERNED elem = true
      · rw [if_pos h2]
        by_cases h3 : liveIndex f.compressor.table
            (f.compressor.elem_index.Lookup elem.hash) = true
        · rw [if_pos h3]
          intro g hg
          cases hg
          exact ix _ _
        · rw [if_neg h3]
          intro g hg
          have h := encodeDynamic_literal_options env
            { f with compressor := { f.compressor with filter_elems := (f.compressor.filter_elems.AddElement (elem.hash % kNumFilterValues)).2 } }
            elem _ _ g hg
          exact h
      · rw [if_neg h2]
        intro g hg
        exact encodeDynamic_literal_options env f elem _ _ g hg

theorem PopularityCount.addElement_spec (p : PopularityCount) (idx : Nat) :
    (p.AddElement idx).1 = (p.elems.getD idx 0 != 0) ∧
    (idx < p.elems.length → (p.AddElement idx).2.elems.getD idx 0 = p.elems.getD idx 0 + 1) := by
  refine ⟨rfl, fun h => ?_⟩
  show (p.elems.set idx (p.elems.getD idx 0 + 1)).getD idx 0 = _
  simp [List.getD_eq_getElem?_getD, h]

theorem HPackEncoderIndex.lookup_insert (c : HPackEncoderIndex) (hash index : Nat) :
    (c.Insert hash index).Lookup hash = some index := by
  simp [HPackEncoderIndex.Insert, HPackEncoderIndex.Lookup, List.lookup]

/-- `AddElem` for an entry that fits a well-formed table: the entry takes
`next_index`, and both caches bind their hash to it. -/
theorem HPackCompressor.addElem_fits (c : HPackCompressor) (size elem_hash key_hash : Nat)
    (hfit : size ≤ c.table.max_size) (hwf : c.table.WF) :
    (c.AddElem size elem_hash key_hash).table = (c.table.AllocateIndex size).2 ∧
    (c.AddElem size elem_hash key_hash).elem_index =
      c.elem_index.Insert elem_hash c.table.next_index ∧
    (c.AddElem size elem_hash key_hash).key_index =
      c.key_index.Insert key_hash c.table.next_index ∧
    (c.AddElem size elem_hash key_hash).filter_elems = c.filter_elems := by
  obtain ⟨a1, a2, -⟩ := HPackEncoderTable.allocateIndex_fits c.table size hfit hwf
  unfold HPackCompressor.AddElem
  simp only []
  rw [if_pos a2, a1]
  exact ⟨rfl, rfl, rfl, rfl⟩

theorem Framer.encode_eq_encodeDynamic (env : Collaborators) (f : Framer) (elem : grpc_mdelem)
    (hns : ¬ (elem.storage = grpc_mdelem_data_storage.GRPC_MDELEM_STORAGE_STATIC ∧
      elem.static_index < 61)) :
    f.Encode env elem = f.EncodeDynamic env elem := by
  unfold Framer.Encode
  exact if_neg hns

/-- An interned entry the filter has not seen and the entry cache does not hold
live: a literal without indexing, and only the filter changes. -/
theorem Framer.encode_unseen (env : Collaborators) (f : Framer) (elem : grpc_mdelem)
    (hint : GRPC_MDELEM_IS_INTERNED elem = true)
    (hns : ¬ (elem.storage = grpc_mdelem_data_storage.GRPC_MDELEM_STORAGE_STATIC ∧
      elem.static_index < 61))
    (hnew : (f.compressor.filter_elems.AddElement (elem.hash % kNumFilterValues)).1 = false)
    (hnl : liveIndex f.compressor.table (f.compressor.elem_index.Lookup elem.hash) = false) :
    CallOutcome f (f.Encode env elem)
      { f.compressor with filter_elems := (f.compressor.filter_elems.AddElement (elem.hash % kNumFilterValues)).2 }
      (if liveIndex f.compressor.table (f.compressor.key_index.Lookup elem.key_hash) then
        VarintWriter.Write (VarintWriter.mk 4 (f.compressor.table.DynamicIndex
          ((f.compressor.key_index.Lookup elem.key_hash).getD 0))) 0x00 ++
          valueField env (grpc_is_binary_header_internal elem.key) f.use_true_binary_metadata
            elem.value
      else
        0x00 :: (lengthPrefixed 0x00 elem.key ++
          valueField env (grpc_is_binary_header_internal elem.key) f.use_true_binary_metadata
            elem.value)) := by
  rw [encode_eq_encodeDynamic env f elem hns]
  refine callOutcome_congr (encodeDynamic_outcome env f elem) ?_ ?_
  · simp [HPackCompressor.afterEncodeDynamic, HPackCompressor.afterLiteral, hint, hnew, hnl]
  · simp [EncodeDynamic_decision, hint, hnew, hnl]

/-- An interned entry the filter has seen, of a size below 512 and a hash that
is not 0, that the entry cache does not hold live: a literal with incremental
indexing, and the entry is added. -/
theorem Framer.encode_seen (env : Collaborators) (f : Framer) (elem : grpc_mdelem)
    (hint : GRPC_MDELEM_IS_INTERNED elem = true)
    (hns : ¬ (elem.storage = grpc_mdelem_data_storage.GRPC_MDELEM_STORAGE_STATIC ∧
      elem.static_index < 61))
    (hsz : elem.key.length + elem.value.length + 32 < 512)
    (hh : elem.hash ≠ 0)
    (hseen : (f.compressor.filter_elems.AddElement (elem.hash % kNumFilterValues)).1 = true)
    (hnl : liveIndex f.compressor.table (f.compressor.elem_index.Lookup elem.hash) = false) :
    CallOutcome f (f.Encode env elem)
      (HPackCompressor.AddElem
        { f.compressor with filter_elems := (f.compressor.filter_elems.AddElement (elem.hash % kNumFilterValues)).2 }
        (elem.key.length + elem.value.length + 32) elem.hash elem.key_hash)
      (if liveIndex f.compressor.table (f.compressor.key_index.Lookup elem.key_hash) then
        VarintWriter.Write (VarintWriter.mk 2 (f.compressor.table.DynamicIndex
          ((f.compressor.key_index.Lookup elem.key_hash).getD 0))) 0x40 ++
          valueField env (grpc_is_binary_header_internal elem.key) f.use_true_binary_metadata
            elem.value
      else
        0x40 :: (lengthPrefixed 0x00 elem.key ++
          valueField env (grpc_is_binary_header_internal elem.key) f.use_true_binary_metadata
            elem.value)) := by
  rw [encode_eq_encodeDynamic env f elem hns]
  refine callOutcome_congr (encodeDynamic_outcome env f elem) ?_ ?_
  · simp [HPackCompressor.afterEncodeDynamic, HPackCompressor.afterLiteral, hint, hseen, hnl,
      hh, hsz, kEntryOverhead, kMaxDecoderSpaceUsage]
  · simp [EncodeDynamic_decision, hint, hseen, hnl, hh, hsz]

/-- An interned entry the entry cache holds live: Indexed, and only the filter
changes. -/
theorem Framer.encode_live (env : Collaborators) (f : Framer) (elem : grpc_mdelem)
    (hint : GRPC_MDELEM_IS_INTERNED elem = true)
    (hns : ¬ (elem.storage = grpc_mdelem_data_storage.GRPC_MDELEM_STORAGE_STATIC ∧
      elem.static_index < 61))
    (hl : liveIndex f.compressor.table (f.compressor.elem_index.Lookup elem.hash) = true) :
    CallOutcome f (f.Encode env elem)
      { f.compressor with filter_elems := (f.compressor.filter_elems.AddElement (elem.hash % kNumFilterValues)).2 }
      (indexedBytes (f.compressor.table.DynamicIndex
        ((f.compressor.elem_index.Lookup elem.hash).getD 0))) := by
  rw [encode_eq_encodeDynamic env f elem hns]
  refine callOutcome_congr (encodeDynamic_outcome env f elem) ?_ ?_
  · simp [HPackCompressor.afterEncodeDynamic, hint, hl]
  · simp [EncodeDynamic_decision, hint, hl, indexedBytes]

/-- Two calls of `Encode` in a row for an interned entry the filter has seen: the
first emits the literal with incremental indexing and adds the entry, which
takes `next_index`; the second emits the one byte 0xBE, Indexed with the wire
index 62. -/
theorem Framer.encode_seen_then_indexed (env : Collaborators) (f : Framer) (elem : grpc_mdelem)
    (hM : 1 ≤ f.max_frame_size)
    (hint : GRPC_MDELEM_IS_INTERNED elem = true)
    (hns : ¬ (elem.storage = grpc_mdelem_data_storage.GRPC_MDELEM_STORAGE_STATIC ∧
      elem.static_index < 61))
    (hsz : elem.key.length + elem.value.length + 32 < 512)
    (hfit : elem.key.length + elem.value.length + 32 ≤ f.compressor.table.max_size)
    (hwf : f.compressor.table.WF)
    (hh : elem.hash ≠ 0)
    (hseen : (f.compressor.filter_elems.AddElement (elem.hash % kNumFilterValues)).1 = true)
    (hnl : liveIndex f.compressor.table (f.compressor.elem_index.Lookup elem.hash) = false) :
    ∃ g2 g3, f.Encode env elem = some g2 ∧ g2.Encode env elem = some g3 ∧
      f.EmitsHpack g2
        (if liveIndex f.compressor.table (f.compressor.key_index.Lookup elem.key_hash) then
          VarintWriter.Write (VarintWriter.mk 2 (f.compressor.table.DynamicIndex
            ((f.compressor.key_index.Lookup elem.key_hash).getD 0))) 0x40 ++
            valueField env (grpc_is_binary_header_internal elem.key)
              f.use_true_binary_metadata elem.value
        else
          0x40 :: (lengthPrefixed 0x00 elem.key ++
            valueField env (grpc_is_binary_header_internal elem.key)
              f.use_true_binary_metadata elem.value)) ∧
      g2.compressor.table =
        (f.compressor.table.AllocateIndex (elem.key.length + elem.value.length + 32)).2 ∧
      g2.compressor.elem_index.Lookup elem.hash = some f.compressor.table.next_index ∧
      g2.compressor.table.ConvertableToDynamicIndex f.compressor.table.next_index = true ∧
      g2.EmitsHpack g3 [0xBE] ∧
      g3.compressor.table = g2.compressor.table := by
  have s2 := encode_seen env f elem hint hns hsz hh hseen hnl
  obtain ⟨g2, h2⟩ := s2.1 hM
  obtain ⟨c2, e2⟩ := s2.2 g2 h2
  obtain ⟨o2, -⟩ := encode_options env f elem g2 h2
  obtain ⟨t1, t2, -, -⟩ := HPackCompressor.addElem_fits
    { f.compressor with filter_elems := (f.compressor.filter_elems.AddElement (elem.hash % kNumFilterValues)).2 }
    (elem.key.length + elem.value.length + 32) elem.hash elem.key_hash hfit hwf
  obtain ⟨-, -, -, a4, a5, -⟩ := HPackEncoderTable.allocateIndex_fits f.compressor.table
    (elem.key.length + elem.value.length + 32) hfit hwf
  have ht : g2.compressor.table =
      (f.compressor.table.AllocateIndex (elem.key.length + elem.value.length + 32)).2 := by
    rw [c2]; exact t1
  have hl : g2.compressor.elem_index.Lookup elem.hash = some f.compressor.table.next_index := by
    rw [c2, t2]; exact HPackEncoderIndex.lookup_insert _ _ _
  have hlive : liveIndex g2.compressor.table (g2.compressor.elem_index.Lookup elem.hash) =
      true := by
    rw [hl, ht]; exact a4
  have s3 := encode_live env g2 elem hint hns hlive
  obtain ⟨g3, h3⟩ := s3.1 (by rw [o2]; exact hM)
  obtain ⟨c3, e3⟩ := s3.2 g3 h3
  refine ⟨g2, g3, h2, h3, e2, ht, hl, by rw [ht]; exact a4, ?_, by rw [c3]⟩
  have hb : indexedBytes (g2.compressor.table.DynamicIndex
      ((g2.compressor.elem_index.Lookup elem.hash).getD 0)) = [0xBE] := by
    rw [hl, ht]
    show indexedBytes (HPackEncoderTable.DynamicIndex _ f.compressor.table.next_index) = _
    rw [a5]
    decide
  rw [hb] at e3
  exact e3

/-- C12, as amended: for an interned entry that is not served by the
static table, whose table size is below 512 and no larger than the maximum of
the table, whose hash is not 0, whose filter bucket (hash modulo
`kNumFilterValues`) no earlier entry has touched and which the entry cache does
not hold live, three calls of `Encode` in a row all return and: the first emits
a literal without incremental indexing (indexed name when the key cache holds
the key live, new name otherwise) and changes neither the table nor the caches;
the second emits that literal with incremental indexing and adds the entry to
the table, where it takes `next_index` and is live; the third emits the one
byte 0xBE, Indexed with the wire index 62. -/
theorem filter_gated_insertion_in_three_calls (env : Collaborators) (f : Framer)
    (elem : grpc_mdelem)
    (hM : 1 ≤ f.max_frame_size)
    (hint : GRPC_MDELEM_IS_INTERNED elem = true)
    (hns : ¬ (elem.storage = grpc_mdelem_data_storage.GRPC_MDELEM_STORAGE_STATIC ∧
      elem.static_index < 61))
    (hsz : elem.key.length + elem.value.length + 32 < 512)
    (hfit : elem.key.length + elem.value.length + 32 ≤ f.compressor.table.max_size)
    (hwf : f.compressor.table.WF)
    (hfl : f.compressor.filter_elems.elems.length = kNumFilterValues)
    (hh : elem.hash ≠ 0)
    (hnew : f.compressor.filter_elems.elems.getD (elem.hash % kNumFilterValues) 0 = 0)
    (hnl : liveIndex f.compressor.table (f.compressor.elem_index.Lookup elem.hash) = false) :
    ∃ g1 g2 g3, f.Encode env elem = some g1 ∧ g1.Encode env elem = some g2 ∧
      g2.Encode env elem = some g3 ∧
      f.EmitsHpack g1
        (if liveIndex f.compressor.table (f.compressor.key_index.Lookup elem.key_hash) then
          VarintWriter.Write (VarintWriter.mk 4 (f.compressor.table.DynamicIndex
            ((f.compressor.key_index.Lookup elem.key_hash).getD 0))) 0x00 ++
            valueField env (grpc_is_binary_header_internal elem.key)
              f.use_true_binary_metadata elem.value
        else
          0x00 :: (lengthPrefixed 0x00 elem.key ++
            valueField env (grpc_is_binary_header_internal elem.key)
              f.use_true_binary_metadata elem.value)) ∧
      g1.compressor.table = f.compressor.table ∧
      g1.compressor.elem_index = f.compressor.elem_index ∧
      g1.compressor.key_index = f.compressor.key_index ∧
      g1.EmitsHpack g2
        (if liveIndex f.compressor.table (f.compressor.key_index.Lookup elem.key_hash) then
          VarintWriter.Write (VarintWriter.mk 2 (f.compressor.table.DynamicIndex
            ((f.compressor.key_index.Lookup elem.key_hash).getD 0))) 0x40 ++
            valueField env (grpc_is_binary_header_internal elem.key)
              f.use_true_binary_metadata elem.value
        else
          0x40 :: (lengthPrefixed 0x00 elem.key ++
            valueField env (grpc_is_binary_header_internal elem.key)
              f.use_true_binary_metadata elem.value)) ∧
      g2.compressor.table =
        (f.compressor.table.AllocateIndex (elem.key.length + elem.value.length + 32)).2 ∧
      g2.compressor.elem_index.Lookup elem.hash = some f.compressor.table.next_index ∧
      g2.compressor.table.ConvertableToDynamicIndex f.compressor.table.next_index = true ∧
      g2.EmitsHpack g3 [0xBE] ∧
      g3.compressor.table = g2.compressor.table := by
  obtain ⟨p1, p2⟩ := PopularityCount.addElement_spec f.compressor.filter_elems
    (elem.hash % kNumFilterValues)
  have hidx : elem.hash % kNumFilterValues < f.compressor.filter_elems.elems.length := by
    rw [hfl]; exact Nat.mod_lt _ (by decide)
  have hunseen : (f.compressor.filter_elems.AddElement (elem.hash % kNumFilterValues)).1 =
      false := by
    rw [p1, hnew]; rfl
  have s1 := Framer.encode_unseen env f elem hint hns hunseen hnl
  obtain ⟨g1, h1⟩ := s1.1 hM
  obtain ⟨c1, e1⟩ := s1.2 g1 h1
  obtain ⟨o1, u1⟩ := Framer.encode_options env f elem g1 h1
  have ht1 : g1.compressor.table = f.compressor.table := by rw [c1]
  have hi1 : g1.compressor.elem_index = f.compressor.elem_index := by rw [c1]
  have hk1 : g1.compressor.key_index = f.compressor.key_index := by rw [c1]
  have hseen : (g1.compressor.filter_elems.AddElement (elem.hash % kNumFilterValues)).1 =
      true := by
    rw [(PopularityCount.addElement_spec _ _).1, c1]
    show ((f.compressor.filter_elems.AddElement (elem.hash % kNumFilterValues)).2.elems.getD
      (elem.hash % kNumFilterValues) 0 != 0) = true
    rw [p2 hidx]
    simp
  obtain ⟨g2, g3, h2, h3, e2, t2, l2, v2, e3, t3⟩ :=
    Framer.encode_seen_then_indexed env g1 elem (by rw [o1]; exact hM) hint hns hsz
      (by rw [ht1]; exact hfit) (by rw [ht1]; exact hwf) hh hseen
      (by rw [ht1, hi1]; exact hnl)
  rw [ht1, hk1, u1] at e2
  rw [ht1] at t2 l2 v2
  exact ⟨g1, g2, g3, h1, h2, h3, e1, ht1, hi1, hk1, e2, t2, l2, v2, e3, t3⟩

theorem demoFramer_filter_length (M : Nat) :
    (demoFramer M).compressor.filter_elems.elems.length = kNumFilterValues := by
  show (List.replicate kNumFilterValues 0).length = kNumFilterValues
  exact List.length_replicate _ _

/-- C12 on a new compressor and the entry `ab: c`: the three calls emit
0x00 0x02 `ab` 0x01 `c`, then 0x40 0x02 `ab` 0x01 `c`, then 0xBE. -/
theorem filter_gated_insertion_in_three_calls_witness :
    (1 ≤ (demoFramer 16384).max_frame_size ∧ GRPC_MDELEM_IS_INTERNED demoEntryA = true ∧
      demoEntryA.key.length + demoEntryA.value.length + 32 < 512 ∧
      (demoFramer 16384).compressor.table.WF ∧ demoEntryA.hash ≠ 0 ∧
      (demoFramer 16384).compressor.filter_elems.elems.getD
        (demoEntryA.hash % kNumFilterValues) 0 = 0) ∧
    ∃ g1 g2 g3, (demoFramer 16384).Encode demoCollaborators demoEntryA = some g1 ∧
      g1.Encode demoCollaborators demoEntryA = some g2 ∧
      g2.Encode demoCollaborators demoEntryA = some g3 ∧
      (demoFramer 16384).EmitsHpack g1 [0x00, 0x02, 97, 98, 0x01, 99] ∧
      g1.EmitsHpack g2 [0x40, 0x02, 97, 98, 0x01, 99] ∧
      g2.EmitsHpack g3 [0xBE] := by
  obtain ⟨g1, g2, g3, h1, h2, h3, e1, -, -, -, e2, -, -, -, e3, -⟩ :=
    filter_gated_insertion_in_three_calls demoCollaborators (demoFramer 16384) demoEntryA
      (by decide) (by decide) (by decide) (by decide) (by decide) (by decide)
      (demoFramer_filter_length 16384) (by decide) (by decide) (by decide)
  exact ⟨⟨by decide, by decide, by decide, by decide, by decide, by decide⟩,
    g1, g2, g3, h1, h2, h3, e1, e2, e3⟩

/-- C12 as stated fails: the entry `xy: z` has never been encoded, but its
filter bucket was touched by `ab: c`, so its first `Encode` already emits the
literal with incremental indexing (0x40 …) and adds it to the table. -/
theorem first_sighting_inserted_after_filter_collision :
    GRPC_MDELEM_IS_INTERNED demoEntryB = true ∧
    demoEntryB.key.length + demoEntryB.value.length + 32 = 35 ∧
    ((demoFramer 16384).Encode demoCollaborators demoEntryA).map
        (fun g => (g.output.drop 9, g.compressor.table.queue,
          g.compressor.elem_index.Lookup 5)) =
      some ([0x00, 0x02, 97, 98, 0x01, 99], [], none) ∧
    (((demoFramer 16384).Encode demoCollaborators demoEntryA).bind
        (fun g => g.Encode demoCollaborators demoEntryB)).map
        (fun g => (g.output.drop 9, g.compressor.table.queue,
          g.compressor.elem_index.Lookup 5)) =
      some ([0x00, 0x02, 97, 98, 0x01, 99, 0x40, 0x02, 120, 121, 0x01, 122], [(62, 35)],
        some 62) := by
  refine ⟨by decide, by decide, by decide, by decide⟩

/-- C13, as amended: two calls of `Encode` in a row for the same interned
entry that is not served by the static table. When the first call inserts the
entry (the filter has seen its bucket, its hash is not 0, its table size is
below 512 and no larger than the maximum of the table, and the entry cache does
not hold it live), the first emission is the literal with incremental indexing
and the second is the single byte 0xBE: Indexed, wire index 62, of the form
1xxxxxxx. When the entry cache already holds the entry live, both emissions are
Indexed with its wire index `w`, one byte `0x80 | w` when `w < 127`. -/
theorem second_emission_indexed_once_inserted (env : Collaborators) (f : Framer)
    (elem : grpc_mdelem)
    (hM : 1 ≤ f.max_frame_size)
    (hint : GRPC_MDELEM_IS_INTERNED elem = true)
    (hns : ¬ (elem.storage = grpc_mdelem_data_storage.GRPC_MDELEM_STORAGE_STATIC ∧
      elem.static_index < 61)) :
    (elem.key.length + elem.value.length + 32 < 512 →
      elem.key.length + elem.value.length + 32 ≤ f.compressor.table.max_size →
      f.compressor.table.WF →
      elem.hash ≠ 0 →
      f.compressor.filter_elems.elems.getD (elem.hash % kNumFilterValues) 0 ≠ 0 →
      liveIndex f.compressor.table (f.compressor.elem_index.Lookup elem.hash) = false →
      ∃ g1 g2, f.Encode env elem = some g1 ∧ g1.Encode env elem = some g2 ∧
        f.EmitsHpack g1
          (if liveIndex f.compressor.table (f.compressor.key_index.Lookup elem.key_hash) then
            VarintWriter.Write (VarintWriter.mk 2 (f.compressor.table.DynamicIndex
              ((f.compressor.key_index.Lookup elem.key_hash).getD 0))) 0x40 ++
              valueField env (grpc_is_binary_header_internal elem.key)
                f.use_true_binary_metadata elem.value
          else
            0x40 :: (lengthPrefixed 0x00 elem.key ++
              valueField env (grpc_is_binary_header_internal elem.key)
                f.use_true_binary_metadata elem.value)) ∧
        g1.compressor.table.ConvertableToDynamicIndex f.compressor.table.next_index = true ∧
        g1.EmitsHpack g2 [0xBE] ∧ 0xBE / 128 = 1) ∧
    (liveIndex f.compressor.table (f.compressor.elem_index.Lookup elem.hash) = true →
      ∃ g1 g2, f.Encode env elem = some g1 ∧ g1.Encode env elem = some g2 ∧
        f.EmitsHpack g1 (indexedBytes (f.compressor.table.DynamicIndex
          ((f.compressor.elem_index.Lookup elem.hash).getD 0))) ∧
        g1.EmitsHpack g2 (indexedBytes (f.compressor.table.DynamicIndex
          ((f.compressor.elem_index.Lookup elem.hash).getD 0))) ∧
        (f.compressor.table.DynamicIndex
            ((f.compressor.elem_index.Lookup elem.hash).getD 0) < 127 →
          indexedBytes (f.compressor.table.DynamicIndex
            ((f.compressor.elem_index.Lookup elem.hash).getD 0)) =
            [0x80 ||| f.compressor.table.DynamicIndex
              ((f.compressor.elem_index.Lookup elem.hash).getD 0)])) := by
  constructor
  · intro hsz hfit hwf hh hseen hnl
    have hs : (f.compressor.filter_elems.AddElement (elem.hash % kNumFilterValues)).1 =
        true := by
      rw [(PopularityCount.addElement_spec _ _).1]
      simpa using hseen
    obtain ⟨g1, g2, h1, h2, e1, -, -, v1, e2, -⟩ :=
      Framer.encode_seen_then_indexed env f elem hM hint hns hsz hfit hwf hh hs hnl
    exact ⟨g1, g2, h1, h2, e1, v1, e2, by decide⟩
  · intro hl
    have s1 := Framer.encode_live env f elem hint hns hl
    obtain ⟨g1, h1⟩ := s1.1 hM
    obtain ⟨c1, e1⟩ := s1.2 g1 h1
    obtain ⟨o1, -⟩ := Framer.encode_options env f elem g1 h1
    have ht1 : g1.compressor.table = f.compressor.table := by rw [c1]
    have hi1 : g1.compressor.elem_index = f.compressor.elem_index := by rw [c1]
    have s2 := Framer.encode_live env g1 elem hint hns (by rw [ht1, hi1]; exact hl)
    obtain ⟨g2, h2⟩ := s2.1 (by rw [o1]; exact hM)
    obtain ⟨-, e2⟩ := s2.2 g2 h2
    rw [ht1, hi1] at e2
    exact ⟨g1, g2, h1, h2, e1, e2, indexedBytes_small _⟩

/-- C13 on a compressor whose filter has counted the bucket of `ab: c` once: the
two calls emit the literal with incremental indexing, then the byte 0xBE. -/
theorem second_emission_indexed_once_inserted_witness :
    (1 ≤ demoSeenFramer.max_frame_size ∧ GRPC_MDELEM_IS_INTERNED demoEntryA = true ∧
      demoEntryA.key.length + demoEntryA.value.length + 32 < 512 ∧
      demoSeenFramer.compressor.table.WF ∧ demoEntryA.hash ≠ 0 ∧
      demoSeenFramer.compressor.filter_elems.elems.getD
        (demoEntryA.hash % kNumFilterValues) 0 ≠ 0) ∧
    ∃ g1 g2, demoSeenFramer.Encode demoCollaborators demoEntryA = some g1 ∧
      g1.Encode demoCollaborators demoEntryA = some g2 ∧
      demoSeenFramer.EmitsHpack g1 [0x40, 0x02, 97, 98, 0x01, 99] ∧
      g1.EmitsHpack g2 [0xBE] := by
  obtain ⟨g1, g2, h1, h2, e1, -, e2, -⟩ :=
    (second_emission_indexed_once_inserted demoCollaborators demoSeenFramer demoEntryA
      (by decide) (by decide) (by decide)).1 (by decide) (by decide) (by decide) (by decide)
      (by decide) (by decide)
  exact ⟨⟨by decide, by decide, by decide, by decide, by decide, by decide⟩,
    g1, g2, h1, h2, e1, e2⟩

/-- C13 as stated fails: on a new compressor, whose table of 4096 bytes holds
the entry `ab: c` of 35 bytes, the second emission of the entry is the literal
with incremental indexing 0x40 0x02 `ab` 0x01 `c`, not an Indexed byte. -/
theorem second_emission_of_new_entry_is_literal :
    GRPC_MDELEM_IS_INTERNED demoEntryA = true ∧ demoEntryA.key_is_interned = true ∧
    demoEntryA.key.length + demoEntryA.value.length + 32 ≤
      (demoFramer 16384).compressor.table.max_size ∧
    (((demoFramer 16384).Encode demoCollaborators demoEntryA).bind
        (fun g => g.Encode demoCollaborators demoEntryA)).map (fun g => g.output.drop 9) =
      some [0x00, 0x02, 97, 98, 0x01, 99, 0x40, 0x02, 97, 98, 0x01, 99] ∧
    0x40 / 128 ≠ 1 := by
  refine ⟨by decide, by decide, by decide, by decide, by decide⟩

/-! ## The bound of the table size -/

/-- C26: after `SetMaxTableSize(n)` and after `SetMaxUsableSize(u)`, from any
state, the table is the result of `SetMaxSize(size)` for a `size` that is at
most `max_usable_size_` as the call leaves it, and `size` is then the maximum
size of the table; `SetMaxUsableSize(u)` leaves a maximum size no larger than
the one before the call. -/
theorem table_max_size_within_usable_size (c : HPackCompressor) (n u : Nat) :
    (∃ size, size ≤ (c.SetMaxTableSize n).max_usable_size ∧
      (c.SetMaxTableSize n).table = (c.table.SetMaxSize size).2 ∧
      (c.SetMaxTableSize n).table.max_size = size) ∧
    (∃ size, size ≤ (c.SetMaxUsableSize u).max_usable_size ∧
      (c.SetMaxUsableSize u).table = (c.table.SetMaxSize size).2 ∧
      (c.SetMaxUsableSize u).table.max_size = size) ∧
    (c.SetMaxUsableSize u).table.max_size ≤ c.table.max_size ∧
    (c.SetMaxTableSize n).max_usable_size = c.max_usable_size ∧
    (c.SetMaxUsableSize u).max_usable_size = u := by
  have t := HPackCompressor.setMaxTableSize_spec c n
  have s := HPackCompressor.setMaxUsableSize_spec c u
  have te : ∀ (c0 : HPackCompressor) (m : Nat),
      (c0.SetMaxTableSize m).table = (c0.table.SetMaxSize (min c0.max_usable_size m)).2 := by
    intro c0 m
    rw [HPackCompressor.setMaxTableSize_eq]
    split_ifs <;> rfl
  refine ⟨⟨min c.max_usable_size n, ?_, te c n, t.1⟩,
    ⟨min u (min c.table.max_size u), ?_, ?_, ?_⟩, ?_, t.2.1, s.2⟩
  · rw [t.2.1]; exact Nat.min_le_left _ _
  · rw [s.2]; exact Nat.min_le_left _ _
  · exact te { c with max_usable_size := u } (min c.table.max_size u)
  · rw [s.1]; omega
  · rw [s.1]; exact Nat.min_le_left _ _

/-! ## The assertion of `FillHeader` -/

theorem FillHeader_length_bytes (type id len flags : Nat) :
    read_be ((FillHeader type id len flags).take 3) = len % 2 ^ 24 := by
  simp only [FillHeader, u8, Nat.shiftRight_eq_div_pow, read_be, List.take, List.foldl]
  omega

/-- C23 at the failing input. The assertion of `FillHeader` is `len < 16777316`:
the length 16777216 = 2^24 satisfies it and is above 16777215, and the three
length bytes written for it are 0, 0, 0, which read back as 0. Every length the
assertion admits from 2^24 on reads back as `len - 2^24`; the lengths that read
back as themselves are those below 2^24. -/
theorem FillHeader_assertion_admits_lengths_above_24_bits :
    FillHeader_assertion 16777216 = true ∧ ¬ (16777216 ≤ 16777215) ∧
    (FillHeader 0x09 3 16777216 0).take 3 = [0, 0, 0] ∧
    read_be ((FillHeader 0x09 3 16777216 0).take 3) = 0 ∧
    (∀ len, FillHeader_assertion len = true ↔ len < 16777316) ∧
    (∀ type id len flags, FillHeader_assertion len = true → 16777215 < len →
      read_be ((FillHeader type id len flags).take 3) = len - 16777216 ∧
      read_be ((FillHeader type id len flags).take 3) ≠ len) ∧
    (∀ type id len flags,
      read_be ((FillHeader type id len flags).take 3) = len ↔ len ≤ 16777215) := by
  refine ⟨by decide, by decide, by decide, by decide, ?_, ?_, ?_⟩
  · intro len
    simp [FillHeader_assertion]
  · intro type id len flags ha hl
    have hb : len < 16777316 := by simpa [FillHeader_assertion] using ha
    rw [FillHeader_length_bytes]
    omega
  · intro type id len flags
    rw [FillHeader_length_bytes]
    omega

/-! ## The stream id of a frame header -/

theorem Frame.wire_stream_id (fr : Frame) (h : fr.stream_id < 2 ^ 31) :
    (fr.wire.drop 5).take 4 =
      [fr.stream_id / 2 ^ 24, fr.stream_id / 2 ^ 16 % 256, fr.stream_id / 2 ^ 8 % 256,
        fr.stream_id % 256] ∧
    read_be ((fr.wire.drop 5).take 4) = fr.stream_id ∧
    ∃ b, fr.wire.get? 5 = some b ∧ b / 128 = 0 := by
  have h1 : fr.stream_id / 2 ^ 24 % 256 = fr.stream_id / 2 ^ 24 := by omega
  refine ⟨?_, ?_, fr.stream_id / 2 ^ 24, ?_, by omega⟩
  · simp [Frame.wire, FillHeader, u8, Nat.shiftRight_eq_div_pow, h1]
    omega
  · simp only [Frame.wire, FillHeader, u8, Nat.shiftRight_eq_div_pow, read_be, List.cons_append,
      List.drop, List.take, List.foldl]
    omega
  · simp [Frame.wire, FillHeader, u8, Nat.shiftRight_eq_div_pow, h1]
    omega

theorem mem_headerBlock {eos : Bool} {sid : Nat} {chunks : List (List Nat)} {cur : List Nat}
    {fr : Frame} (h : fr ∈ headerBlock eos sid chunks cur) : fr.stream_id = sid := by
  unfold headerBlock at h
  rcases List.mem_append.mp h with h | h
  · exact (mem_framesOf h).2.2
  · rw [List.mem_singleton.mp h]; rfl

/-- C22, as amended. For every stream id below 2^31 the framer is constructed
with and every run (construction, any sequence of `Add` and `AddTiny` calls, the
final `FinishFrame(true)`), each frame of the output carries that stream id: the
bytes 5 to 8 of its header are the id, big-endian, and the top bit of byte 5 is
0. The run returns whenever `max_frame_size ≥ 1`. -/
theorem stream_id_field_is_31_bits (options : EncodeHeaderOptions)
    (compressor : HPackCompressor) (output : List Nat) (ops : List FramerOp)
    (hid : options.stream_id < 2 ^ 31) :
    (1 ≤ options.max_frame_size →
      ∃ g, (Framer.new options compressor output).runOps ops = some g) ∧
    ∀ g, (Framer.new options compressor output).runOps ops = some g →
      ∃ frames, (g.FinishFrame true).output = output ++ wireFrames frames ∧ frames ≠ [] ∧
        ∀ fr ∈ frames, fr.stream_id = options.stream_id ∧
          (fr.wire.drop 5).take 4 =
            [options.stream_id / 2 ^ 24, options.stream_id / 2 ^ 16 % 256,
              options.stream_id / 2 ^ 8 % 256, options.stream_id % 256] ∧
          read_be ((fr.wire.drop 5).take 4) = options.stream_id ∧
          ∃ b, fr.wire.get? 5 = some b ∧ b / 128 = 0 := by
  constructor
  · intro hM
    apply Option.isSome_iff_exists.mp
    apply Framer.runOps_isSome
    rw [(Framer.begun_appends_new options compressor output).same.max_frame_size]
    exact hM
  · intro g h
    obtain ⟨chunks, cur, ho, -⟩ := Framer.run_output options compressor output ops g h
    refine ⟨_, ho, by simp [headerBlock], ?_⟩
    intro fr hfr
    have hs := mem_headerBlock hfr
    have hw := Frame.wire_stream_id fr (by rw [hs]; exact hid)
    rw [hs] at hw
    exact ⟨hs, hw⟩

/-- C22 on a run of stream 3 with a frame size of four bytes: the run returns
and every frame of its output reads back the stream id 3. -/
theorem stream_id_field_is_31_bits_witness :
    (demoOptions 4).stream_id < 2 ^ 31 ∧
    ∃ g frames, (Framer.new (demoOptions 4) HPackCompressor.init []).runOps demoOps = some g ∧
      (g.FinishFrame true).output = [] ++ wireFrames frames ∧
      ∀ fr ∈ frames, read_be ((fr.wire.drop 5).take 4) = 3 := by
  have t := stream_id_field_is_31_bits (demoOptions 4) HPackCompressor.init [] demoOps
    (by decide)
  obtain ⟨g, hg⟩ := t.1 (by decide)
  obtain ⟨frames, ho, -, hf⟩ := t.2 g hg
  exact ⟨by decide, g, frames, hg, ho, fun fr hfr => (hf fr hfr).2.2.1⟩

/-- C22 as stated fails: `stream_id_` is a `uint32_t` that `FillHeader` writes
unmasked, so for the stream id 2^31 byte 5 of the header is 0x80, top bit
set. -/
theorem stream_id_top_bit_written_unmasked :
    (2147483648 : Nat) < 2 ^ 32 ∧
    ((Framer.new { demoOptions 16384 with stream_id := 2147483648 } HPackCompressor.init
      []).FinishFrame true).output = [0, 0, 0, 1, 5, 0x80, 0, 0, 0] ∧
    (0x80 : Nat) / 128 = 1 := by
  refine ⟨by decide, by decide, by decide⟩

/-! ## Termination of `Add` -/

theorem Framer.addFuel_mono_succ (fuel : Nat) : ∀ (f g : Framer) (slice : List Nat),
    AddFuel fuel f slice = some g → AddFuel (fuel + 1) f slice = some g := by
  induction fuel with
  | zero => intro f g slice h; simp [AddFuel] at h
  | succ fuel ih =>
    intro f g slice h
    rw [addFuel_succ] at h ⊢
    split_ifs at h ⊢ with h0 h1
    · exact h
    · exact h
    · exact ih _ _ _ h

theorem Framer.addFuel_mono {n m : Nat} (hnm : n ≤ m) (f g : Framer) (slice : List Nat)
    (h : AddFuel n f slice = some g) : AddFuel m f slice = some g := by
  induction hnm with
  | refl => exact h
  | step _ ih => exact addFuel_mono_succ _ _ _ _ ih

/-- `Add` returns within `n` recursive calls when the slice fits the rest of the
current frame and `n` further frames. -/
theorem Framer.addFuel_isSome_of_bound (n : Nat) : ∀ (f : Framer) (slice : List Nat),
    1 ≤ f.max_frame_size → f.CurrentFrameSize ≤ f.max_frame_size →
    slice.length ≤ (f.max_frame_size - f.CurrentFrameSize) + n * f.max_frame_size →
    (AddFuel (n + 1) f slice).isSome := by
  induction n with
  | zero =>
    intro f slice hM hc hb
    rw [addFuel_succ, size_sub_of_le hc]
    split_ifs with h0 h1
    · rfl
    · rfl
    · omega
  | succ n ih =>
    intro f slice hM hc hb
    rw [addFuel_succ, size_sub_of_le hc]
    split_ifs with h0 h1
    · rfl
    · rfl
    · apply ih
      · exact hM
      · rw [restart_currentFrameSize]; exact Nat.zero_le _
      · rw [restart_currentFrameSize, List.length_drop]
        show _ ≤ (f.max_frame_size - 0) + n * f.max_frame_size
        have e : (n + 1) * f.max_frame_size = n * f.max_frame_size + f.max_frame_size := by ring
        rw [e] at hb
        omega

theorem ceil_mul_ge (L M : Nat) (hM : 1 ≤ M) : L ≤ (L + M - 1) / M * M := by
  have h1 := Nat.div_add_mod (L + M - 1) M
  have h2 := Nat.mod_lt (L + M - 1) (show 0 < M by omega)
  rw [Nat.mul_comm] at h1
  generalize (L + M - 1) / M * M = p at h1 ⊢
  omega

theorem ceil_le (L M : Nat) (hM : 1 ≤ M) : (L + M - 1) / M ≤ L := by
  cases L with
  | zero => exact Nat.le_of_eq (Nat.div_eq_of_lt (by omega))
  | succ l =>
    apply Nat.div_le_of_le_mul
    cases M with
    | zero => omega
    | succ m =>
      have e : (m + 1) * (l + 1) = m * l + m + l + 1 := by ring
      rw [e]
      omega

/-- With a frame size of 0 and an empty current frame, `Add` of a slice that is
not empty makes its recursive call on the same slice, and no amount of fuel
makes it return. -/
theorem Framer.addFuel_none_of_zero (fuel : Nat) : ∀ (f : Framer) (slice : List Nat),
    f.max_frame_size = 0 → f.CurrentFrameSize = 0 → slice ≠ [] →
    AddFuel fuel f slice = none := by
  induction fuel with
  | zero => intro f slice _ _ _; rfl
  | succ fuel ih =>
    intro f slice hM hc hs
    have hl : slice.length ≠ 0 := fun h => hs (List.length_eq_zero.mp h)
    have hr : size_sub f.max_frame_size f.CurrentFrameSize = 0 := by rw [hM, hc]; rfl
    rw [addFuel_succ, hr, if_neg hl, if_neg (by omega), List.drop_zero]
    exact ih _ _ hM (restart_currentFrameSize _) hs

/-- C25: `Add` is total for `max_frame_size ≥ 1`. For a slice of length L and a
current frame of at most `max_frame_size` bytes, the call returns with at most
`⌈L / max_frame_size⌉` recursive calls (that much fuel and one unit for the
outer call is enough, and more fuel gives the same result, which is that of
`Add`). A call that recurses does so on an empty current frame and on the slice
without its first `max_frame_size - CurrentFrameSize` bytes, strictly shorter
unless the current frame was full. With `max_frame_size = 0`, an empty current
frame and a slice that is not empty, the recursive call is made on the same
slice and the call never returns. -/
theorem Add_returns_within_ceil_recursive_calls (f : Framer) (slice : List Nat) :
    (1 ≤ f.max_frame_size → f.CurrentFrameSize ≤ f.max_frame_size →
      ∃ g, f.AddFuel ((slice.length + f.max_frame_size - 1) / f.max_frame_size + 1) slice =
          some g ∧
        f.Add slice = some g ∧
        ∀ n, (slice.length + f.max_frame_size - 1) / f.max_frame_size + 1 ≤ n →
          f.AddFuel n slice = some g) ∧
    (f.CurrentFrameSize ≤ f.max_frame_size →
      f.max_frame_size - f.CurrentFrameSize < slice.length →
      ∃ f1 : Framer, (∀ n, f.AddFuel (n + 1) slice =
          f1.AddFuel n (slice.drop (f.max_frame_size - f.CurrentFrameSize))) ∧
        f1.CurrentFrameSize = 0 ∧ f1.max_frame_size = f.max_frame_size ∧
        (slice.drop (f.max_frame_size - f.CurrentFrameSize)).length =
          slice.length - (f.max_frame_size - f.CurrentFrameSize) ∧
        (f.CurrentFrameSize < f.max_frame_size →
          (slice.drop (f.max_frame_size - f.CurrentFrameSize)).length < slice.length) ∧
        (f.CurrentFrameSize = f.max_frame_size →
          slice.drop (f.max_frame_size - f.CurrentFrameSize) = slice)) ∧
    (f.max_frame_size = 0 → f.CurrentFrameSize = 0 → slice ≠ [] →
      ∀ n, f.AddFuel n slice = none) := by
  refine ⟨?_, ?_, ?_⟩
  · intro hM hc
    have hb := ceil_mul_ge slice.length f.max_frame_size hM
    obtain ⟨g, hg⟩ := Option.isSome_iff_exists.mp
      (Framer.addFuel_isSome_of_bound
        ((slice.length + f.max_frame_size - 1) / f.max_frame_size) f slice hM hc (by omega))
    have hle := ceil_le slice.length f.max_frame_size hM
    exact ⟨g, hg, Framer.addFuel_mono (by omega) f g slice hg,
      fun n hn => Framer.addFuel_mono hn f g slice hg⟩
  · intro hc hlt
    have hl : slice.length ≠ 0 := by omega
    refine ⟨Framer.restart
      { f with
        stats := { f.stats with
          header_bytes := f.stats.header_bytes + (f.max_frame_size - f.CurrentFrameSize) }
        output := f.output ++ slice.take (f.max_frame_size - f.CurrentFrameSize) },
      fun n => ?_, Framer.restart_currentFrameSize _, rfl, ?_, ?_, ?_⟩
    · rw [Framer.addFuel_succ, size_sub_of_le hc, if_neg hl, if_neg (by omega)]
    · rw [List.length_drop]
    · intro h
      rw [List.length_drop]
      omega
    · intro h
      rw [h, Nat.sub_self, List.drop_zero]
  · intro hM hc hs n
    exact Framer.addFuel_none_of_zero n f slice hM hc hs

/-- C25 on a full frame of four bytes and a slice of eight bytes: the bound of
two recursive calls is met, and one recursive call is not enough. -/
theorem Add_returns_within_ceil_recursive_calls_witness :
    (1 ≤ ((demoFramer 4).AddTinyBytes [1, 2, 3, 4]).max_frame_size ∧
      ((demoFramer 4).AddTinyBytes [1, 2, 3, 4]).CurrentFrameSize ≤
        ((demoFramer 4).AddTinyBytes [1, 2, 3, 4]).max_frame_size) ∧
    (∃ g, ((demoFramer 4).AddTinyBytes [1, 2, 3, 4]).AddFuel 3 [5, 6, 7, 8, 9, 10, 11, 12] =
        some g ∧
      ((demoFramer 4).AddTinyBytes [1, 2, 3, 4]).Add [5, 6, 7, 8, 9, 10, 11, 12] = some g) ∧
    ((demoFramer 4).AddTinyBytes [1, 2, 3, 4]).AddFuel 2 [5, 6, 7, 8, 9, 10, 11, 12] = none := by
  obtain ⟨g, h1, h2, -⟩ :=
    (Add_returns_within_ceil_recursive_calls ((demoFramer 4).AddTinyBytes [1, 2, 3, 4])
      [5, 6, 7, 8, 9, 10, 11, 12]).1 (by decide) (by decide)
  exact ⟨⟨by decide, by decide⟩, ⟨g, h1, h2⟩, by decide⟩

/-! ## The calls of `AllocateIndex` on the generic path -/

theorem HPackCompressor.addElem_counted_eq (c : HPackCompressor) (calls : Nat)
    (elem_size elem_hash key_hash : Nat) :
    c.AddElem_counted calls elem_size elem_hash key_hash =
      (c.AddElem elem_size elem_hash key_hash, calls + 1) := by
  unfold AddElem_counted AddElem
  simp only []
  split_ifs <;> rfl

theorem HPackCompressor.addKey_counted_eq (c : HPackCompressor) (calls : Nat)
    (elem_size key_hash : Nat) :
    c.AddKey_counted calls elem_size key_hash = (c.AddKey elem_size key_hash, calls + 1) := by
  unfold AddKey_counted AddKey
  simp only []
  split_ifs <;> rfl

theorem Framer.encodeDynamic_literal_counted_eq (env : Collaborators) (f : Framer)
    (elem : grpc_mdelem) (elem_interned : Bool) (elem_hash : Nat) :
    f.EncodeDynamic_literal_counted env elem elem_interned elem_hash =
      (f.EncodeDynamic_literal env elem elem_interned elem_hash).map (fun g =>
        (g, if (elem_interned &&
            decide (MetadataSizeInHPackTable elem false < kMaxDecoderSpaceUsage) &&
            decide (elem_hash ≠ 0)) ||
            (!liveIndex f.compressor.table (f.compressor.key_index.Lookup elem.key_hash) &&
              (!elem_interned &&
                decide (MetadataSizeInHPackTable elem false < kMaxDecoderSpaceUsage)))
          then 1 else 0)) := by
  rw [encodeDynamic_literal_eq]
  unfold EncodeDynamic_literal_counted
  simp only [HPackCompressor.addElem_counted_eq, HPackCompressor.addKey_counted_eq]
  have hsz : MetadataSizeInHPackTable elem f.use_true_binary_metadata =
      MetadataSizeInHPackTable elem false := rfl
  have hk : (match f.compressor.key_index.Lookup elem.key_hash with
      | some i => f.compressor.table.ConvertableToDynamicIndex i
      | none => false) = liveIndex f.compressor.table
        (f.compressor.key_index.Lookup elem.key_hash) := rfl
  rw [hsz, hk]
  generalize MetadataSizeInHPackTable elem false = size
  generalize (elem_interned && decide (size < kMaxDecoderSpaceUsage) &&
    decide (elem_hash ≠ 0)) = sae
  generalize (!elem_interned && decide (size < kMaxDecoderSpaceUsage)) = sak
  cases liveIndex f.compressor.table (f.compressor.key_index.Lookup elem.key_hash) <;>
    cases sae <;> cases sak <;>
    simp [Option.map_map, Function.comp_def]

/-- The counted `EncodeDynamic` is `EncodeDynamic` together with the number of
calls of `AllocateIndex`, which is 1 when `EncodeDynamic_allocates` holds and 0
otherwise. -/
theorem Framer.encodeDynamic_counted_eq (env : Collaborators) (f : Framer) (elem : grpc_mdelem) :
    f.EncodeDynamic_counted env elem =
      (f.EncodeDynamic env elem).map (fun g =>
        (g, if EncodeDynamic_allocates f.compressor elem then 1 else 0)) := by
  rw [encodeDynamic_eq]
  unfold EncodeDynamic_counted EncodeDynamic_allocates
  simp only [encodeDynamic_literal_counted_eq]
  have hk : (match f.compressor.elem_index.Lookup elem.hash with
      | some i => f.compressor.table.ConvertableToDynamicIndex i
      | none => false) = liveIndex f.compressor.table
        (f.compressor.elem_index.Lookup elem.hash) := rfl
  rw [hk]
  cases hi : GRPC_MDELEM_IS_INTERNED elem
  · cases hki : elem.key_is_interned
    · simp
    · simp [MetadataSizeInHPackTable, kEntryOverhead, kMaxDecoderSpaceUsage]
  · cases hl : liveIndex f.compressor.table (f.compressor.elem_index.Lookup elem.hash)
    · cases hc : (f.compressor.filter_elems.AddElement (elem.hash % kNumFilterValues)).1 <;>
        simp [MetadataSizeInHPackTable, kEntryOverhead, kMaxDecoderSpaceUsage]
    · simp

theorem HPackCompressor.addElem_zero (c : HPackCompressor) (size elem_hash key_hash : Nat)
    (h0 : (c.table.AllocateIndex size).1 = 0) :
    c.AddElem size elem_hash key_hash = { c with table := (c.table.AllocateIndex size).2 } ∧
    c.AddKey size key_hash = { c with table := (c.table.AllocateIndex size).2 } := by
  unfold AddElem AddKey
  simp only []
  rw [if_neg (by simp [h0]), if_neg (by simp [h0])]
  exact ⟨rfl, rfl⟩

/-- The cases in which `EncodeDynamic` leaves the table and both index caches as
they were. -/
theorem HPackCompressor.afterEncodeDynamic_unchanged (c : HPackCompressor) (elem : grpc_mdelem) :
    ((GRPC_MDELEM_IS_INTERNED elem || elem.key_is_interned) = false →
      c.afterEncodeDynamic elem = c) ∧
    (512 ≤ elem.key.length + elem.value.length + 32 →
      (c.afterEncodeDynamic elem).table = c.table ∧
      (c.afterEncodeDynamic elem).elem_index = c.elem_index ∧
      (c.afterEncodeDynamic elem).key_index = c.key_index) ∧
    (GRPC_MDELEM_IS_INTERNED elem = true →
      liveIndex c.table (c.elem_index.Lookup elem.hash) = true →
      (c.afterEncodeDynamic elem).table = c.table ∧
      (c.afterEncodeDynamic elem).elem_index = c.elem_index ∧
      (c.afterEncodeDynamic elem).key_index = c.key_index) := by
  refine ⟨?_, ?_, ?_⟩
  · intro h
    unfold afterEncodeDynamic
    simp [h]
  · intro h
    have hs : ¬ (elem.key.length + elem.value.length + kEntryOverhead <
        kMaxDecoderSpaceUsage) := by
      show ¬ (elem.key.length + elem.value.length + 32 < 512)
      omega
    unfold afterEncodeDynamic afterLiteral
    simp only [hs, decide_False, Bool.and_false, Bool.false_and, Bool.false_eq_true, if_false,
      ite_self]
    split_ifs <;> exact ⟨rfl, rfl, rfl⟩
  · intro hi hl
    unfold afterEncodeDynamic
    simp [hi, hl]

/-- C24: the calls of `AllocateIndex` in `EncodeDynamic`, counted by a ghost
counter that the call sites in `AddElem` and `AddKey` increment (the counted
function returns the framer `EncodeDynamic` returns). The count is at most 1,
and it is 1 if and only if no early return happened and either
`should_add_elem` holds, or the key cache has no live hit and `should_add_key`
holds. For a key that is not interned the compressor is left as it was; for an
entry of table size 512 or more, and for an entry with a live hit in the entry
cache, the table and both index caches are left as they were. When
`AllocateIndex` returns 0, `AddElem` and `AddKey` leave both index caches as
they were. -/
theorem EncodeDynamic_allocates_at_most_once (env : Collaborators) (f : Framer)
    (elem : grpc_mdelem) :
    (f.EncodeDynamic_counted env elem).map Prod.fst = f.EncodeDynamic env elem ∧
    (1 ≤ f.max_frame_size → ∃ r, f.EncodeDynamic_counted env elem = some r) ∧
    (∀ r, f.EncodeDynamic_counted env elem = some r →
      r.2 ≤ 1 ∧ (r.2 = 1 ↔ EncodeDynamic_allocates f.compressor elem = true)) ∧
    (∀ g, f.EncodeDynamic env elem = some g →
      ((GRPC_MDELEM_IS_INTERNED elem || elem.key_is_interned) = false →
        g.compressor = f.compressor) ∧
      (512 ≤ elem.key.length + elem.value.length + 32 →
        g.compressor.table = f.compressor.table ∧
        g.compressor.elem_index = f.compressor.elem_index ∧
        g.compressor.key_index = f.compressor.key_index) ∧
      (GRPC_MDELEM_IS_INTERNED elem = true →
        liveIndex f.compressor.table (f.compressor.elem_index.Lookup elem.hash) = true →
        g.compressor.table = f.compressor.table ∧
        g.compressor.elem_index = f.compressor.elem_index ∧
        g.compressor.key_index = f.compressor.key_index)) ∧
    (∀ (c : HPackCompressor) (size elem_hash key_hash : Nat),
      (c.table.AllocateIndex size).1 = 0 →
      (c.AddElem size elem_hash key_hash).elem_index = c.elem_index ∧
      (c.AddElem size elem_hash key_hash).key_index = c.key_index ∧
      (c.AddKey size key_hash).elem_index = c.elem_index ∧
      (c.AddKey size key_hash).key_index = c.key_index) := by
  have hc := Framer.encodeDynamic_counted_eq env f elem
  have ho := Framer.encodeDynamic_outcome env f elem
  refine ⟨?_, ?_, ?_, ?_, ?_⟩
  · rw [hc, Option.map_map]
    cases f.EncodeDynamic env elem <;> rfl
  · intro hM
    obtain ⟨g, hg⟩ := ho.1 hM
    exact ⟨_, by rw [hc, hg]; rfl⟩
  · intro r hr
    rw [hc] at hr
    simp only [Option.map_eq_some'] at hr
    obtain ⟨g, -, rfl⟩ := hr
    cases EncodeDynamic_allocates f.compressor elem <;> simp
  · intro g hg
    obtain ⟨hcomp, -⟩ := ho.2 g hg
    obtain ⟨u1, u2, u3⟩ := HPackCompressor.afterEncodeDynamic_unchanged f.compressor elem
    rw [hcomp]
    exact ⟨u1, u2, u3⟩
  · intro c size elem_hash key_hash h0
    obtain ⟨e1, e2⟩ := HPackCompressor.addElem_zero c size elem_hash key_hash h0
    rw [e1, e2]
    exact ⟨rfl, rfl, rfl, rfl⟩

/-- C24 on a compressor whose filter has seen the bucket of `ab: c`: the call for
`ab: c` returns and makes one call of `AllocateIndex`. -/
theorem EncodeDynamic_allocates_at_most_once_witness :
    (EncodeDynamic_allocates demoSeenFramer.compressor demoEntryA = true ∧
      1 ≤ demoSeenFramer.max_frame_size) ∧
    ∃ r, demoSeenFramer.EncodeDynamic_counted demoCollaborators demoEntryA = some r ∧
      r.2 = 1 := by
  have t := EncodeDynamic_allocates_at_most_once demoCollaborators demoSeenFramer demoEntryA
  obtain ⟨r, hr⟩ := t.2.1 (by decide)
  exact ⟨⟨by decide, by decide⟩, r, hr, ((t.2.2.1 r hr).2).mpr (by decide)⟩

/-! ## Entries that exceed the table -/

/-- An entry larger than the maximum of the table: `AllocateIndex` returns 0 and
empties the table, in which no index is live. -/
theorem HPackEncoderTable.allocateIndex_too_big (t : HPackEncoderTable) (size : Nat)
    (h : t.max_size < size) :
    (t.AllocateIndex size).1 = 0 ∧
    (t.AllocateIndex size).2 =
      { t with queue := [], current_size := 0, first_live_index := t.next_index } ∧
    ∀ i, (t.AllocateIndex size).2.ConvertableToDynamicIndex i = false := by
  have e : t.AllocateIndex size =
      (0, { t with queue := [], current_size := 0, first_live_index := t.next_index }) := by
    unfold AllocateIndex
    rw [if_pos h]
  rw [e]
  refine ⟨rfl, rfl, fun i => ?_⟩
  unfold ConvertableToDynamicIndex
  simp only [Bool.and_eq_false_imp, decide_eq_true_eq, decide_eq_false_iff_not]
  intro h1
  omega

/-- When `EncodeDynamic` calls `AllocateIndex`, the literal it emits is the one
with incremental indexing, with the indexed name when the key cache holds the
key live and with a new name otherwise. -/
theorem EncodeDynamic_decision_of_allocates (env : Collaborators) (c : HPackCompressor)
    (true_binary : Bool) (elem : grpc_mdelem) (h : EncodeDynamic_allocates c elem = true) :
    EncodeDynamic_decision env c true_binary elem =
      if liveIndex c.table (c.key_index.Lookup elem.key_hash) then
        VarintWriter.Write (VarintWriter.mk 2 (c.table.DynamicIndex
          ((c.key_index.Lookup elem.key_hash).getD 0))) 0x40 ++
          valueField env (grpc_is_binary_header_internal elem.key) true_binary elem.value
      else
        0x40 :: (lengthPrefixed 0x00 elem.key ++
          valueField env (grpc_is_binary_header_internal elem.key) true_binary elem.value) := by
  unfold EncodeDynamic_allocates at h
  unfold EncodeDynamic_decision
  simp only [] at h ⊢
  cases hi : GRPC_MDELEM_IS_INTERNED elem <;> cases hki : elem.key_is_interned <;>
    cases hl : liveIndex c.table (c.elem_index.Lookup elem.hash) <;>
    cases hk : liveIndex c.table (c.key_index.Lookup elem.key_hash) <;>
    simp [hi, hki, hl, hk] at h ⊢ <;>
    first | omega | simp [h]

/-- When `EncodeDynamic` calls `AllocateIndex`, the table it leaves is the one
`AllocateIndex` leaves; when the call returned 0, both index caches are as they
were. -/
theorem HPackCompressor.afterEncodeDynamic_of_allocates (c : HPackCompressor)
    (elem : grpc_mdelem) (h : EncodeDynamic_allocates c elem = true) :
    (c.afterEncodeDynamic elem).table =
      (c.table.AllocateIndex (elem.key.length + elem.value.length + 32)).2 ∧
    ((c.table.AllocateIndex (elem.key.length + elem.value.length + 32)).1 = 0 →
      (c.afterEncodeDynamic elem).elem_index = c.elem_index ∧
      (c.afterEncodeDynamic elem).key_index = c.key_index) := by
  unfold EncodeDynamic_allocates at h
  unfold afterEncodeDynamic afterLiteral AddElem AddKey
  simp only [kEntryOverhead, kMaxDecoderSpaceUsage] at h ⊢
  cases hi : GRPC_MDELEM_IS_INTERNED elem <;> cases hki : elem.key_is_interned <;>
    cases hl : liveIndex c.table (c.elem_index.Lookup elem.hash) <;>
    cases hk : liveIndex c.table (c.key_index.Lookup elem.key_hash) <;>
    cases hc : (c.filter_elems.AddElement (elem.hash % kNumFilterValues)).1 <;>
    simp [hi, hki, hl, hk, hc] at h ⊢ <;>
    (refine ⟨?_, fun h0 => ?_⟩
     · split_ifs <;> rfl
     · simp [h, h0])

theorem SliceIndex.emitTo_literal_outcome (si : SliceIndex) (key value : List Nat) (f : Framer)
    (put : HPackCompressor → SliceIndex → HPackCompressor)
    (hpt : ∀ c s, (put c s).table = c.table)
    (h : si.hitsLive f.compressor.table value = false) :
    ∃ c, CallOutcome f
        ((si.EmitTo key value f).map (fun r => { r.2 with compressor := put r.2.compressor r.1 }))
        c (literalNewNameBytes 0x40 key (plainValuePrefix value) value) ∧
      c.table = (f.compressor.table.AllocateIndex (key.length + value.length + 32)).2 := by
  unfold SliceIndex.hitsLive at h
  cases hf : si.values.findIdx? (fun v => value == v.value) with
  | none =>
    exact ⟨_, SliceIndex.emitTo_miss_outcome si key value f put hf, by rw [hpt]; rfl⟩
  | some i =>
    rw [hf] at h
    exact ⟨_, SliceIndex.emitTo_stale_outcome si key value f put i hf h, by rw [hpt]; rfl⟩

/-- C21, as amended. Whenever `AllocateIndex` returns 0 because the entry exceeds
the maximum size of the table, the entry is emitted as a literal with
incremental indexing (first byte 01xxxxxx), at every call site of
`AllocateIndex`: the generic path (`AddElem`, `AddKey`), `EncodeAlwaysIndexed`
(`te`, `content-type`, `user-agent`), `EncodeIndexedKeyWithBinaryValue`
(`grpc-trace-bin`, `grpc-tags-bin`), `SliceIndex::EmitTo` (`:path`,
`:authority`) and `Encode(GrpcStatusMetadata)`. The table is emptied; the
generic path leaves both index caches as they were, the fast paths store the
index 0, which is not live. -/
theorem oversized_entry_emitted_with_incremental_indexing (env : Collaborators) (f : Framer) :
    (∀ size, f.compressor.table.max_size < size →
      (f.compressor.table.AllocateIndex size).1 = 0 ∧
      (f.compressor.table.AllocateIndex size).2.queue = [] ∧
      ∀ i, (f.compressor.table.AllocateIndex size).2.ConvertableToDynamicIndex i = false) ∧
    (∀ elem : grpc_mdelem,
      f.compressor.table.max_size < elem.key.length + elem.value.length + 32 →
      EncodeDynamic_allocates f.compressor elem = true →
      ∃ c b tl, CallOutcome f (f.EncodeDynamic env elem) c (b :: tl) ∧ b / 64 = 1 ∧
        b :: tl =
          (if liveIndex f.compressor.table (f.compressor.key_index.Lookup elem.key_hash) then
            VarintWriter.Write (VarintWriter.mk 2 (f.compressor.table.DynamicIndex
              ((f.compressor.key_index.Lookup elem.key_hash).getD 0))) 0x40 ++
              valueField env (grpc_is_binary_header_internal elem.key)
                f.use_true_binary_metadata elem.value
          else
            0x40 :: (lengthPrefixed 0x00 elem.key ++
              valueField env (grpc_is_binary_header_internal elem.key)
                f.use_true_binary_metadata elem.value)) ∧
        c.table =
          (f.compressor.table.AllocateIndex (elem.key.length + elem.value.length + 32)).2 ∧
        c.elem_index = f.compressor.elem_index ∧ c.key_index = f.compressor.key_index) ∧
    (∀ (get : HPackCompressor → Nat) (set : HPackCompressor → Nat → HPackCompressor)
        (key value : List Nat) (transport_length : Nat),
      f.compressor.table.ConvertableToDynamicIndex (get f.compressor) = false →
      f.compressor.table.max_size < transport_length →
      CallOutcome f (f.EncodeAlwaysIndexed get set key value transport_length)
        (set { f.compressor with
          table := (f.compressor.table.AllocateIndex transport_length).2 } 0)
        (literalNewNameBytes 0x40 key (plainValuePrefix value) value)) ∧
    (∀ (get : HPackCompressor → Nat) (set : HPackCompressor → Nat → HPackCompressor)
        (key value : List Nat),
      f.compressor.table.ConvertableToDynamicIndex (get f.compressor) = false →
      f.compressor.table.max_size < key.length + value.length + 32 →
      CallOutcome f (f.EncodeIndexedKeyWithBinaryValue env get set key value)
        (set { f.compressor with
          table := (f.compressor.table.AllocateIndex (key.length + value.length + 32)).2 } 0)
        (literalNewNameBytes 0x40 key
          (StringValue.newBinary env value f.use_true_binary_metadata).WritePrefix
          (StringValue.newBinary env value f.use_true_binary_metadata).data)) ∧
    (∀ value : List Nat,
      f.compressor.path_index.hitsLive f.compressor.table value = false →
      f.compressor.table.max_size < GRPC_MDSTR_PATH.length + value.length + 32 →
      ∃ c, CallOutcome f (f.Encode_HttpPathMetadata value) c
          (literalNewNameBytes 0x40 GRPC_MDSTR_PATH (plainValuePrefix value) value) ∧
        c.table = (f.compressor.table.AllocateIndex
          (GRPC_MDSTR_PATH.length + value.length + 32)).2) ∧
    (∀ value : List Nat,
      f.compressor.authority_index.hitsLive f.compressor.table value = false →
      f.compressor.table.max_size < GRPC_MDSTR_AUTHORITY.length + value.length + 32 →
      ∃ c, CallOutcome f (f.Encode_HttpAuthorityMetadata value) c
          (literalNewNameBytes 0x40 GRPC_MDSTR_AUTHORITY (plainValuePrefix value) value) ∧
        c.table = (f.compressor.table.AllocateIndex
          (GRPC_MDSTR_AUTHORITY.length + value.length + 32)).2) ∧
    (∀ code : Nat, code < kNumCachedGrpcStatusValues f.compressor →
      f.compressor.table.ConvertableToDynamicIndex
        (f.compressor.cached_grpc_status.getD code 0) = false →
      f.compressor.table.max_size < 11 + (gpr_ltoa code).length + 32 →
      CallOutcome f (f.Encode_GrpcStatusMetadata code)
        { f.compressor with
          table := (f.compressor.table.AllocateIndex (11 + (gpr_ltoa code).length + 32)).2,
          cached_grpc_status := f.compressor.cached_grpc_status.set code 0 }
        (literalNewNameBytes 0x40 GrpcStatusMetadata_key (plainValuePrefix (gpr_ltoa code))
          (gpr_ltoa code))) := by
  refine ⟨?_, ?_, ?_, ?_, ?_, ?_, ?_⟩
  · intro size hs
    obtain ⟨a1, a2, a3⟩ := HPackEncoderTable.allocateIndex_too_big _ size hs
    exact ⟨a1, by rw [a2], a3⟩
  · intro elem hs ha
    obtain ⟨a1, -, -⟩ := HPackEncoderTable.allocateIndex_too_big _ _ hs
    have ho := Framer.encodeDynamic_outcome env f elem
    rw [EncodeDynamic_decision_of_allocates env f.compressor f.use_true_binary_metadata elem ha]
      at ho
    obtain ⟨t1, t2⟩ := HPackCompressor.afterEncodeDynamic_of_allocates f.compressor elem ha
    obtain ⟨t3, t4⟩ := t2 a1
    by_cases hk : liveIndex f.compressor.table (f.compressor.key_index.Lookup elem.key_hash) =
        true
    · obtain ⟨tl, htl⟩ := VarintWriter.write_first 2 (f.compressor.table.DynamicIndex
        ((f.compressor.key_index.Lookup elem.key_hash).getD 0)) 0x40
      rw [if_pos hk] at ho ⊢
      refine ⟨f.compressor.afterEncodeDynamic elem,
        0x40 ||| min (f.compressor.table.DynamicIndex
          ((f.compressor.key_index.Lookup elem.key_hash).getD 0)) (2 ^ (8 - 2) - 1),
        tl ++ valueField env (grpc_is_binary_header_internal elem.key)
          f.use_true_binary_metadata elem.value, ?_,
        first_byte_forms.2.1 _ (Nat.min_le_right _ _), ?_, t1, t3, t4⟩
      · rw [← List.cons_append, ← htl]; exact ho
      · rw [← List.cons_append, ← htl]
    · rw [if_neg hk] at ho ⊢
      exact ⟨_, _, _, ho, by decide, rfl, t1, t3, t4⟩
  · intro get set key value transport_length hl hs
    obtain ⟨a1, -, -⟩ := HPackEncoderTable.allocateIndex_too_big _ _ hs
    have ho := Framer.encodeAlwaysIndexed_stale f get set key value transport_length hl
    rw [a1] at ho
    exact ho
  · intro get set key value hl hs
    obtain ⟨a1, -, -⟩ := HPackEncoderTable.allocateIndex_too_big _ _ hs
    have ho := Framer.encodeIndexedKeyWithBinaryValue_stale env f get set key value hl
    have e : (f.compressor.table.AllocateIndex (key.length + value.length + kEntryOverhead)).1 =
        0 := a1
    rw [e] at ho
    exact ho
  · intro value hh _
    exact SliceIndex.emitTo_literal_outcome f.compressor.path_index GRPC_MDSTR_PATH value f
      (fun c s => { c with path_index := s }) (fun _ _ => rfl) hh
  · intro value hh _
    exact SliceIndex.emitTo_literal_outcome f.compressor.authority_index GRPC_MDSTR_AUTHORITY
      value f (fun c s => { c with authority_index := s }) (fun _ _ => rfl) hh
  · intro code hc hl hs
    obtain ⟨a1, -, -⟩ := HPackEncoderTable.allocateIndex_too_big _ _ hs
    have e : f.Encode_GrpcStatusMetadata code =
        Framer.EmitLitHdrWithNonBinaryStringKeyIncIdx
          { f with compressor := { f.compressor with
            table := (f.compressor.table.AllocateIndex (11 + (gpr_ltoa code).length + 32)).2,
            cached_grpc_status := f.compressor.cached_grpc_status.set code
              (f.compressor.table.AllocateIndex (11 + (gpr_ltoa code).length + 32)).1 } }
          GrpcStatusMetadata_key (gpr_ltoa code) := by
      unfold Framer.Encode_GrpcStatusMetadata
      simp only [hc, hl, decide_True, Bool.and_false, Bool.false_eq_true, if_false, if_true]
      rfl
    rw [e, a1]
    exact Framer.incIdx_outcome f _ _ _

theorem oversized_entry_emitted_with_incremental_indexing_witness :
    demoSmallFramer.compressor.table.max_size < 2 + 8 + 32 ∧
    (demoSmallFramer.compressor.table.AllocateIndex (2 + 8 + 32)).1 = 0 ∧
    CallOutcome demoSmallFramer
      (demoSmallFramer.EncodeAlwaysIndexed (fun c => c.te_index)
        (fun c i => { c with te_index := i }) GRPC_MDSTR_TE GRPC_MDSTR_TRAILERS (2 + 8 + 32))
      { demoSmallFramer.compressor with
        table := (demoSmallFramer.compressor.table.AllocateIndex (2 + 8 + 32)).2, te_index := 0 }
      (literalNewNameBytes 0x40 GRPC_MDSTR_TE (plainValuePrefix GRPC_MDSTR_TRAILERS)
        GRPC_MDSTR_TRAILERS) ∧
    literalNewNameBytes 0x40 GRPC_MDSTR_TE (plainValuePrefix GRPC_MDSTR_TRAILERS)
        GRPC_MDSTR_TRAILERS = [0x40, 2, 116, 101, 8, 116, 114, 97, 105, 108, 101, 114, 115] :=
  ⟨by decide,
    ((oversized_entry_emitted_with_incremental_indexing demoCollaborators demoSmallFramer).1
      (2 + 8 + 32) (by decide)).1,
    (oversized_entry_emitted_with_incremental_indexing demoCollaborators demoSmallFramer).2.2.1
      (fun c => c.te_index) (fun c i => { c with te_index := i }) GRPC_MDSTR_TE
      GRPC_MDSTR_TRAILERS (2 + 8 + 32) (by decide) (by decide),
    by decide⟩

/-- C21 as stated fails: on a compressor whose table holds at most 10 bytes,
`AllocateIndex` returns 0 for `te: trailers` (42 bytes) and for the entry
`ab: c` (35 bytes), and the encoder emits each as a literal with incremental
indexing, first byte 0x40, after the table size update 0x2a: the fast path
`Encode(TeMetadata)` writes 0x40 0x02 `te` 0x08 `trailers`, the generic path
writes 0x40 0x02 `ab` 0x01 `c`. Neither first byte is of the form 0000xxxx of
a literal without indexing. -/
theorem oversized_te_emitted_with_incremental_indexing :
    demoSmallFramer.compressor.table.max_size = 10 ∧
    (demoSmallFramer.compressor.table.AllocateIndex (2 + 8 + 32)).1 = 0 ∧
    (demoSmallFramer.Encode_TeMetadata Framer.TeValueType.kTrailers).map
        (fun g => (g.output.drop 9, g.compressor.te_index, g.compressor.table.queue)) =
      some ([0x2a, 0x40, 2, 116, 101, 8, 116, 114, 97, 105, 108, 101, 114, 115], 0, []) ∧
    GRPC_MDELEM_IS_INTERNED demoEntryA = true ∧ demoEntryA.key_is_interned = true ∧
    (demoSmallSeenFramer.compressor.table.AllocateIndex
      (demoEntryA.key.length + demoEntryA.value.length + 32)).1 = 0 ∧
    (demoSmallSeenFramer.Encode demoCollaborators demoEntryA).map
        (fun g => (g.output.drop 9, g.compressor.elem_index.Lookup demoEntryA.hash,
          g.compressor.table.queue)) =
      some ([0x2a, 0x40, 2, 97, 98, 1, 99], none, []) ∧
    0x40 / 16 ≠ 0 := by
  refine ⟨by decide, by decide, by decide, by decide, by decide, by decide, by decide,
    by decide⟩

end grpc_core
